import Mathlib

/-!
# Coding-block split search of libde265 (encoder/algo/cb-split.cc, encode.h)

A shallow embedding of `Algo_CB_Split::forcedSplit`, `Algo_CB_Split::encode_cb_split`
and `Algo_CB_Split_BruteForce::analyze`, of the `enc_cb` tree they build, and of
`enc_tb::isZeroBlock`.

Modelling conventions.

* C `int` values are mathematical integers (`Int`).  Signed overflow and shifts by a
  count outside `0..30` are undefined behaviour in C and lie outside the model; the
  `uint8_t` fields of `enc_cb` are stored modulo 256.
* C `float` values live in a type `F` of which only `0`, `+`, `*` and `<` are used,
  exactly the operations the source applies.  No law of arithmetic is assumed unless a
  theorem names it in its instance arguments.
* The collaborators whose code is outside these two files (the prediction-mode search
  `mIntraPartModeAlgo->analyze`, the CABAC rate estimator behind `encode_quadtree`,
  `enc_cb::write_to_image`, `enc_cb::reconstruct`) are fields of `Env`.  Each acts on the
  context-model table it is handed (`Ctx`) and on the remaining encoder state (`W`:
  `ectx->img` and the other mutable members of `encoder_context`).
* An `enc_cb*` is a value of `enc_cb F L`; `enc_cb.null` is the NULL pointer.  The
  anonymous union of `enc_cb` is the choice between the constructors `split` and `leaf`;
  `L` is the payload of a non-split node (prediction and partition modes, transform tree).
* Dereferencing NULL ends the run with `Fault.nullDeref`, reading the local table
  `ctxCopy` of `analyze` before it was written with `Fault.uninitRead`.
-/

namespace Libde265

/-- Abnormal ends of a run of the model. -/
inductive Fault where
  /-- A member of a NULL `enc_cb*` is read. -/
  | nullDeref : Fault
  /-- The recursion budget of `analyzeFuel` is used up (never the case for `analyze`). -/
  | outOfFuel : Fault
  /-- The local array `ctxCopy` is read while its content is still indeterminate. -/
  | uninitRead : Fault
  deriving DecidableEq, Repr

/-- What an `enc_cb*` points to (encode.h, `struct enc_cb`). -/
inductive enc_cb (F L : Type) where
  /-- The NULL pointer. -/
  | null : enc_cb F L
  /-- A node with `split_cu_flag` set: the union holds `children[4]`. -/
  | split (log2CbSize ctDepth : Int) (c0 c1 c2 c3 : enc_cb F L)
      (distortion rate : F) : enc_cb F L
  /-- A node with `split_cu_flag` clear: the union holds the non-split members. -/
  | leaf (log2CbSize ctDepth : Int) (data : L) (distortion rate : F) : enc_cb F L
  deriving DecidableEq, Repr

section Model

variable {F L Ctx W : Type}

/-- Field `split_cu_flag`. -/
def enc_cb.split_cu_flag : enc_cb F L → Bool
  | .split _ _ _ _ _ _ _ _ => true
  | _ => false

/-- Test `p == NULL`. -/
def enc_cb.isNull : enc_cb F L → Bool
  | .null => true
  | _ => false

/-- Field `distortion` (read only after the pointer is known to be non-NULL). -/
def enc_cb.distortion [Zero F] : enc_cb F L → F
  | .null => 0
  | .split _ _ _ _ _ _ d _ => d
  | .leaf _ _ _ d _ => d

/-- Field `rate` (read only after the pointer is known to be non-NULL). -/
def enc_cb.rate [Zero F] : enc_cb F L → F
  | .null => 0
  | .split _ _ _ _ _ _ _ r => r
  | .leaf _ _ _ _ r => r

/-- Field `log2CbSize`. -/
def enc_cb.log2CbSize : enc_cb F L → Int
  | .null => 0
  | .split l _ _ _ _ _ _ _ => l
  | .leaf l _ _ _ _ => l

/-- The four slots `children[0..3]` of a split node (no slots otherwise). -/
def enc_cb.children : enc_cb F L → List (enc_cb F L)
  | .split _ _ c0 c1 c2 c3 _ _ => [c0, c1, c2, c3]
  | _ => []

/-- Slot `children[i]` of a split node. -/
def enc_cb.child (cb : enc_cb F L) (i : Nat) : enc_cb F L :=
  cb.children.getD i .null

/-- Assignment `cb->children[i] = c`. -/
def enc_cb.setChild : enc_cb F L → Nat → enc_cb F L → enc_cb F L
  | .split l d _ c1 c2 c3 ds r, 0, c => .split l d c c1 c2 c3 ds r
  | .split l d c0 _ c2 c3 ds r, 1, c => .split l d c0 c c2 c3 ds r
  | .split l d c0 c1 _ c3 ds r, 2, c => .split l d c0 c1 c c3 ds r
  | .split l d c0 c1 c2 _ ds r, 3, c => .split l d c0 c1 c2 c ds r
  | cb, _, _ => cb

/-- The two statements `cb->distortion += dd; cb->rate += dr;`. -/
def enc_cb.addCost [Add F] : enc_cb F L → F → F → enc_cb F L
  | .split l d c0 c1 c2 c3 ds r, dd, dr => .split l d c0 c1 c2 c3 (ds + dd) (r + dr)
  | .leaf l d x ds r, dd, dr => .leaf l d x (ds + dd) (r + dr)
  | .null, _, _ => .null

/-- Result of a search call: the returned pointer, the content of the context-model
table the call was handed, and the remaining encoder state, or a fault. -/
abbrev Res (F L Ctx W : Type) : Type := Except Fault (enc_cb F L × Ctx × W)

/-- Type of `Algo_CB_Split::analyze` (a virtual member function): context-model table,
encoder state, `x0`, `y0`, `Log2CbSize`, `ctDepth`. -/
abbrev Search (F L Ctx W : Type) : Type :=
  Ctx → W → Int → Int → Int → Int → Res F L Ctx W

/-- Configuration and collaborators of the split search. -/
structure Env (F L Ctx W : Type) where
  /-- Value of `input->get_width()`. -/
  width : Int
  /-- Value of `input->get_height()`. -/
  height : Int
  /-- Value of `ectx->sps.Log2MinCbSizeY`. -/
  Log2MinCbSizeY : Int
  /-- Value of `ectx->lambda`. -/
  lambda : F
  /-- Call `mIntraPartModeAlgo->analyze(ectx, ctxModel, input, x0,y0, Log2CbSize, ctDepth)`:
  the returned pointer, the table content and the encoder state it leaves. -/
  intraPartMode : Ctx → W → Int → Int → Int → Int → enc_cb F L × Ctx × W
  /-- Lines 69-74 of cb-split.cc: `switch_CABAC(ctxModel,&estim)`,
  `encode_quadtree(ectx,cb,x0,y0,Log2CbSize,ctDepth,false)` on the node whose
  `split_cu_flag` is set, then `estim.getRDBits()`: the bits, the table content and the
  encoder state left. -/
  splitFlagRate : Ctx → W → Int → Int → Int → Int → F × Ctx × W
  /-- Call `cb->write_to_image(ectx->img, x0,y0, true)`. -/
  write_to_image : enc_cb F L → W → Int → Int → W
  /-- Call `cb->reconstruct(&ectx->accel, ectx->img, x0,y0)`. -/
  reconstruct : enc_cb F L → W → Int → Int → W

/-- C expression `a << n` on `int` (defined in C for `0 <= n <= 30` without overflow). -/
def shl (a n : Int) : Int := a * 2 ^ n.toNat

/-- Function `childX` of encode.h. -/
def childX (x0 : Int) (idx : Nat) (log2CbSize : Int) : Int :=
  x0 + shl ((idx &&& 1 : Nat) : Int) (log2CbSize - 1)

/-- Function `childY` of encode.h. -/
def childY (y0 : Int) (idx : Nat) (log2CbSize : Int) : Int :=
  y0 + shl ((idx >>> 1 : Nat) : Int) (log2CbSize - 1)

/-- Function `Algo_CB_Split::forcedSplit` (cb-split.cc, lines 35-44). -/
def forcedSplit (E : Env F L Ctx W) (x0 y0 Log2CbSize : Int) : Bool :=
  let w := E.width
  let h := E.height
  let cbSize := shl 1 Log2CbSize
  if x0 + cbSize > w then true
  else if y0 + cbSize > h then true
  else false

/-- One pass of the loop `for (int i=0;i<4;i++)` of `encode_cb_split` (lines 79-94), on
the node under construction, the table `ctxModel` points to and the encoder state. -/
def encode_cb_split_child [Zero F] [Add F] (E : Env F L Ctx W) (analyze : Search F L Ctx W)
    (x0 y0 Log2CbSize ctDepth : Int) (st : enc_cb F L × Ctx × W) (i : Nat) :
    Except Fault (enc_cb F L × Ctx × W) :=
  let w := E.width
  let h := E.height
  let cb := st.1
  let dx := shl ((i &&& 1 : Nat) : Int) (Log2CbSize - 1)
  let dy := shl ((i >>> 1 : Nat) : Int) (Log2CbSize - 1)
  if x0 + dx ≥ w ∨ y0 + dy ≥ h then
    .ok (cb.setChild i .null, st.2.1, st.2.2)
  else
    match analyze st.2.1 st.2.2 (x0 + dx) (y0 + dy) (Log2CbSize - 1) (ctDepth + 1) with
    | .error e => .error e
    | .ok (child, ctx1, wld1) =>
      match child with
      | .null => .error .nullDeref
      | _ => .ok ((cb.setChild i child).addCost child.distortion child.rate, ctx1, wld1)

/-- Function `Algo_CB_Split::encode_cb_split` (cb-split.cc, lines 49-97).  The callee
`analyze` is the virtual member function, passed as an argument.  The store to
`cu_transquant_bypass_flag` (line 63) hits the union storage that `children[0]` takes
over in the loop and is not modelled. -/
def encode_cb_split [Zero F] [Add F] (E : Env F L Ctx W) (analyze : Search F L Ctx W)
    (ctxModel : Ctx) (wld : W) (x0 y0 Log2CbSize ctDepth : Int) :
    Except Fault (enc_cb F L × Ctx × W) :=
  let est := E.splitFlagRate ctxModel wld x0 y0 Log2CbSize ctDepth
  let cb : enc_cb F L :=
    .split (Log2CbSize % 256) (ctDepth % 256) .null .null .null .null 0 est.1
  [0, 1, 2, 3].foldlM (encode_cb_split_child E analyze x0 y0 Log2CbSize ctDepth)
    (cb, est.2.1, est.2.2)

/-- The table a `context_model*` of `analyze` points to: the caller's table `ctxModel`
or the local array `ctxCopy`. -/
inductive CtxPtr where
  | toModel : CtxPtr
  | toCopy : CtxPtr
  deriving DecidableEq, Repr

/-- The two context-model tables in scope in `analyze`: the one `ctxModel` points to
(the live state) and the local array `ctxCopy`, declared at line 113 without an
initialiser: its content is indeterminate (`none`) until something is copied into it. -/
structure Tables (Ctx : Type) where
  model : Ctx
  copy : Option Ctx

/-- Read the table a `context_model*` points to.  Reading `ctxCopy` before anything was
copied into it is a fault. -/
def Tables.get (t : Tables Ctx) : CtxPtr → Except Fault Ctx
  | .toModel => .ok t.model
  | .toCopy =>
    match t.copy with
    | some c => .ok c
    | none => .error .uninitRead

/-- Overwrite the table a `context_model*` points to. -/
def Tables.set (t : Tables Ctx) : CtxPtr → Ctx → Tables Ctx
  | .toModel, c => ⟨c, t.copy⟩
  | .toCopy, c => ⟨t.model, some c⟩

/-- Call `copy_context_model_table(dst, src)`: read the table `src` points to and
overwrite the one `dst` points to with it. -/
def copy_context_model_table (t : Tables Ctx) (dst src : CtxPtr) : Except Fault (Tables Ctx) :=
  match t.get src with
  | .error e => .error e
  | .ok c => .ok (t.set dst c)

/-- Function `Algo_CB_Split_BruteForce::analyze` (cb-split.cc, lines 102-166), with the
recursive call inside `encode_cb_split` going to `self`. -/
def analyzeBody [Zero F] [Add F] [Mul F] [LT F] [DecidableRel (LT.lt : F → F → Prop)]
    (E : Env F L Ctx W) (self : Search F L Ctx W)
    (ctxModel : Ctx) (wld : W) (x0 y0 Log2CbSize ctDepth : Int) : Res F L Ctx W :=
  let can_split_CB : Bool := decide (Log2CbSize > E.Log2MinCbSizeY)
  let can_nosplit_CB : Bool := !forcedSplit E x0 y0 Log2CbSize
  -- lines 113-114: `ctxCopy` is declared, `ctxSplit` points to the caller's table
  let t0 : Tables Ctx := ⟨ctxModel, none⟩
  -- lines 116-119
  let forked : Except Fault (Tables Ctx × CtxPtr) :=
    if can_split_CB && can_nosplit_CB then
      match copy_context_model_table t0 .toCopy .toModel with
      | .error e => .error e
      | .ok t => .ok (t, .toCopy)
    else .ok (t0, .toModel)
  match forked with
  | .error e => .error e
  | .ok (t1, ctxSplit) =>
    -- lines 124-130: the prediction-mode search works on the caller's table
    let ns : enc_cb F L × Ctx × W :=
      if can_nosplit_CB then E.intraPartMode t1.model wld x0 y0 Log2CbSize ctDepth
      else (.null, t1.model, wld)
    let cb_no_split := ns.1
    let t2 := t1.set .toModel ns.2.1
    let wld2 := ns.2.2
    -- lines 134-137: `encode_cb_split` works on the table `ctxSplit` points to
    let sp : Except Fault (enc_cb F L × Tables Ctx × W) :=
      if can_split_CB then
        match t2.get ctxSplit with
        | .error e => .error e
        | .ok cIn =>
          match encode_cb_split E self cIn wld2 x0 y0 Log2CbSize ctDepth with
          | .error e => .error e
          | .ok (cb, cOut, w3) => .ok (cb, t2.set ctxSplit cOut, w3)
      else .ok (.null, t2, wld2)
    match sp with
    | .error e => .error e
    | .ok (cb_split, t3, wld3) =>
      -- lines 142-143
      if !can_nosplit_CB then .ok (cb_split, t3.model, wld3)
      else if !can_split_CB then .ok (cb_no_split, t3.model, wld3)
      else
        -- lines 148-149 read members of both nodes
        match cb_split, cb_no_split with
        | .null, _ => .error .nullDeref
        | _, .null => .error .nullDeref
        | _, _ =>
          let rd_cost_split := cb_split.distortion + E.lambda * cb_split.rate
          let rd_cost_no_split := cb_no_split.distortion + E.lambda * cb_no_split.rate
          let split_is_better : Bool := decide (rd_cost_split < rd_cost_no_split)
          if split_is_better then
            -- line 154
            match copy_context_model_table t3 .toModel .toCopy with
            | .error e => .error e
            | .ok t4 => .ok (cb_split, t4.model, wld3)
          else
            let wld4 := E.write_to_image cb_no_split wld3 x0 y0
            let wld5 := E.reconstruct cb_no_split wld4 x0 y0
            .ok (cb_no_split, t3.model, wld5)

/-- The recursion `analyze -> encode_cb_split -> analyze`, cut off after `fuel` nested
calls. -/
def analyzeFuel [Zero F] [Add F] [Mul F] [LT F] [DecidableRel (LT.lt : F → F → Prop)]
    (E : Env F L Ctx W) : Nat → Search F L Ctx W
  | 0 => fun _ _ _ _ _ _ => .error .outOfFuel
  | fuel + 1 => analyzeBody E (analyzeFuel E fuel)

/-- Function `Algo_CB_Split_BruteForce::analyze` as called by the CTB driver and by
`encode_cb_split`: a call at `Log2CbSize` nests at most
`Log2CbSize - Log2MinCbSizeY` further calls (see `analyze_eq`). -/
def analyze [Zero F] [Add F] [Mul F] [LT F] [DecidableRel (LT.lt : F → F → Prop)]
    (E : Env F L Ctx W) : Search F L Ctx W :=
  fun ctxModel wld x0 y0 Log2CbSize ctDepth =>
    analyzeFuel E ((Log2CbSize - E.Log2MinCbSizeY).toNat + 1)
      ctxModel wld x0 y0 Log2CbSize ctDepth

/-- The Lagrangian cost `distortion + lambda * rate` of lines 148-149. -/
def rd_cost [Zero F] [Add F] [Mul F] (E : Env F L Ctx W) (cb : enc_cb F L) : F :=
  cb.distortion + E.lambda * cb.rate

/-- Left-to-right sum, starting from `init`, of the member `f` of the non-NULL pointers
among `cs`: what the loop of `encode_cb_split` accumulates. -/
def childSum [Add F] (f : enc_cb F L → F) (init : F) (cs : List (enc_cb F L)) : F :=
  (cs.filter (fun c => !c.isNull)).foldl (fun acc c => acc + f c) init

/-- Effect of one pass of the loop of `encode_cb_split` on the node under construction,
`k` being the value stored in `children[i]`. -/
def slotUpdate [Zero F] [Add F] (cb : enc_cb F L) (i : Nat) (k : enc_cb F L) : enc_cb F L :=
  match k with
  | .null => cb.setChild i .null
  | _ => (cb.setChild i k).addCost k.distortion k.rate

/-- Quadrant `i` of the block at `(x0,y0)` of size `2^Log2CbSize` has its top-left corner
outside the image: the test of line 83. -/
def quadrantOutside (E : Env F L Ctx W) (x0 y0 Log2CbSize : Int) (i : Nat) : Prop :=
  childX x0 i Log2CbSize ≥ E.width ∨ childY y0 i Log2CbSize ≥ E.height

instance (E : Env F L Ctx W) (x0 y0 Log2CbSize : Int) (i : Nat) :
    Decidable (quadrantOutside E x0 y0 Log2CbSize i) := by
  unfold quadrantOutside
  infer_instance

/-- Slot `children[i]` holds what the loop of `encode_cb_split` puts there: NULL for a
quadrant outside the image, else a non-NULL node returned by `an` on that quadrant at
size `Log2CbSize-1` and depth `ctDepth+1`. -/
def SlotOk (E : Env F L Ctx W) (an : Search F L Ctx W) (x0 y0 Log2CbSize ctDepth : Int)
    (i : Nat) (k : enc_cb F L) : Prop :=
  (quadrantOutside E x0 y0 Log2CbSize i ∧ k = .null) ∨
  (¬ quadrantOutside E x0 y0 Log2CbSize i ∧ k ≠ .null ∧
    ∃ ci wi ci2 wi2, an ci wi (childX x0 i Log2CbSize) (childY y0 i Log2CbSize)
      (Log2CbSize - 1) (ctDepth + 1) = .ok (k, ci2, wi2))

/-- Equality of two results can be decided. -/
instance instDecidableEqExcept {ε α : Type} [DecidableEq ε] [DecidableEq α] :
    DecidableEq (Except ε α) := fun a b =>
  match a, b with
  | .ok x, .ok y =>
    if h : x = y then isTrue (by rw [h]) else isFalse (fun h2 => h (Except.ok.inj h2))
  | .error x, .error y =>
    if h : x = y then isTrue (by rw [h]) else isFalse (fun h2 => h (Except.error.inj h2))
  | .ok _, .error _ => isFalse (fun h => by cases h)
  | .error _, .ok _ => isFalse (fun h => by cases h)

/-- A concrete environment for running the model: costs are integers, the entropy state
and the encoder state are counters.  The prediction-mode search returns a leaf of
distortion `dist Log2CbSize` and rate 1 and adds 1 to both states; signalling the split
flag costs 1 bit and adds 100 to the entropy state; `write_to_image` adds 1000 and
`reconstruct` 10000 to the encoder state; `lambda` is 1. -/
def demoEnv (w h mn : Int) (dist : Int → Int) : Env Int Unit Nat Nat :=
  ⟨w, h, mn, 1,
   fun c wl _ _ l d => (.leaf (l % 256) (d % 256) () (dist l) 1, c + 1, wl + 1),
   fun c wl _ _ _ _ => (1, c + 100, wl),
   fun _ wl _ _ => wl + 1000,
   fun _ wl _ _ => wl + 10000⟩

/-- Distortion 44 for a 16x16 leaf and 10 for any other: a 16x16 block then costs 45 both
split into four 8x8 leaves and unsplit. -/
def tieDist (l : Int) : Int := if l = 4 then 44 else 10

/-- Distortion 100 for a 16x16 leaf and 10 for any other: splitting a 16x16 block into
four 8x8 leaves is then cheaper. -/
def steepDist (l : Int) : Int := if l = 4 then 100 else 10

/-- Every node of the tree that has `split_cu_flag` set satisfies `P`. -/
def enc_cb.AllSplit (P : enc_cb F L → Prop) : enc_cb F L → Prop
  | .null => True
  | .leaf _ _ _ _ _ => True
  | .split l d c0 c1 c2 c3 ds r =>
    P (.split l d c0 c1 c2 c3 ds r) ∧
      c0.AllSplit P ∧ c1.AllSplit P ∧ c2.AllSplit P ∧ c3.AllSplit P

/-- Modelled from the spec: the CABAC rate estimator behind `encode_quadtree` and
`CABAC_encoder_estim::getRDBits`, whose code is not among the sources.  The spec says of
it that "split-flag signaling adds positive cost": every estimate for signalling
`split_cu_flag = true` is a positive number of bits. -/
def SplitFlagCostPositive [Zero F] [LT F] (E : Env F L Ctx W) : Prop :=
  ∀ c w x y l d, 0 < (E.splitFlagRate c w x y l d).1

/-- The 8x8 leaf the prediction-mode search of `demoEnv` returns at depth `d`. -/
def demoLeaf8 (d : Int) : enc_cb Int Unit := .leaf 3 d () 10 1

/-- A 16x16 node at depth `d` split into four 8x8 leaves of `demoEnv`. -/
def demoQuad16 (d : Int) : enc_cb Int Unit :=
  .split 4 d (demoLeaf8 (d + 1)) (demoLeaf8 (d + 1)) (demoLeaf8 (d + 1)) (demoLeaf8 (d + 1))
    40 5

/-- A 16x16 node at depth `d` of which only the left half is inside the image: the two
left 8x8 leaves of `demoEnv`, the two right slots NULL. -/
def demoHalf16 (d : Int) : enc_cb Int Unit :=
  .split 4 d (demoLeaf8 (d + 1)) .null (demoLeaf8 (d + 1)) .null 20 3

/-- The tree `analyze` returns, with `demoEnv 24 32 3 steepDist`, for the 32x32 block at
the origin of a 24x32 image. -/
def demoTree32 : enc_cb Int Unit :=
  .split 5 0 (demoQuad16 1) (demoHalf16 1) (demoQuad16 1) (demoHalf16 1) 120 17

/-- Modelled from the spec: the prediction-mode search (`mIntraPartModeAlgo->analyze`),
whose code is not among the sources.  The spec says it "returns a fully costed leaf": the
pointer it returns is non-NULL and points to a node with `split_cu_flag` clear. -/
def ReturnsLeaf (E : Env F L Ctx W) : Prop :=
  ∀ c w x y l d, ∃ l2 d2 x2 ds r, (E.intraPartMode c w x y l d).1 = .leaf l2 d2 x2 ds r

/-- Along one axis, the block starting at `p` with size `2^l` either ends inside the image
(`edge` is the width or height) or starts at a multiple of the minimum CB size `2^mn`
from the image edge. -/
def EdgeOk (mn p l edge : Int) : Prop :=
  p + 2 ^ l.toNat ≤ edge ∨ (2 : Int) ^ mn.toNat ∣ edge - p

/-- Every leaf CB of the tree lies fully inside the image, the tree being laid out from
the block at `(x0,y0)` of size `2^l` by `childX`/`childY` as `encode_quadtree` walks it. -/
def enc_cb.LeavesInside (E : Env F L Ctx W) : enc_cb F L → Int → Int → Int → Prop
  | .null, _, _, _ => True
  | .leaf _ _ _ _ _, x0, y0, l =>
    0 ≤ x0 ∧ 0 ≤ y0 ∧ x0 + 2 ^ l.toNat ≤ E.width ∧ y0 + 2 ^ l.toNat ≤ E.height
  | .split _ _ c0 c1 c2 c3 _ _, x0, y0, l =>
    c0.LeavesInside E (childX x0 0 l) (childY y0 0 l) (l - 1) ∧
    c1.LeavesInside E (childX x0 1 l) (childY y0 1 l) (l - 1) ∧
    c2.LeavesInside E (childX x0 2 l) (childY y0 2 l) (l - 1) ∧
    c3.LeavesInside E (childX x0 3 l) (childY y0 3 l) (l - 1)

/-- The environment that differs from `E` in one respect: on blocks of size
`2^Log2CbSize` the prediction-mode search leaves the context-model table it was handed
changed by `g` on top of what it does in `E`.  The node it returns, the encoder state it
leaves, and its behaviour at every other size are as in `E`. -/
def Env.withNoSplitCtx (E : Env F L Ctx W) (Log2CbSize : Int) (g : Ctx → Ctx) :
    Env F L Ctx W :=
  ⟨E.width, E.height, E.Log2MinCbSizeY, E.lambda,
   fun c w x y l d =>
     if l = Log2CbSize then
       ((E.intraPartMode c w x y l d).1, g (E.intraPartMode c w x y l d).2.1,
         (E.intraPartMode c w x y l d).2.2)
     else E.intraPartMode c w x y l d,
   E.splitFlagRate, E.write_to_image, E.reconstruct⟩

/-- The environment `demoEnv w h mn tieDist` with a prediction-mode search that returns
NULL. -/
def demoEnvNull (w h mn : Int) : Env Int Unit Nat Nat :=
  ⟨w, h, mn, 1,
   fun c wl _ _ _ _ => (.null, c, wl),
   fun c wl _ _ _ _ => (1, c + 100, wl),
   fun _ wl _ _ => wl + 1000,
   fun _ wl _ _ => wl + 10000⟩

/-- What an `enc_tb*` points to (encode.h, `struct enc_tb`), less its pointers: the two
bit-fields, the three `uint8_t` coded-block flags `cbf[0..2]` (luma, Cb, Cr; each a value
in 0..255), the two costs, and in `payload` the union of `children[4]` and `coeff[3]`
together with the `parent` back-reference, which `isZeroBlock` does not read. -/
structure enc_tb (F P : Type) where
  split_transform_flag : Nat
  log2TbSize : Nat
  cbf : Fin 3 → Nat
  payload : P
  distortion : F
  rate : F

/-- Member function `enc_tb::isZeroBlock` (encode.h, line 68):
`cbf[0]==false && cbf[1]==false && cbf[2]==false`, each flag being promoted to `int` and
compared with 0. -/
def enc_tb.isZeroBlock {F P : Type} (tb : enc_tb F P) : Bool :=
  decide (tb.cbf 0 = 0) && decide (tb.cbf 1 = 0) && decide (tb.cbf 2 = 0)

/-- A transform block whose three coded-block flags are `a`, `b`, `c`. -/
def demoTb (a b c : Nat) : enc_tb Int Unit :=
  ⟨0, 3, fun i => if i = 0 then a else if i = 1 then b else c, (), 0, 0⟩

/-- The blocks on which the recursion started by `analyze` at `(x0,y0)`, size `2^l0`,
calls `analyze` when no call faults: the block itself and, for every such block above the
minimum CB size, each of its quadrants whose corner is inside the image, at the next
smaller size. -/
inductive Visits (E : Env F L Ctx W) (x0 y0 l0 : Int) : Int → Int → Int → Prop where
  | root : Visits E x0 y0 l0 x0 y0 l0
  | child (x y l : Int) (i : Nat) : Visits E x0 y0 l0 x y l → l > E.Log2MinCbSizeY →
      i < 4 → ¬ quadrantOutside E x y l i →
      Visits E x0 y0 l0 (childX x i l) (childY y i l) (l - 1)

/-- One pass of the loop of `encode_cb_split` seen from the entropy-coder and encoder
state: started on `(c, w)` it stores `k` in `children[i]` and leaves `(c2, w2)`.  A
quadrant outside the image is skipped (NULL stored, state untouched); any other is handed
to `an` on `(c, w)`, which returns the non-NULL `k` and leaves `(c2, w2)`. -/
def ChildStep (E : Env F L Ctx W) (an : Search F L Ctx W) (x0 y0 Log2CbSize ctDepth : Int)
    (i : Nat) (c : Ctx) (w : W) (k : enc_cb F L) (c2 : Ctx) (w2 : W) : Prop :=
  (quadrantOutside E x0 y0 Log2CbSize i ∧ k = .null ∧ c2 = c ∧ w2 = w) ∨
  (¬ quadrantOutside E x0 y0 Log2CbSize i ∧ k ≠ .null ∧
    an c w (childX x0 i Log2CbSize) (childY y0 i Log2CbSize) (Log2CbSize - 1) (ctDepth + 1)
      = .ok (k, c2, w2))

/-- The leaf CBs of a tree laid out from the block at `(x0,y0)` of size `2^l` by
`childX`/`childY`, as `(x, y, log2 size)`, in slot order. -/
def enc_cb.leafBlocks : enc_cb F L → Int → Int → Int → List (Int × Int × Int)
  | .null, _, _, _ => []
  | .leaf _ _ _ _ _, x0, y0, l => [(x0, y0, l)]
  | .split _ _ c0 c1 c2 c3 _ _, x0, y0, l =>
    c0.leafBlocks (childX x0 0 l) (childY y0 0 l) (l - 1) ++
    (c1.leafBlocks (childX x0 1 l) (childY y0 1 l) (l - 1) ++
    (c2.leafBlocks (childX x0 2 l) (childY y0 2 l) (l - 1) ++
     c3.leafBlocks (childX x0 3 l) (childY y0 3 l) (l - 1)))

/-- Pixel `(px,py)` lies in the square `b = (x, y, log2 size)`. -/
def inSquare (b : Int × Int × Int) (px py : Int) : Prop :=
  b.1 ≤ px ∧ px < b.1 + 2 ^ b.2.2.toNat ∧ b.2.1 ≤ py ∧ py < b.2.1 + 2 ^ b.2.2.toNat

/-- Two squares share no pixel. -/
def squaresDisjoint (a b : Int × Int × Int) : Prop :=
  ∀ px py, ¬ (inSquare a px py ∧ inSquare b px py)

/-- The leaf CBs of the tree `n`, laid out from the block at `(x,y)` of size `2^l`, tile
the part of that block that is inside the image: each leaf square lies in the block and in
the image, no two share a pixel, and every pixel of the block that is in the image lies in
a leaf. -/
def Tiling (E : Env F L Ctx W) (n : enc_cb F L) (x y l : Int) : Prop :=
  (∀ b, b ∈ n.leafBlocks x y l →
    x ≤ b.1 ∧ b.1 + 2 ^ b.2.2.toNat ≤ x + 2 ^ l.toNat ∧
    y ≤ b.2.1 ∧ b.2.1 + 2 ^ b.2.2.toNat ≤ y + 2 ^ l.toNat ∧
    0 ≤ b.1 ∧ 0 ≤ b.2.1 ∧
    b.1 + 2 ^ b.2.2.toNat ≤ E.width ∧ b.2.1 + 2 ^ b.2.2.toNat ≤ E.height) ∧
  (n.leafBlocks x y l).Pairwise squaresDisjoint ∧
  (∀ px py, inSquare (x, y, l) px py → 0 ≤ px → px < E.width → 0 ≤ py → py < E.height →
    ∃ b, b ∈ n.leafBlocks x y l ∧ inSquare b px py)

/-- Forced splitting is carried through the whole tree laid out from the block at
`(x0,y0)` of size `2^l`: a slot is NULL only for a quadrant whose corner is outside the
image, a leaf stands only for a block that lies entirely inside the image (`forcedSplit`
false), and every other block is split with the same holding of its four quadrants. -/
def enc_cb.SplitWhereForced (E : Env F L Ctx W) : enc_cb F L → Int → Int → Int → Prop
  | .null, x0, y0, _ => x0 ≥ E.width ∨ y0 ≥ E.height
  | .leaf _ _ _ _ _, x0, y0, l => forcedSplit E x0 y0 l = false
  | .split _ _ c0 c1 c2 c3 _ _, x0, y0, l =>
    c0.SplitWhereForced E (childX x0 0 l) (childY y0 0 l) (l - 1) ∧
    c1.SplitWhereForced E (childX x0 1 l) (childY y0 1 l) (l - 1) ∧
    c2.SplitWhereForced E (childX x0 2 l) (childY y0 2 l) (l - 1) ∧
    c3.SplitWhereForced E (childX x0 3 l) (childY y0 3 l) (l - 1)

end Model

section Lemmas

variable {F L Ctx W : Type}

theorem encode_cb_split_child_congr [Zero F] [Add F] (E : Env F L Ctx W)
    (an an2 : Search F L Ctx W) (x0 y0 Log2CbSize ctDepth : Int)
    (h : ∀ c w x y, x < E.width → y < E.height →
      an c w x y (Log2CbSize - 1) (ctDepth + 1) = an2 c w x y (Log2CbSize - 1) (ctDepth + 1))
    (st : enc_cb F L × Ctx × W) (i : Nat) :
    encode_cb_split_child E an x0 y0 Log2CbSize ctDepth st i
      = encode_cb_split_child E an2 x0 y0 Log2CbSize ctDepth st i := by
  unfold encode_cb_split_child
  dsimp only
  split
  · rfl
  · rename_i hin
    rw [not_or] at hin
    rw [h _ _ _ _ (not_le.mp hin.1) (not_le.mp hin.2)]

theorem encode_cb_split_congr [Zero F] [Add F] (E : Env F L Ctx W)
    (an an2 : Search F L Ctx W) (ctx : Ctx) (w : W) (x0 y0 Log2CbSize ctDepth : Int)
    (h : ∀ c w x y, x < E.width → y < E.height →
      an c w x y (Log2CbSize - 1) (ctDepth + 1) = an2 c w x y (Log2CbSize - 1) (ctDepth + 1)) :
    encode_cb_split E an ctx w x0 y0 Log2CbSize ctDepth
      = encode_cb_split E an2 ctx w x0 y0 Log2CbSize ctDepth := by
  have hc : encode_cb_split_child E an x0 y0 Log2CbSize ctDepth
      = encode_cb_split_child E an2 x0 y0 Log2CbSize ctDepth := by
    funext st i
    exact encode_cb_split_child_congr E an an2 x0 y0 Log2CbSize ctDepth h st i
  unfold encode_cb_split
  rw [hc]

/-- Both variants possible: the prediction-mode search runs on the caller's table,
then `encode_cb_split` on the copy of its entry content, and the candidates are
compared. -/
theorem analyzeBody_both_eq [Zero F] [Add F] [Mul F] [LT F]
    [DecidableRel (LT.lt : F → F → Prop)]
    (E : Env F L Ctx W) (an : Search F L Ctx W) (ctx : Ctx) (w : W)
    (x0 y0 Log2CbSize ctDepth : Int)
    (hcan : Log2CbSize > E.Log2MinCbSizeY) (hin : forcedSplit E x0 y0 Log2CbSize = false) :
    analyzeBody E an ctx w x0 y0 Log2CbSize ctDepth
      = match encode_cb_split E an ctx (E.intraPartMode ctx w x0 y0 Log2CbSize ctDepth).2.2
            x0 y0 Log2CbSize ctDepth with
        | .error e => .error e
        | .ok (cb_split, cS, wS) =>
          match cb_split, (E.intraPartMode ctx w x0 y0 Log2CbSize ctDepth).1 with
          | .null, _ => .error .nullDeref
          | _, .null => .error .nullDeref
          | _, _ =>
            if rd_cost E cb_split
                < rd_cost E (E.intraPartMode ctx w x0 y0 Log2CbSize ctDepth).1 then
              .ok (cb_split, cS, wS)
            else
              .ok ((E.intraPartMode ctx w x0 y0 Log2CbSize ctDepth).1,
                (E.intraPartMode ctx w x0 y0 Log2CbSize ctDepth).2.1,
                E.reconstruct (E.intraPartMode ctx w x0 y0 Log2CbSize ctDepth).1
                  (E.write_to_image (E.intraPartMode ctx w x0 y0 Log2CbSize ctDepth).1 wS
                    x0 y0) x0 y0) := by
  unfold analyzeBody
  simp only [hcan, hin, decide_True, Bool.not_false, Bool.and_self, if_true,
    copy_context_model_table, Tables.set, Tables.get, Bool.not_true, Bool.false_eq_true,
    if_false, rd_cost]
  cases encode_cb_split E an ctx (E.intraPartMode ctx w x0 y0 Log2CbSize ctDepth).2.2
      x0 y0 Log2CbSize ctDepth with
  | error e => rfl
  | ok r =>
    obtain ⟨cb_split, cS, wS⟩ := r
    dsimp only
    cases cb_split <;> cases (E.intraPartMode ctx w x0 y0 Log2CbSize ctDepth).1 <;>
      simp only [decide_eq_true_eq]

/-- A block forced to split that can be split: `analyze` is `encode_cb_split` on the
caller's context-model table. -/
theorem analyzeBody_forced [Zero F] [Add F] [Mul F] [LT F]
    [DecidableRel (LT.lt : F → F → Prop)]
    (E : Env F L Ctx W) (an : Search F L Ctx W) (ctx : Ctx) (w : W)
    (x0 y0 Log2CbSize ctDepth : Int)
    (hcan : Log2CbSize > E.Log2MinCbSizeY) (hin : forcedSplit E x0 y0 Log2CbSize = true) :
    analyzeBody E an ctx w x0 y0 Log2CbSize ctDepth
      = encode_cb_split E an ctx w x0 y0 Log2CbSize ctDepth := by
  unfold analyzeBody
  simp only [hcan, hin, decide_True, Bool.not_true, Bool.and_false, if_true, if_false,
    Bool.false_eq_true, copy_context_model_table, Tables.set, Tables.get, Bool.not_false]
  cases encode_cb_split E an ctx w x0 y0 Log2CbSize ctDepth with
  | error e => rfl
  | ok r => rfl

/-- A block at (or below) the minimum size inside the image: `analyze` is the
prediction-mode search. -/
theorem analyzeBody_min [Zero F] [Add F] [Mul F] [LT F]
    [DecidableRel (LT.lt : F → F → Prop)]
    (E : Env F L Ctx W) (an : Search F L Ctx W) (ctx : Ctx) (w : W)
    (x0 y0 Log2CbSize ctDepth : Int)
    (hcan : ¬ Log2CbSize > E.Log2MinCbSizeY) (hin : forcedSplit E x0 y0 Log2CbSize = false) :
    analyzeBody E an ctx w x0 y0 Log2CbSize ctDepth
      = .ok (E.intraPartMode ctx w x0 y0 Log2CbSize ctDepth) := by
  unfold analyzeBody
  simp only [hcan, hin, decide_False, Bool.not_false, Bool.false_and, if_true, if_false,
    Bool.false_eq_true, copy_context_model_table, Tables.set, Tables.get, Bool.not_true]

/-- A block that can neither be split nor be left unsplit: `analyze` returns NULL and
leaves the context-model table and the encoder state as they were. -/
theorem analyzeBody_neither [Zero F] [Add F] [Mul F] [LT F]
    [DecidableRel (LT.lt : F → F → Prop)]
    (E : Env F L Ctx W) (an : Search F L Ctx W) (ctx : Ctx) (w : W)
    (x0 y0 Log2CbSize ctDepth : Int)
    (hcan : ¬ Log2CbSize > E.Log2MinCbSizeY) (hin : forcedSplit E x0 y0 Log2CbSize = true) :
    analyzeBody E an ctx w x0 y0 Log2CbSize ctDepth = .ok (.null, ctx, w) := by
  unfold analyzeBody
  simp only [hcan, hin, decide_False, Bool.not_true, Bool.false_and, if_true, if_false,
    Bool.false_eq_true, copy_context_model_table, Tables.set, Tables.get, Bool.not_false]

/-- Both variants tried, for any callee of `encode_cb_split`. -/
theorem analyzeBody_both [Zero F] [Add F] [Mul F] [LT F]
    [DecidableRel (LT.lt : F → F → Prop)]
    (E : Env F L Ctx W) (an : Search F L Ctx W) (ctx : Ctx) (w : W)
    (x0 y0 Log2CbSize ctDepth : Int)
    (hcan : Log2CbSize > E.Log2MinCbSizeY) (hin : forcedSplit E x0 y0 Log2CbSize = false)
    (cb_no_split cb_split : enc_cb F L) (c1 cS : Ctx) (w1 wS : W)
    (hno : E.intraPartMode ctx w x0 y0 Log2CbSize ctDepth = (cb_no_split, c1, w1))
    (hnn : cb_no_split ≠ .null)
    (hsp : encode_cb_split E an ctx w1 x0 y0 Log2CbSize ctDepth = .ok (cb_split, cS, wS))
    (hsn : cb_split ≠ .null) :
    analyzeBody E an ctx w x0 y0 Log2CbSize ctDepth
      = if rd_cost E cb_split < rd_cost E cb_no_split then .ok (cb_split, cS, wS)
        else .ok (cb_no_split, c1,
          E.reconstruct cb_no_split (E.write_to_image cb_no_split wS x0 y0) x0 y0) := by
  rw [analyzeBody_both_eq E an ctx w x0 y0 Log2CbSize ctDepth hcan hin, hno]
  dsimp only
  rw [hsp]
  dsimp only
  cases cb_split with
  | null => exact absurd rfl hsn
  | split _ _ _ _ _ _ _ _ =>
    cases cb_no_split with
    | null => exact absurd rfl hnn
    | split _ _ _ _ _ _ _ _ => rfl
    | leaf _ _ _ _ _ => rfl
  | leaf _ _ _ _ _ =>
    cases cb_no_split with
    | null => exact absurd rfl hnn
    | split _ _ _ _ _ _ _ _ => rfl
    | leaf _ _ _ _ _ => rfl

theorem analyzeBody_congr [Zero F] [Add F] [Mul F] [LT F] [DecidableRel (LT.lt : F → F → Prop)]
    (E : Env F L Ctx W) (an an2 : Search F L Ctx W) (ctx : Ctx) (w : W)
    (x0 y0 Log2CbSize ctDepth : Int)
    (h : Log2CbSize > E.Log2MinCbSizeY → ∀ c w x y, x < E.width → y < E.height →
      an c w x y (Log2CbSize - 1) (ctDepth + 1) = an2 c w x y (Log2CbSize - 1) (ctDepth + 1)) :
    analyzeBody E an ctx w x0 y0 Log2CbSize ctDepth
      = analyzeBody E an2 ctx w x0 y0 Log2CbSize ctDepth := by
  by_cases hcan : Log2CbSize > E.Log2MinCbSizeY
  · have hc := fun c w => encode_cb_split_congr E an an2 c w x0 y0 Log2CbSize ctDepth (h hcan)
    cases hin : forcedSplit E x0 y0 Log2CbSize with
    | true =>
      rw [analyzeBody_forced E an ctx w x0 y0 Log2CbSize ctDepth hcan hin,
        analyzeBody_forced E an2 ctx w x0 y0 Log2CbSize ctDepth hcan hin, hc]
    | false =>
      rw [analyzeBody_both_eq E an ctx w x0 y0 Log2CbSize ctDepth hcan hin,
        analyzeBody_both_eq E an2 ctx w x0 y0 Log2CbSize ctDepth hcan hin, hc]
  · cases hin : forcedSplit E x0 y0 Log2CbSize with
    | true =>
      rw [analyzeBody_neither E an ctx w x0 y0 Log2CbSize ctDepth hcan hin,
        analyzeBody_neither E an2 ctx w x0 y0 Log2CbSize ctDepth hcan hin]
    | false =>
      rw [analyzeBody_min E an ctx w x0 y0 Log2CbSize ctDepth hcan hin,
        analyzeBody_min E an2 ctx w x0 y0 Log2CbSize ctDepth hcan hin]

/-- The recursion equation of `analyze`: the body of the source function, the nested
call going to `analyze` itself. -/
theorem analyze_eq [Zero F] [Add F] [Mul F] [LT F] [DecidableRel (LT.lt : F → F → Prop)]
    (E : Env F L Ctx W) (ctx : Ctx) (w : W) (x0 y0 Log2CbSize ctDepth : Int) :
    analyze E ctx w x0 y0 Log2CbSize ctDepth
      = analyzeBody E (analyze E) ctx w x0 y0 Log2CbSize ctDepth := by
  show analyzeBody E (analyzeFuel E (Log2CbSize - E.Log2MinCbSizeY).toNat) ctx w x0 y0
      Log2CbSize ctDepth = _
  apply analyzeBody_congr
  intro hs c w x y _ _
  show _ = analyzeFuel E ((Log2CbSize - 1 - E.Log2MinCbSizeY).toNat + 1) c w x y
      (Log2CbSize - 1) (ctDepth + 1)
  have : (Log2CbSize - E.Log2MinCbSizeY).toNat
      = (Log2CbSize - 1 - E.Log2MinCbSizeY).toNat + 1 := by omega
  rw [this]

theorem except_bind_ok {ε α β : Type} (x : Except ε α) (g : α → Except ε β) (r : β) :
    (x >>= g) = .ok r ↔ ∃ a, x = .ok a ∧ g a = .ok r := by
  cases x <;> simp [bind, Except.bind]

theorem foldlM_four {ε σ : Type} (f : σ → Nat → Except ε σ) (init r : σ) :
    [0, 1, 2, 3].foldlM f init = .ok r ↔
      ∃ s1 s2 s3, f init 0 = .ok s1 ∧ f s1 1 = .ok s2 ∧ f s2 2 = .ok s3 ∧ f s3 3 = .ok r := by
  simp only [List.foldlM_cons, List.foldlM_nil, except_bind_ok]
  constructor
  · rintro ⟨s1, h1, s2, h2, s3, h3, s4, h4, h5⟩
    cases h5
    exact ⟨s1, s2, s3, h1, h2, h3, h4⟩
  · rintro ⟨s1, s2, s3, h1, h2, h3, h4⟩
    exact ⟨s1, h1, s2, h2, s3, h3, r, h4, rfl⟩

theorem enc_cb.isNull_eq_false {c : enc_cb F L} (h : c ≠ .null) : c.isNull = false := by
  cases c with
  | null => exact absurd rfl h
  | split _ _ _ _ _ _ _ _ => rfl
  | leaf _ _ _ _ _ => rfl

/-- What one pass of the loop does when it completes. -/
theorem encode_cb_split_child_ok [Zero F] [Add F] (E : Env F L Ctx W)
    (an : Search F L Ctx W) (x0 y0 Log2CbSize ctDepth : Int)
    (st st2 : enc_cb F L × Ctx × W) (i : Nat)
    (h : encode_cb_split_child E an x0 y0 Log2CbSize ctDepth st i = .ok st2) :
    ∃ k, st2.1 = slotUpdate st.1 i k ∧
      ((quadrantOutside E x0 y0 Log2CbSize i ∧ k = .null ∧ st2.2 = st.2) ∨
       (¬ quadrantOutside E x0 y0 Log2CbSize i ∧ k ≠ .null ∧
          an st.2.1 st.2.2 (childX x0 i Log2CbSize) (childY y0 i Log2CbSize)
            (Log2CbSize - 1) (ctDepth + 1) = .ok (k, st2.2.1, st2.2.2))) := by
  unfold encode_cb_split_child at h
  simp only [quadrantOutside, childX, childY]
  dsimp only at h
  split at h
  · rename_i ho
    cases h
    exact ⟨.null, rfl, Or.inl ⟨ho, rfl, rfl⟩⟩
  · rename_i ho
    split at h
    · cases h
    · rename_i child ctx1 wld1 hcall
      split at h
      · cases h
      · rename_i hne
        cases h
        refine ⟨child, ?_, Or.inr ⟨ho, fun hc => hne hc, hcall⟩⟩
        cases child with
        | null => exact absurd rfl hne
        | split _ _ _ _ _ _ _ _ => rfl
        | leaf _ _ _ _ _ => rfl

theorem slotUpdate_four [Zero F] [Add F] (l d : Int) (bits : F) (k0 k1 k2 k3 : enc_cb F L) :
    slotUpdate (slotUpdate (slotUpdate (slotUpdate
        (.split l d .null .null .null .null 0 bits) 0 k0) 1 k1) 2 k2) 3 k3
      = .split l d k0 k1 k2 k3 (childSum enc_cb.distortion 0 [k0, k1, k2, k3])
          (childSum enc_cb.rate bits [k0, k1, k2, k3]) := by
  cases k0 <;> cases k1 <;> cases k2 <;> cases k3 <;> rfl

theorem SlotOk_of_step (E : Env F L Ctx W) (an : Search F L Ctx W)
    (x0 y0 Log2CbSize ctDepth : Int) (i : Nat) (k : enc_cb F L)
    (st st2 : enc_cb F L × Ctx × W)
    (h : (quadrantOutside E x0 y0 Log2CbSize i ∧ k = .null ∧ st2.2 = st.2) ∨
       (¬ quadrantOutside E x0 y0 Log2CbSize i ∧ k ≠ .null ∧
          an st.2.1 st.2.2 (childX x0 i Log2CbSize) (childY y0 i Log2CbSize)
            (Log2CbSize - 1) (ctDepth + 1) = .ok (k, st2.2.1, st2.2.2))) :
    SlotOk E an x0 y0 Log2CbSize ctDepth i k := by
  rcases h with ⟨ho, hk, _⟩ | ⟨ho, hk, hc⟩
  · exact Or.inl ⟨ho, hk⟩
  · exact Or.inr ⟨ho, hk, _, _, _, _, hc⟩

/-- What `encode_cb_split` returns when it completes: a split node whose costs are the
running sums of the loop, every slot filled as `SlotOk` says. -/
theorem encode_cb_split_ok [Zero F] [Add F] (E : Env F L Ctx W)
    (an : Search F L Ctx W) (ctx : Ctx) (w : W) (x0 y0 Log2CbSize ctDepth : Int)
    (s : enc_cb F L) (c2 : Ctx) (w2 : W)
    (h : encode_cb_split E an ctx w x0 y0 Log2CbSize ctDepth = .ok (s, c2, w2)) :
    ∃ k0 k1 k2 k3 : enc_cb F L,
      s = .split (Log2CbSize % 256) (ctDepth % 256) k0 k1 k2 k3
            (childSum enc_cb.distortion 0 [k0, k1, k2, k3])
            (childSum enc_cb.rate (E.splitFlagRate ctx w x0 y0 Log2CbSize ctDepth).1
              [k0, k1, k2, k3]) ∧
      SlotOk E an x0 y0 Log2CbSize ctDepth 0 k0 ∧
      SlotOk E an x0 y0 Log2CbSize ctDepth 1 k1 ∧
      SlotOk E an x0 y0 Log2CbSize ctDepth 2 k2 ∧
      SlotOk E an x0 y0 Log2CbSize ctDepth 3 k3 := by
  unfold encode_cb_split at h
  obtain ⟨s1, s2, s3, h0, h1, h2, h3⟩ := (foldlM_four _ _ _).mp h
  obtain ⟨k0, e0, r0⟩ := encode_cb_split_child_ok E an x0 y0 Log2CbSize ctDepth _ _ 0 h0
  obtain ⟨k1, e1, r1⟩ := encode_cb_split_child_ok E an x0 y0 Log2CbSize ctDepth _ _ 1 h1
  obtain ⟨k2, e2, r2⟩ := encode_cb_split_child_ok E an x0 y0 Log2CbSize ctDepth _ _ 2 h2
  obtain ⟨k3, e3, r3⟩ := encode_cb_split_child_ok E an x0 y0 Log2CbSize ctDepth _ _ 3 h3
  refine ⟨k0, k1, k2, k3, ?_, SlotOk_of_step E an _ _ _ _ _ _ _ _ r0,
    SlotOk_of_step E an _ _ _ _ _ _ _ _ r1, SlotOk_of_step E an _ _ _ _ _ _ _ _ r2,
    SlotOk_of_step E an _ _ _ _ _ _ _ _ r3⟩
  dsimp only at e0 e1 e2 e3
  rw [← slotUpdate_four, ← e0, ← e1, ← e2, ← e3]

theorem enc_cb.allSplit_of_not_split (P : enc_cb F L → Prop) (n : enc_cb F L)
    (h : n.split_cu_flag = false) : n.AllSplit P := by
  cases n with
  | null => trivial
  | leaf _ _ _ _ _ => trivial
  | split _ _ _ _ _ _ _ _ => cases h

/-- Where the pointer returned by `analyze` comes from: it is NULL, or the result of the
prediction-mode search on this block, or the node `encode_cb_split` built for it. -/
theorem analyzeBody_result [Zero F] [Add F] [Mul F] [LT F]
    [DecidableRel (LT.lt : F → F → Prop)]
    (E : Env F L Ctx W) (an : Search F L Ctx W) (ctx : Ctx) (w : W)
    (x0 y0 Log2CbSize ctDepth : Int) (n : enc_cb F L) (c2 : Ctx) (w2 : W)
    (h : analyzeBody E an ctx w x0 y0 Log2CbSize ctDepth = .ok (n, c2, w2)) :
    n = .null ∨
    (forcedSplit E x0 y0 Log2CbSize = false ∧
      n = (E.intraPartMode ctx w x0 y0 Log2CbSize ctDepth).1) ∨
    (Log2CbSize > E.Log2MinCbSizeY ∧
      ∃ cS wS c3 w3, encode_cb_split E an cS wS x0 y0 Log2CbSize ctDepth
        = .ok (n, c3, w3)) := by
  by_cases hcan : Log2CbSize > E.Log2MinCbSizeY
  · cases hin : forcedSplit E x0 y0 Log2CbSize with
    | true =>
      rw [analyzeBody_forced E an ctx w x0 y0 Log2CbSize ctDepth hcan hin] at h
      exact Or.inr (Or.inr ⟨hcan, _, _, _, _, h⟩)
    | false =>
      rw [analyzeBody_both_eq E an ctx w x0 y0 Log2CbSize ctDepth hcan hin] at h
      split at h
      · cases h
      · rename_i cb_split cS wS hsp
        split at h
        · cases h
        · cases h
        · split at h
          · cases h
            exact Or.inr (Or.inr ⟨hcan, _, _, _, _, hsp⟩)
          · cases h
            exact Or.inr (Or.inl ⟨rfl, rfl⟩)
  · cases hin : forcedSplit E x0 y0 Log2CbSize with
    | true =>
      rw [analyzeBody_neither E an ctx w x0 y0 Log2CbSize ctDepth hcan hin] at h
      cases h
      exact Or.inl rfl
    | false =>
      rw [analyzeBody_min E an ctx w x0 y0 Log2CbSize ctDepth hcan hin] at h
      have h2 := Except.ok.inj h
      exact Or.inr (Or.inl ⟨rfl, by rw [h2]⟩)

/-- A property that every node built by `encode_cb_split` has holds at every split node
of a tree returned by the search, when the prediction-mode search returns non-split
nodes. -/
theorem analyzeFuel_allSplit [Zero F] [Add F] [Mul F] [LT F]
    [DecidableRel (LT.lt : F → F → Prop)]
    (E : Env F L Ctx W) (P : enc_cb F L → Prop)
    (hP : ∀ (an : Search F L Ctx W) ctx w x0 y0 Log2CbSize ctDepth s c2 w2,
      Log2CbSize > E.Log2MinCbSizeY →
      encode_cb_split E an ctx w x0 y0 Log2CbSize ctDepth = .ok (s, c2, w2) → P s)
    (hleaf : ∀ c w x y l d, (E.intraPartMode c w x y l d).1.split_cu_flag = false) :
    ∀ (fuel : Nat) ctx w x0 y0 Log2CbSize ctDepth n c2 w2,
      analyzeFuel E fuel ctx w x0 y0 Log2CbSize ctDepth = .ok (n, c2, w2) →
      n.AllSplit P := by
  intro fuel
  induction fuel with
  | zero =>
    intro ctx w x0 y0 Log2CbSize ctDepth n c2 w2 h
    cases h
  | succ fuel ih =>
    intro ctx w x0 y0 Log2CbSize ctDepth n c2 w2 h
    rcases analyzeBody_result E _ ctx w x0 y0 Log2CbSize ctDepth n c2 w2 h with
      hn | ⟨_, hn⟩ | ⟨hcan, cS, wS, c3, w3, hsp⟩
    · rw [hn]
      trivial
    · rw [hn]
      exact enc_cb.allSplit_of_not_split P _ (hleaf _ _ _ _ _ _)
    · have hPn := hP _ _ _ _ _ _ _ _ _ _ hcan hsp
      obtain ⟨k0, k1, k2, k3, hs, s0, s1, s2, s3⟩ :=
        encode_cb_split_ok E _ _ _ _ _ _ _ _ _ _ hsp
      have hk : ∀ i k, SlotOk E (analyzeFuel E fuel) x0 y0 Log2CbSize ctDepth i k →
          k.AllSplit P := by
        intro i k hk
        rcases hk with ⟨_, hk⟩ | ⟨_, _, ci, wi, ci2, wi2, hc⟩
        · rw [hk]
          trivial
        · exact ih _ _ _ _ _ _ _ _ _ hc
      rw [hs] at hPn ⊢
      exact ⟨hPn, hk 0 k0 s0, hk 1 k1 s1, hk 2 k2 s2, hk 3 k3 s3⟩

theorem analyze_allSplit [Zero F] [Add F] [Mul F] [LT F]
    [DecidableRel (LT.lt : F → F → Prop)]
    (E : Env F L Ctx W) (P : enc_cb F L → Prop)
    (hP : ∀ (an : Search F L Ctx W) ctx w x0 y0 Log2CbSize ctDepth s c2 w2,
      Log2CbSize > E.Log2MinCbSizeY →
      encode_cb_split E an ctx w x0 y0 Log2CbSize ctDepth = .ok (s, c2, w2) → P s)
    (hleaf : ∀ c w x y l d, (E.intraPartMode c w x y l d).1.split_cu_flag = false)
    (ctx : Ctx) (w : W) (x0 y0 Log2CbSize ctDepth : Int) (n : enc_cb F L) (c2 : Ctx) (w2 : W)
    (h : analyze E ctx w x0 y0 Log2CbSize ctDepth = .ok (n, c2, w2)) :
    n.AllSplit P :=
  analyzeFuel_allSplit E P hP hleaf _ ctx w x0 y0 Log2CbSize ctDepth n c2 w2 h

theorem forcedSplit_eq_false_iff (E : Env F L Ctx W) (x0 y0 Log2CbSize : Int) :
    forcedSplit E x0 y0 Log2CbSize = false ↔
      x0 + 2 ^ Log2CbSize.toNat ≤ E.width ∧ y0 + 2 ^ Log2CbSize.toNat ≤ E.height := by
  unfold forcedSplit shl
  simp only [one_mul, gt_iff_lt]
  by_cases h1 : E.width < x0 + 2 ^ Log2CbSize.toNat
  · simp [h1]
  · by_cases h2 : E.height < y0 + 2 ^ Log2CbSize.toNat
    · simp [h1, h2]
    · simp only [h1, h2, if_false, true_iff]
      exact ⟨not_lt.mp h1, not_lt.mp h2⟩

theorem encode_cb_split_ne_null [Zero F] [Add F] (E : Env F L Ctx W)
    (an : Search F L Ctx W) (ctx : Ctx) (w : W) (x0 y0 Log2CbSize ctDepth : Int)
    (s : enc_cb F L) (c2 : Ctx) (w2 : W)
    (h : encode_cb_split E an ctx w x0 y0 Log2CbSize ctDepth = .ok (s, c2, w2)) :
    s ≠ .null := by
  obtain ⟨k0, k1, k2, k3, hs, _⟩ := encode_cb_split_ok E _ _ _ _ _ _ _ _ _ _ h
  rw [hs]
  exact fun h => by cases h

/-- When both variants are tried, `analyze` is the comparison of the two candidates. -/
theorem analyze_both [Zero F] [Add F] [Mul F] [LT F] [DecidableRel (LT.lt : F → F → Prop)]
    (E : Env F L Ctx W) (ctx : Ctx) (w : W) (x0 y0 Log2CbSize ctDepth : Int)
    (hcan : Log2CbSize > E.Log2MinCbSizeY) (hin : forcedSplit E x0 y0 Log2CbSize = false)
    (cb_no_split cb_split : enc_cb F L) (c1 cS : Ctx) (w1 wS : W)
    (hno : E.intraPartMode ctx w x0 y0 Log2CbSize ctDepth = (cb_no_split, c1, w1))
    (hnn : cb_no_split ≠ .null)
    (hsp : encode_cb_split E (analyze E) ctx w1 x0 y0 Log2CbSize ctDepth
      = .ok (cb_split, cS, wS))
    (hsn : cb_split ≠ .null) :
    analyze E ctx w x0 y0 Log2CbSize ctDepth
      = if rd_cost E cb_split < rd_cost E cb_no_split then .ok (cb_split, cS, wS)
        else .ok (cb_no_split, c1,
          E.reconstruct cb_no_split (E.write_to_image cb_no_split wS x0 y0) x0 y0) := by
  rw [analyze_eq]
  exact analyzeBody_both E _ ctx w x0 y0 Log2CbSize ctDepth hcan hin cb_no_split cb_split
    c1 cS w1 wS hno hnn hsp hsn

theorem encode_cb_split_child_total [Zero F] [Add F] (E : Env F L Ctx W)
    (an : Search F L Ctx W) (x0 y0 Log2CbSize ctDepth : Int)
    (st : enc_cb F L × Ctx × W) (i : Nat)
    (hcall : ¬ quadrantOutside E x0 y0 Log2CbSize i → ∃ k c2 w2,
      an st.2.1 st.2.2 (childX x0 i Log2CbSize) (childY y0 i Log2CbSize)
        (Log2CbSize - 1) (ctDepth + 1) = .ok (k, c2, w2) ∧ k ≠ .null) :
    ∃ st2, encode_cb_split_child E an x0 y0 Log2CbSize ctDepth st i = .ok st2 := by
  unfold encode_cb_split_child
  simp only [quadrantOutside, childX, childY] at hcall
  dsimp only
  split
  · exact ⟨_, rfl⟩
  · rename_i ho
    obtain ⟨k, c2, w2, hk, hne⟩ := hcall ho
    rw [hk]
    cases k with
    | null => exact absurd rfl hne
    | split _ _ _ _ _ _ _ _ => exact ⟨_, rfl⟩
    | leaf _ _ _ _ _ => exact ⟨_, rfl⟩

/-- `encode_cb_split` completes when `analyze` returns a non-NULL node on every quadrant
whose corner is inside the image. -/
theorem encode_cb_split_total [Zero F] [Add F] (E : Env F L Ctx W)
    (an : Search F L Ctx W) (ctx : Ctx) (w : W) (x0 y0 Log2CbSize ctDepth : Int)
    (hcall : ∀ i, i < 4 → ¬ quadrantOutside E x0 y0 Log2CbSize i → ∀ c w, ∃ k c2 w2,
      an c w (childX x0 i Log2CbSize) (childY y0 i Log2CbSize)
        (Log2CbSize - 1) (ctDepth + 1) = .ok (k, c2, w2) ∧ k ≠ .null) :
    ∃ s c2 w2, encode_cb_split E an ctx w x0 y0 Log2CbSize ctDepth = .ok (s, c2, w2) := by
  unfold encode_cb_split
  obtain ⟨s1, h0⟩ := encode_cb_split_child_total E an x0 y0 Log2CbSize ctDepth
    (.split (Log2CbSize % 256) (ctDepth % 256) .null .null .null .null 0
      (E.splitFlagRate ctx w x0 y0 Log2CbSize ctDepth).1,
     (E.splitFlagRate ctx w x0 y0 Log2CbSize ctDepth).2.1,
     (E.splitFlagRate ctx w x0 y0 Log2CbSize ctDepth).2.2) 0
    (fun ho => hcall 0 (by decide) ho _ _)
  obtain ⟨s2, h1⟩ := encode_cb_split_child_total E an x0 y0 Log2CbSize ctDepth s1 1
    (fun ho => hcall 1 (by decide) ho _ _)
  obtain ⟨s3, h2⟩ := encode_cb_split_child_total E an x0 y0 Log2CbSize ctDepth s2 2
    (fun ho => hcall 2 (by decide) ho _ _)
  obtain ⟨⟨s, c2, w2⟩, h3⟩ := encode_cb_split_child_total E an x0 y0 Log2CbSize ctDepth s3 3
    (fun ho => hcall 3 (by decide) ho _ _)
  exact ⟨s, c2, w2, (foldlM_four _ _ _).mpr ⟨s1, s2, s3, h0, h1, h2, h3⟩⟩

theorem two_pow_toNat_pred (l : Int) (hl : 1 ≤ l) :
    (2 : Int) ^ l.toNat = 2 * 2 ^ (l - 1).toNat := by
  have h : l.toNat = (l - 1).toNat + 1 := by omega
  rw [h, pow_succ]
  ring

theorem childX_cases (x0 : Int) (i : Nat) (l : Int) (hi : i < 4) :
    childX x0 i l = x0 ∨ childX x0 i l = x0 + 2 ^ (l - 1).toNat := by
  unfold childX shl
  interval_cases i
  · left; simp
  · right; simp
  · left; simp
  · right; simp

theorem childY_cases (y0 : Int) (i : Nat) (l : Int) (hi : i < 4) :
    childY y0 i l = y0 ∨ childY y0 i l = y0 + 2 ^ (l - 1).toNat := by
  unfold childY shl
  interval_cases i
  · left; simp
  · left; simp
  · right; simp
  · right; simp

theorem two_pow_toNat_pos (l : Int) : (0 : Int) < 2 ^ l.toNat := by positivity

theorem edgeOk_child (mn p l edge q : Int) (hmn : 0 ≤ mn) (hl : mn < l)
    (h : EdgeOk mn p l edge) (hq : q = p ∨ q = p + 2 ^ (l - 1).toNat) :
    EdgeOk mn q (l - 1) edge := by
  have h2 := two_pow_toNat_pred l (by omega)
  have hpos := two_pow_toNat_pos (l - 1)
  rcases h with h | h
  · left
    rcases hq with hq | hq <;> rw [hq] <;> omega
  · right
    rcases hq with hq | hq
    · rw [hq]; exact h
    · rw [hq]
      have hd : (2 : Int) ^ mn.toNat ∣ 2 ^ (l - 1).toNat :=
        pow_dvd_pow 2 (by omega)
      have : edge - (p + 2 ^ (l - 1).toNat) = (edge - p) - 2 ^ (l - 1).toNat := by ring
      rw [this]
      exact dvd_sub h hd

theorem edgeOk_min (mn p l edge : Int) (hl : l ≤ mn) (h : EdgeOk mn p l edge)
    (hp : p < edge) : p + 2 ^ l.toNat ≤ edge := by
  rcases h with h | h
  · exact h
  · have hle : (2 : Int) ^ l.toNat ≤ 2 ^ mn.toNat :=
      pow_le_pow_right₀ (by norm_num) (by omega)
    have := Int.le_of_dvd (by omega) h
    omega

/-- Safety of the search on a block whose origin is inside the image and that, along
each axis, ends inside the image or starts a multiple of the minimum CB size from the
image edge: `analyze` completes, returns a non-NULL node, every leaf of the tree is inside
the image, and a block crossing the image edge comes back split. -/
theorem analyzeFuel_safe [Zero F] [Add F] [Mul F] [LT F]
    [DecidableRel (LT.lt : F → F → Prop)]
    (E : Env F L Ctx W) (hmin : 0 ≤ E.Log2MinCbSizeY) (hpm : ReturnsLeaf E) :
    ∀ (fuel : Nat) (ctx : Ctx) (w : W) (x0 y0 l d : Int),
      (l - E.Log2MinCbSizeY).toNat < fuel →
      0 ≤ x0 → 0 ≤ y0 → x0 < E.width → y0 < E.height →
      EdgeOk E.Log2MinCbSizeY x0 l E.width → EdgeOk E.Log2MinCbSizeY y0 l E.height →
      ∃ n c2 w2, analyzeFuel E fuel ctx w x0 y0 l d = .ok (n, c2, w2) ∧ n ≠ .null ∧
        n.LeavesInside E x0 y0 l ∧
        (forcedSplit E x0 y0 l = true → n.split_cu_flag = true) := by
  intro fuel
  induction fuel with
  | zero =>
    intro ctx w x0 y0 l d hf
    omega
  | succ fuel ih =>
    intro ctx w x0 y0 l d hf hx0 hy0 hxw hyh hex hey
    show ∃ n c2 w2, analyzeBody E (analyzeFuel E fuel) ctx w x0 y0 l d = .ok (n, c2, w2) ∧ _
    by_cases hcan : l > E.Log2MinCbSizeY
    · -- the block can be split: every quadrant inside the image is searched safely
      have hchild : ∀ i, i < 4 → ¬ quadrantOutside E x0 y0 l i → ∀ c w, ∃ k c2 w2,
          analyzeFuel E fuel c w (childX x0 i l) (childY y0 i l) (l - 1) (d + 1)
            = .ok (k, c2, w2) ∧ k ≠ .null ∧
          k.LeavesInside E (childX x0 i l) (childY y0 i l) (l - 1) := by
        intro i hi ho c w
        unfold quadrantOutside at ho
        rw [not_or] at ho
        have hcx := childX_cases x0 i l hi
        have hcy := childY_cases y0 i l hi
        have hpos := two_pow_toNat_pos (l - 1)
        obtain ⟨k, c2, w2, hk, hne, hli, _⟩ := ih c w (childX x0 i l) (childY y0 i l)
          (l - 1) (d + 1) (by omega)
          (by rcases hcx with h | h <;> rw [h] <;> omega)
          (by rcases hcy with h | h <;> rw [h] <;> omega)
          (not_le.mp ho.1) (not_le.mp ho.2)
          (edgeOk_child _ _ _ _ _ hmin hcan hex hcx)
          (edgeOk_child _ _ _ _ _ hmin hcan hey hcy)
        exact ⟨k, c2, w2, hk, hne, hli⟩
      have hsplit : ∀ (c : Ctx) (w : W), ∃ s c2 w2,
          encode_cb_split E (analyzeFuel E fuel) c w x0 y0 l d = .ok (s, c2, w2) ∧
          s ≠ .null ∧ s.LeavesInside E x0 y0 l ∧ s.split_cu_flag = true := by
        intro c w
        obtain ⟨s, c2, w2, hs⟩ := encode_cb_split_total E (analyzeFuel E fuel) c w x0 y0 l d
          (fun i hi ho c w => by
            obtain ⟨k, c2, w2, hk, hne, _⟩ := hchild i hi ho c w
            exact ⟨k, c2, w2, hk, hne⟩)
        refine ⟨s, c2, w2, hs, encode_cb_split_ne_null E _ _ _ _ _ _ _ _ _ _ hs, ?_⟩
        obtain ⟨k0, k1, k2, k3, hsk, s0, s1, s2, s3⟩ :=
          encode_cb_split_ok E _ _ _ _ _ _ _ _ _ _ hs
        have hk : ∀ i k, i < 4 → SlotOk E (analyzeFuel E fuel) x0 y0 l d i k →
            k.LeavesInside E (childX x0 i l) (childY y0 i l) (l - 1) := by
          intro i k hi hk
          rcases hk with ⟨_, hk⟩ | ⟨ho, _, ci, wi, ci2, wi2, hc⟩
          · rw [hk]
            trivial
          · obtain ⟨k2, c2, w2, hk2, _, hli⟩ := hchild i hi ho ci wi
            rw [hc] at hk2
            cases hk2
            exact hli
        rw [hsk]
        exact ⟨⟨hk 0 k0 (by decide) s0, hk 1 k1 (by decide) s1, hk 2 k2 (by decide) s2,
          hk 3 k3 (by decide) s3⟩, rfl⟩
      cases hin : forcedSplit E x0 y0 l with
      | true =>
        rw [analyzeBody_forced E _ ctx w x0 y0 l d hcan hin]
        obtain ⟨s, c2, w2, hs, hne, hli, hfl⟩ := hsplit ctx w
        exact ⟨s, c2, w2, hs, hne, hli, fun _ => hfl⟩
      | false =>
        obtain ⟨l2, d2, x2, ds, r, hleaf⟩ := hpm ctx w x0 y0 l d
        obtain ⟨s, cS, wS, hs, hne, hli, _⟩ :=
          hsplit ctx (E.intraPartMode ctx w x0 y0 l d).2.2
        have hnn : (E.intraPartMode ctx w x0 y0 l d).1 ≠ .null := by
          rw [hleaf]
          exact fun h => by cases h
        rw [analyzeBody_both E _ ctx w x0 y0 l d hcan hin _ s _ cS _ wS rfl hnn hs hne]
        split
        · exact ⟨s, cS, wS, rfl, hne, hli, fun h => by cases h⟩
        · refine ⟨_, _, _, rfl, hnn, ?_, fun h => by cases h⟩
          have hi := (forcedSplit_eq_false_iff E x0 y0 l).mp hin
          rw [hleaf]
          exact ⟨hx0, hy0, hi.1, hi.2⟩
    · -- minimum size: the block is inside the image and the leaf is returned
      have hix := edgeOk_min _ _ _ _ (not_lt.mp hcan) hex hxw
      have hiy := edgeOk_min _ _ _ _ (not_lt.mp hcan) hey hyh
      have hin : forcedSplit E x0 y0 l = false :=
        (forcedSplit_eq_false_iff E x0 y0 l).mpr ⟨hix, hiy⟩
      obtain ⟨l2, d2, x2, ds, r, hleaf⟩ := hpm ctx w x0 y0 l d
      rw [analyzeBody_min E _ ctx w x0 y0 l d hcan hin]
      refine ⟨_, _, _, rfl, ?_, ?_, fun h => ?_⟩
      · rw [hleaf]
        exact fun h => by cases h
      · rw [hleaf]
        exact ⟨hx0, hy0, hix, hiy⟩
      · rw [hin] at h
        cases h

theorem analyze_safe [Zero F] [Add F] [Mul F] [LT F]
    [DecidableRel (LT.lt : F → F → Prop)]
    (E : Env F L Ctx W) (hmin : 0 ≤ E.Log2MinCbSizeY) (hpm : ReturnsLeaf E)
    (ctx : Ctx) (w : W) (x0 y0 l d : Int)
    (hx0 : 0 ≤ x0) (hy0 : 0 ≤ y0) (hxw : x0 < E.width) (hyh : y0 < E.height)
    (hex : EdgeOk E.Log2MinCbSizeY x0 l E.width)
    (hey : EdgeOk E.Log2MinCbSizeY y0 l E.height) :
    ∃ n c2 w2, analyze E ctx w x0 y0 l d = .ok (n, c2, w2) ∧ n ≠ .null ∧
      n.LeavesInside E x0 y0 l ∧
      (forcedSplit E x0 y0 l = true → n.split_cu_flag = true) :=
  analyzeFuel_safe E hmin hpm _ ctx w x0 y0 l d (Nat.lt_succ_self _) hx0 hy0 hxw hyh hex hey

theorem foldlM_congr_mem {ε σ : Type} (f g : σ → Nat → Except ε σ) (l : List Nat)
    (h : ∀ i, i ∈ l → ∀ st, f st i = g st i) (init : σ) :
    l.foldlM f init = l.foldlM g init := by
  induction l generalizing init with
  | nil => rfl
  | cons a l ih =>
    simp only [List.foldlM_cons]
    rw [h a (List.mem_cons_self a l) init]
    congr 1
    funext st
    exact ih (fun i hi => h i (List.mem_cons_of_mem a hi)) st

/-- The outcome of `encode_cb_split` depends on the callee `analyze` only through its
calls on the quadrants whose corner is inside the image, at size `Log2CbSize-1` and depth
`ctDepth+1`. -/
theorem encode_cb_split_congr_quadrants [Zero F] [Add F] (E : Env F L Ctx W)
    (an an2 : Search F L Ctx W) (ctx : Ctx) (w : W) (x0 y0 Log2CbSize ctDepth : Int)
    (h : ∀ i, i < 4 → ¬ quadrantOutside E x0 y0 Log2CbSize i → ∀ c w,
      an2 c w (childX x0 i Log2CbSize) (childY y0 i Log2CbSize) (Log2CbSize - 1) (ctDepth + 1)
        = an c w (childX x0 i Log2CbSize) (childY y0 i Log2CbSize) (Log2CbSize - 1)
            (ctDepth + 1)) :
    encode_cb_split E an2 ctx w x0 y0 Log2CbSize ctDepth
      = encode_cb_split E an ctx w x0 y0 Log2CbSize ctDepth := by
  unfold encode_cb_split
  apply foldlM_congr_mem
  intro i hi st
  have hi4 : i < 4 := by
    simp only [List.mem_cons, List.mem_singleton, List.not_mem_nil, or_false] at hi
    omega
  unfold encode_cb_split_child
  dsimp only
  split
  · rfl
  · rename_i ho
    have := h i hi4 ho st.2.1 st.2.2
    simp only [childX, childY] at this
    rw [this]

theorem quadrantOutside_iff_disjoint (E : Env F L Ctx W) (x0 y0 Log2CbSize : Int) (i : Nat)
    (hi : i < 4) (hx0 : 0 ≤ x0) (hy0 : 0 ≤ y0) :
    quadrantOutside E x0 y0 Log2CbSize i ↔
      ¬ ∃ px py : Int,
        childX x0 i Log2CbSize ≤ px ∧ px < childX x0 i Log2CbSize + 2 ^ (Log2CbSize - 1).toNat ∧
        childY y0 i Log2CbSize ≤ py ∧ py < childY y0 i Log2CbSize + 2 ^ (Log2CbSize - 1).toNat ∧
        0 ≤ px ∧ px < E.width ∧ 0 ≤ py ∧ py < E.height := by
  have hpos := two_pow_toNat_pos (Log2CbSize - 1)
  have hcx := childX_cases x0 i Log2CbSize hi
  have hcy := childY_cases y0 i Log2CbSize hi
  unfold quadrantOutside
  constructor
  · rintro (h | h) ⟨px, py, h1, _, h3, _, _, h6, _, h8⟩
    · omega
    · omega
  · intro h
    by_contra hc
    rw [not_or] at hc
    apply h
    refine ⟨childX x0 i Log2CbSize, childY y0 i Log2CbSize, le_refl _, by omega, le_refl _,
      by omega, ?_, not_le.mp hc.1, ?_, not_le.mp hc.2⟩
    · rcases hcx with h | h <;> rw [h] <;> omega
    · rcases hcy with h | h <;> rw [h] <;> omega

/-- Both variants tried: `analyze` runs the prediction-mode search on the caller's table,
then `encode_cb_split` on a table holding the entry content, and compares. -/
theorem analyze_both_total [Zero F] [Add F] [Mul F] [LT F]
    [DecidableRel (LT.lt : F → F → Prop)]
    (E : Env F L Ctx W) (ctx : Ctx) (w : W) (x0 y0 Log2CbSize ctDepth : Int)
    (hcan : Log2CbSize > E.Log2MinCbSizeY) (hin : forcedSplit E x0 y0 Log2CbSize = false)
    (cb_no_split : enc_cb F L) (c1 : Ctx) (w1 : W)
    (hno : E.intraPartMode ctx w x0 y0 Log2CbSize ctDepth = (cb_no_split, c1, w1))
    (hnn : cb_no_split ≠ .null) :
    analyze E ctx w x0 y0 Log2CbSize ctDepth
      = match encode_cb_split E (analyze E) ctx w1 x0 y0 Log2CbSize ctDepth with
        | .error e => .error e
        | .ok (cb_split, cS, wS) =>
          if rd_cost E cb_split < rd_cost E cb_no_split then .ok (cb_split, cS, wS)
          else .ok (cb_no_split, c1,
            E.reconstruct cb_no_split (E.write_to_image cb_no_split wS x0 y0) x0 y0) := by
  cases hsp : encode_cb_split E (analyze E) ctx w1 x0 y0 Log2CbSize ctDepth with
  | error e =>
    rw [analyze_eq, analyzeBody_both_eq E _ ctx w x0 y0 Log2CbSize ctDepth hcan hin, hno]
    dsimp only
    rw [hsp]
  | ok r =>
    obtain ⟨cb_split, cS, wS⟩ := r
    exact analyze_both E ctx w x0 y0 Log2CbSize ctDepth hcan hin cb_no_split cb_split c1 cS
      w1 wS hno hnn hsp (encode_cb_split_ne_null E _ _ _ _ _ _ _ _ _ _ hsp)

theorem analyzeBody_withNoSplitCtx [Zero F] [Add F] [Mul F] [LT F]
    [DecidableRel (LT.lt : F → F → Prop)]
    (E : Env F L Ctx W) (L0 : Int) (g : Ctx → Ctx) (an : Search F L Ctx W)
    (c : Ctx) (w : W) (x y l d : Int) (hl : l ≠ L0) :
    analyzeBody (E.withNoSplitCtx L0 g) an c w x y l d = analyzeBody E an c w x y l d := by
  have e1 : (E.withNoSplitCtx L0 g).intraPartMode c w x y l d
      = E.intraPartMode c w x y l d := if_neg hl
  have e2 : ∀ c w, encode_cb_split (E.withNoSplitCtx L0 g) an c w x y l d
      = encode_cb_split E an c w x y l d := fun _ _ => rfl
  have e3 : forcedSplit (E.withNoSplitCtx L0 g) x y l = forcedSplit E x y l := rfl
  by_cases hcan : l > E.Log2MinCbSizeY
  · cases hin : forcedSplit E x y l with
    | true =>
      rw [analyzeBody_forced E an c w x y l d hcan hin,
        analyzeBody_forced (E.withNoSplitCtx L0 g) an c w x y l d hcan (e3.trans hin), e2]
    | false =>
      rw [analyzeBody_both_eq E an c w x y l d hcan hin,
        analyzeBody_both_eq (E.withNoSplitCtx L0 g) an c w x y l d hcan (e3.trans hin),
        e1, e2]
      rfl
  · cases hin : forcedSplit E x y l with
    | true =>
      rw [analyzeBody_neither E an c w x y l d hcan hin,
        analyzeBody_neither (E.withNoSplitCtx L0 g) an c w x y l d hcan (e3.trans hin)]
    | false =>
      rw [analyzeBody_min E an c w x y l d hcan hin,
        analyzeBody_min (E.withNoSplitCtx L0 g) an c w x y l d hcan (e3.trans hin), e1]

theorem analyzeFuel_withNoSplitCtx [Zero F] [Add F] [Mul F] [LT F]
    [DecidableRel (LT.lt : F → F → Prop)]
    (E : Env F L Ctx W) (L0 : Int) (g : Ctx → Ctx) :
    ∀ (fuel : Nat) (c : Ctx) (w : W) (x y l d : Int), l < L0 →
      analyzeFuel (E.withNoSplitCtx L0 g) fuel c w x y l d = analyzeFuel E fuel c w x y l d := by
  intro fuel
  induction fuel with
  | zero =>
    intro c w x y l d _
    rfl
  | succ fuel ih =>
    intro c w x y l d hl
    show analyzeBody (E.withNoSplitCtx L0 g) (analyzeFuel (E.withNoSplitCtx L0 g) fuel)
      c w x y l d = analyzeBody E (analyzeFuel E fuel) c w x y l d
    rw [analyzeBody_congr (E.withNoSplitCtx L0 g) _ (analyzeFuel E fuel) c w x y l d
      (fun _ c w x y _ _ => ih c w x y (l - 1) (d + 1) (by omega))]
    exact analyzeBody_withNoSplitCtx E L0 g _ c w x y l d (by omega)

/-- The split exploration of a block of size `2^L0` is the same whatever the
prediction-mode search at that size does to the context-model table. -/
theorem encode_cb_split_withNoSplitCtx [Zero F] [Add F] [Mul F] [LT F]
    [DecidableRel (LT.lt : F → F → Prop)]
    (E : Env F L Ctx W) (L0 : Int) (g : Ctx → Ctx) (c : Ctx) (w : W) (x y d : Int) :
    encode_cb_split (E.withNoSplitCtx L0 g) (analyze (E.withNoSplitCtx L0 g)) c w x y L0 d
      = encode_cb_split E (analyze E) c w x y L0 d := by
  have h := encode_cb_split_congr (E.withNoSplitCtx L0 g) (analyze (E.withNoSplitCtx L0 g))
    (analyze E) c w x y L0 d
    (fun c w x y _ _ => analyzeFuel_withNoSplitCtx E L0 g _ c w x y (L0 - 1) (d + 1)
      (by omega))
  exact h.trans rfl

theorem foldlM_error {ε σ : Type} (f : σ → Nat → Except ε σ) (l : List Nat) (init : σ)
    (e : ε) (h : l.foldlM f init = .error e) :
    ∃ i, i ∈ l ∧ ∃ st, f st i = .error e := by
  induction l generalizing init with
  | nil => cases h
  | cons a l ih =>
    simp only [List.foldlM_cons] at h
    cases hfa : f init a with
    | error e2 =>
      rw [hfa] at h
      cases h
      exact ⟨a, List.mem_cons_self a l, init, hfa⟩
    | ok st =>
      rw [hfa] at h
      obtain ⟨i, hi, st2, hst⟩ := ih st h
      exact ⟨i, List.mem_cons_of_mem a hi, st2, hst⟩

/-- A fault of `encode_cb_split` is a read through a NULL child or a fault of a nested
call of `analyze` at size `Log2CbSize-1`. -/
theorem encode_cb_split_error [Zero F] [Add F] (E : Env F L Ctx W)
    (an : Search F L Ctx W) (ctx : Ctx) (w : W) (x0 y0 Log2CbSize ctDepth : Int) (e : Fault)
    (h : encode_cb_split E an ctx w x0 y0 Log2CbSize ctDepth = .error e) :
    e = .nullDeref ∨
      ∃ c w x y, an c w x y (Log2CbSize - 1) (ctDepth + 1) = .error e := by
  unfold encode_cb_split at h
  obtain ⟨i, _, st, hst⟩ := foldlM_error _ _ _ _ h
  unfold encode_cb_split_child at hst
  dsimp only at hst
  split at hst
  · cases hst
  · split at hst
    · rename_i e2 hcall
      cases hst
      exact Or.inr ⟨_, _, _, _, hcall⟩
    · split at hst
      · cases hst
        exact Or.inl rfl
      · cases hst

/-- A fault of `analyze` is a read through a NULL pointer or a fault of
`encode_cb_split`, which runs only above the minimum CB size; the local table `ctxCopy`
is never read before it is written. -/
theorem analyzeBody_error [Zero F] [Add F] [Mul F] [LT F]
    [DecidableRel (LT.lt : F → F → Prop)]
    (E : Env F L Ctx W) (an : Search F L Ctx W) (ctx : Ctx) (w : W)
    (x0 y0 Log2CbSize ctDepth : Int) (e : Fault)
    (h : analyzeBody E an ctx w x0 y0 Log2CbSize ctDepth = .error e) :
    e = .nullDeref ∨
      (Log2CbSize > E.Log2MinCbSizeY ∧
        ∃ cS wS, encode_cb_split E an cS wS x0 y0 Log2CbSize ctDepth = .error e) := by
  by_cases hcan : Log2CbSize > E.Log2MinCbSizeY
  · cases hin : forcedSplit E x0 y0 Log2CbSize with
    | true =>
      rw [analyzeBody_forced E an ctx w x0 y0 Log2CbSize ctDepth hcan hin] at h
      exact Or.inr ⟨hcan, _, _, h⟩
    | false =>
      rw [analyzeBody_both_eq E an ctx w x0 y0 Log2CbSize ctDepth hcan hin] at h
      split at h
      · rename_i e2 hsp
        cases h
        exact Or.inr ⟨hcan, _, _, hsp⟩
      · split at h
        · cases h
          exact Or.inl rfl
        · cases h
          exact Or.inl rfl
        · split at h <;> cases h
  · cases hin : forcedSplit E x0 y0 Log2CbSize with
    | true =>
      rw [analyzeBody_neither E an ctx w x0 y0 Log2CbSize ctDepth hcan hin] at h
      cases h
    | false =>
      rw [analyzeBody_min E an ctx w x0 y0 Log2CbSize ctDepth hcan hin] at h
      cases h

/-- With a budget above `Log2CbSize - Log2MinCbSizeY` the recursion never runs out of
budget. -/
theorem analyzeFuel_ne_outOfFuel [Zero F] [Add F] [Mul F] [LT F]
    [DecidableRel (LT.lt : F → F → Prop)] (E : Env F L Ctx W) :
    ∀ (fuel : Nat) (ctx : Ctx) (w : W) (x0 y0 l d : Int),
      (l - E.Log2MinCbSizeY).toNat < fuel →
      analyzeFuel E fuel ctx w x0 y0 l d ≠ .error .outOfFuel := by
  intro fuel
  induction fuel with
  | zero =>
    intro ctx w x0 y0 l d hf
    omega
  | succ fuel ih =>
    intro ctx w x0 y0 l d hf h
    rcases analyzeBody_error E _ ctx w x0 y0 l d _ h with h1 | ⟨hcan, cS, wS, hsp⟩
    · cases h1
    · rcases encode_cb_split_error E _ cS wS x0 y0 l d _ hsp with h1 | ⟨c, w2, x, y, hc⟩
      · cases h1
      · exact ih c w2 x y (l - 1) (d + 1) (by omega) hc

/-- The function `analyze` always ends, with a result or with a read through NULL: the
recursion budget it is given is never used up. -/
theorem analyze_ne_outOfFuel [Zero F] [Add F] [Mul F] [LT F]
    [DecidableRel (LT.lt : F → F → Prop)] (E : Env F L Ctx W)
    (ctx : Ctx) (w : W) (x0 y0 l d : Int) :
    analyze E ctx w x0 y0 l d ≠ .error .outOfFuel :=
  analyzeFuel_ne_outOfFuel E _ ctx w x0 y0 l d (Nat.lt_succ_self _)

/-- Along the recursion the origin of every visited block stays inside the image and the
block keeps ending inside the image or starting a multiple of the minimum CB size before
the image edge. -/
theorem visits_invariant (E : Env F L Ctx W) (hmin : 0 ≤ E.Log2MinCbSizeY)
    (x0 y0 l0 : Int) (hx0 : 0 ≤ x0) (hy0 : 0 ≤ y0) (hxw : x0 < E.width) (hyh : y0 < E.height)
    (hex : EdgeOk E.Log2MinCbSizeY x0 l0 E.width)
    (hey : EdgeOk E.Log2MinCbSizeY y0 l0 E.height)
    (x y l : Int) (hv : Visits E x0 y0 l0 x y l) :
    0 ≤ x ∧ 0 ≤ y ∧ x < E.width ∧ y < E.height ∧
      EdgeOk E.Log2MinCbSizeY x l E.width ∧ EdgeOk E.Log2MinCbSizeY y l E.height := by
  induction hv with
  | root => exact ⟨hx0, hy0, hxw, hyh, hex, hey⟩
  | child x y l i _ hl hi ho ih =>
    obtain ⟨hx, hy, _, _, hex2, hey2⟩ := ih
    unfold quadrantOutside at ho
    rw [not_or] at ho
    have hcx := childX_cases x i l hi
    have hcy := childY_cases y i l hi
    have hpos := two_pow_toNat_pos (l - 1)
    refine ⟨?_, ?_, not_le.mp ho.1, not_le.mp ho.2,
      edgeOk_child _ _ _ _ _ hmin hl hex2 hcx, edgeOk_child _ _ _ _ _ hmin hl hey2 hcy⟩
    · rcases hcx with h | h <;> rw [h] <;> omega
    · rcases hcy with h | h <;> rw [h] <;> omega

/-- An origin that is a multiple of the block size, in an image whose size is a multiple
of the minimum CB size, is a multiple of the minimum CB size before the image edge. -/
theorem edgeOk_of_aligned (mn p l edge : Int) (hl : mn ≤ l)
    (hedge : (2 : Int) ^ mn.toNat ∣ edge) (hp : (2 : Int) ^ l.toNat ∣ p) :
    EdgeOk mn p l edge := by
  right
  have hd : (2 : Int) ^ mn.toNat ∣ 2 ^ l.toNat := pow_dvd_pow 2 (by omega)
  exact dvd_sub hedge (dvd_trans hd hp)

/-- With a recursion budget above `Log2CbSize - Log2MinCbSizeY` the result is that of
`analyze`: the budget is not what stops the recursion. -/
theorem analyzeFuel_eq_analyze [Zero F] [Add F] [Mul F] [LT F]
    [DecidableRel (LT.lt : F → F → Prop)] (E : Env F L Ctx W) :
    ∀ (fuel : Nat) (ctx : Ctx) (w : W) (x0 y0 l d : Int),
      (l - E.Log2MinCbSizeY).toNat < fuel →
      analyzeFuel E fuel ctx w x0 y0 l d = analyze E ctx w x0 y0 l d := by
  intro fuel
  induction fuel with
  | zero =>
    intro ctx w x0 y0 l d hf
    omega
  | succ fuel ih =>
    intro ctx w x0 y0 l d hf
    rw [analyze_eq]
    show analyzeBody E (analyzeFuel E fuel) ctx w x0 y0 l d = _
    exact analyzeBody_congr E _ _ ctx w x0 y0 l d
      (fun hcan c w x y _ _ => ih c w x y (l - 1) (d + 1) (by omega))

/-- Variant of `analyzeFuel_allSplit` for a property of the nodes built at sizes up to a
bound `B`. -/
theorem analyzeFuel_allSplit_le [Zero F] [Add F] [Mul F] [LT F]
    [DecidableRel (LT.lt : F → F → Prop)]
    (E : Env F L Ctx W) (P : enc_cb F L → Prop) (B : Int)
    (hP : ∀ (an : Search F L Ctx W) ctx w x0 y0 Log2CbSize ctDepth s c2 w2,
      Log2CbSize > E.Log2MinCbSizeY → Log2CbSize ≤ B →
      encode_cb_split E an ctx w x0 y0 Log2CbSize ctDepth = .ok (s, c2, w2) → P s)
    (hleaf : ∀ c w x y l d, (E.intraPartMode c w x y l d).1.split_cu_flag = false) :
    ∀ (fuel : Nat) ctx w x0 y0 Log2CbSize ctDepth n c2 w2, Log2CbSize ≤ B →
      analyzeFuel E fuel ctx w x0 y0 Log2CbSize ctDepth = .ok (n, c2, w2) →
      n.AllSplit P := by
  intro fuel
  induction fuel with
  | zero =>
    intro ctx w x0 y0 Log2CbSize ctDepth n c2 w2 _ h
    cases h
  | succ fuel ih =>
    intro ctx w x0 y0 Log2CbSize ctDepth n c2 w2 hB h
    rcases analyzeBody_result E _ ctx w x0 y0 Log2CbSize ctDepth n c2 w2 h with
      hn | ⟨_, hn⟩ | ⟨hcan, cS, wS, c3, w3, hsp⟩
    · rw [hn]
      trivial
    · rw [hn]
      exact enc_cb.allSplit_of_not_split P _ (hleaf _ _ _ _ _ _)
    · have hPn := hP _ _ _ _ _ _ _ _ _ _ hcan hB hsp
      obtain ⟨k0, k1, k2, k3, hs, s0, s1, s2, s3⟩ :=
        encode_cb_split_ok E _ _ _ _ _ _ _ _ _ _ hsp
      have hk : ∀ i k, SlotOk E (analyzeFuel E fuel) x0 y0 Log2CbSize ctDepth i k →
          k.AllSplit P := by
        intro i k hk
        rcases hk with ⟨_, hk⟩ | ⟨_, _, ci, wi, ci2, wi2, hc⟩
        · rw [hk]
          trivial
        · exact ih _ _ _ _ _ _ _ _ _ (by omega) hc
      rw [hs] at hPn ⊢
      exact ⟨hPn, hk 0 k0 s0, hk 1 k1 s1, hk 2 k2 s2, hk 3 k3 s3⟩

/-- One pass of the loop, from what it does to the states. -/
theorem encode_cb_split_child_of_step [Zero F] [Add F] (E : Env F L Ctx W)
    (an : Search F L Ctx W) (x0 y0 Log2CbSize ctDepth : Int)
    (st : enc_cb F L × Ctx × W) (i : Nat) (k : enc_cb F L) (c2 : Ctx) (w2 : W)
    (h : ChildStep E an x0 y0 Log2CbSize ctDepth i st.2.1 st.2.2 k c2 w2) :
    encode_cb_split_child E an x0 y0 Log2CbSize ctDepth st i
      = .ok (slotUpdate st.1 i k, c2, w2) := by
  unfold encode_cb_split_child
  unfold ChildStep quadrantOutside childX childY at h
  dsimp only
  rcases h with ⟨ho, hk, hc, hw⟩ | ⟨ho, hk, hcall⟩
  · rw [if_pos ho, hk, hc, hw]
    rfl
  · rw [if_neg ho, hcall]
    cases k with
    | null => exact absurd rfl hk
    | split _ _ _ _ _ _ _ _ => rfl
    | leaf _ _ _ _ _ => rfl

theorem childStep_of_encode_cb_split_child [Zero F] [Add F] (E : Env F L Ctx W)
    (an : Search F L Ctx W) (x0 y0 Log2CbSize ctDepth : Int)
    (st st2 : enc_cb F L × Ctx × W) (i : Nat)
    (h : encode_cb_split_child E an x0 y0 Log2CbSize ctDepth st i = .ok st2) :
    ∃ k, st2.1 = slotUpdate st.1 i k ∧
      ChildStep E an x0 y0 Log2CbSize ctDepth i st.2.1 st.2.2 k st2.2.1 st2.2.2 := by
  obtain ⟨k, hk, hs⟩ := encode_cb_split_child_ok E an x0 y0 Log2CbSize ctDepth st st2 i h
  refine ⟨k, hk, ?_⟩
  rcases hs with ⟨ho, hn, he⟩ | ⟨ho, hn, hc⟩
  · exact Or.inl ⟨ho, hn, by rw [he], by rw [he]⟩
  · exact Or.inr ⟨ho, hn, hc⟩

/-- Induction over the recursion for a property `Q` of a returned tree and the block it
was built for: `Q` holds of what `analyze` returns on a safe block when it holds of every
leaf on a block inside the image and of every split node whose slots are NULL for the
quadrants outside the image and satisfy `Q` on the other quadrants. -/
theorem analyzeFuel_geom [Zero F] [Add F] [Mul F] [LT F]
    [DecidableRel (LT.lt : F → F → Prop)]
    (E : Env F L Ctx W) (hmin : 0 ≤ E.Log2MinCbSizeY) (hpm : ReturnsLeaf E)
    (Q : enc_cb F L → Int → Int → Int → Prop)
    (hQleaf : ∀ l2 d2 x2 ds r x y l, 0 ≤ x → 0 ≤ y →
      x + 2 ^ l.toNat ≤ E.width → y + 2 ^ l.toNat ≤ E.height →
      Q (.leaf l2 d2 x2 ds r) x y l)
    (hQsplit : ∀ l2 d2 k0 k1 k2 k3 ds r x y l, l > E.Log2MinCbSizeY →
      0 ≤ x → 0 ≤ y → x < E.width → y < E.height →
      (∀ i, i < 4 →
        (quadrantOutside E x y l i ∧ [k0, k1, k2, k3].getD i .null = .null) ∨
        (¬ quadrantOutside E x y l i ∧
          Q ([k0, k1, k2, k3].getD i .null) (childX x i l) (childY y i l) (l - 1))) →
      Q (.split l2 d2 k0 k1 k2 k3 ds r) x y l) :
    ∀ (fuel : Nat) (ctx : Ctx) (w : W) (x0 y0 l d : Int),
      (l - E.Log2MinCbSizeY).toNat < fuel →
      0 ≤ x0 → 0 ≤ y0 → x0 < E.width → y0 < E.height →
      EdgeOk E.Log2MinCbSizeY x0 l E.width → EdgeOk E.Log2MinCbSizeY y0 l E.height →
      ∃ n c2 w2, analyzeFuel E fuel ctx w x0 y0 l d = .ok (n, c2, w2) ∧ n ≠ .null ∧
        Q n x0 y0 l := by
  intro fuel
  induction fuel with
  | zero =>
    intro ctx w x0 y0 l d hf
    omega
  | succ fuel ih =>
    intro ctx w x0 y0 l d hf hx0 hy0 hxw hyh hex hey
    show ∃ n c2 w2, analyzeBody E (analyzeFuel E fuel) ctx w x0 y0 l d = .ok (n, c2, w2) ∧ _
    by_cases hcan : l > E.Log2MinCbSizeY
    · have hchild : ∀ i, i < 4 → ¬ quadrantOutside E x0 y0 l i → ∀ c w, ∃ k c2 w2,
          analyzeFuel E fuel c w (childX x0 i l) (childY y0 i l) (l - 1) (d + 1)
            = .ok (k, c2, w2) ∧ k ≠ .null ∧
          Q k (childX x0 i l) (childY y0 i l) (l - 1) := by
        intro i hi ho c w
        unfold quadrantOutside at ho
        rw [not_or] at ho
        have hcx := childX_cases x0 i l hi
        have hcy := childY_cases y0 i l hi
        have hpos := two_pow_toNat_pos (l - 1)
        exact ih c w (childX x0 i l) (childY y0 i l) (l - 1) (d + 1) (by omega)
          (by rcases hcx with h | h <;> rw [h] <;> omega)
          (by rcases hcy with h | h <;> rw [h] <;> omega)
          (not_le.mp ho.1) (not_le.mp ho.2)
          (edgeOk_child _ _ _ _ _ hmin hcan hex hcx)
          (edgeOk_child _ _ _ _ _ hmin hcan hey hcy)
      have hsplit : ∀ (c : Ctx) (w : W), ∃ s c2 w2,
          encode_cb_split E (analyzeFuel E fuel) c w x0 y0 l d = .ok (s, c2, w2) ∧
          s ≠ .null ∧ Q s x0 y0 l := by
        intro c w
        obtain ⟨s, c2, w2, hs⟩ := encode_cb_split_total E (analyzeFuel E fuel) c w x0 y0 l d
          (fun i hi ho c w => by
            obtain ⟨k, c2, w2, hk, hne, _⟩ := hchild i hi ho c w
            exact ⟨k, c2, w2, hk, hne⟩)
        refine ⟨s, c2, w2, hs, encode_cb_split_ne_null E _ _ _ _ _ _ _ _ _ _ hs, ?_⟩
        obtain ⟨k0, k1, k2, k3, hsk, s0, s1, s2, s3⟩ :=
          encode_cb_split_ok E _ _ _ _ _ _ _ _ _ _ hs
        have hk : ∀ i k, i < 4 → SlotOk E (analyzeFuel E fuel) x0 y0 l d i k →
            (quadrantOutside E x0 y0 l i ∧ k = .null) ∨
            (¬ quadrantOutside E x0 y0 l i ∧ Q k (childX x0 i l) (childY y0 i l) (l - 1)) := by
          intro i k hi hk
          rcases hk with ⟨ho, hk⟩ | ⟨ho, _, ci, wi, ci2, wi2, hc⟩
          · exact Or.inl ⟨ho, hk⟩
          · obtain ⟨k2, c2, w2, hk2, _, hq⟩ := hchild i hi ho ci wi
            rw [hc] at hk2
            cases hk2
            exact Or.inr ⟨ho, hq⟩
        rw [hsk]
        apply hQsplit _ _ _ _ _ _ _ _ _ _ _ hcan hx0 hy0 hxw hyh
        intro i hi
        interval_cases i
        · exact hk 0 k0 (by decide) s0
        · exact hk 1 k1 (by decide) s1
        · exact hk 2 k2 (by decide) s2
        · exact hk 3 k3 (by decide) s3
      cases hin : forcedSplit E x0 y0 l with
      | true =>
        rw [analyzeBody_forced E _ ctx w x0 y0 l d hcan hin]
        exact hsplit ctx w
      | false =>
        obtain ⟨l2, d2, x2, ds, r, hleaf⟩ := hpm ctx w x0 y0 l d
        obtain ⟨s, cS, wS, hs, hne, hq⟩ :=
          hsplit ctx (E.intraPartMode ctx w x0 y0 l d).2.2
        have hnn : (E.intraPartMode ctx w x0 y0 l d).1 ≠ .null := by
          rw [hleaf]
          exact fun h => by cases h
        rw [analyzeBody_both E _ ctx w x0 y0 l d hcan hin _ s _ cS _ wS rfl hnn hs hne]
        split
        · exact ⟨s, cS, wS, rfl, hne, hq⟩
        · refine ⟨_, _, _, rfl, hnn, ?_⟩
          have hi := (forcedSplit_eq_false_iff E x0 y0 l).mp hin
          rw [hleaf]
          exact hQleaf _ _ _ _ _ _ _ _ hx0 hy0 hi.1 hi.2
    · have hix := edgeOk_min _ _ _ _ (not_lt.mp hcan) hex hxw
      have hiy := edgeOk_min _ _ _ _ (not_lt.mp hcan) hey hyh
      have hin : forcedSplit E x0 y0 l = false :=
        (forcedSplit_eq_false_iff E x0 y0 l).mpr ⟨hix, hiy⟩
      obtain ⟨l2, d2, x2, ds, r, hleaf⟩ := hpm ctx w x0 y0 l d
      rw [analyzeBody_min E _ ctx w x0 y0 l d hcan hin]
      refine ⟨_, _, _, rfl, ?_, ?_⟩
      · rw [hleaf]
        exact fun h => by cases h
      · rw [hleaf]
        exact hQleaf _ _ _ _ _ _ _ _ hx0 hy0 hix hiy

theorem childXY_vals (x y l : Int) :
    childX x 0 l = x ∧ childX x 1 l = x + 2 ^ (l - 1).toNat ∧
    childX x 2 l = x ∧ childX x 3 l = x + 2 ^ (l - 1).toNat ∧
    childY y 0 l = y ∧ childY y 1 l = y ∧
    childY y 2 l = y + 2 ^ (l - 1).toNat ∧ childY y 3 l = y + 2 ^ (l - 1).toNat := by
  unfold childX childY shl
  refine ⟨?_, ?_, ?_, ?_, ?_, ?_, ?_, ?_⟩ <;> simp

theorem tiling_leaf (E : Env F L Ctx W) (l2 d2 : Int) (x2 : L) (ds r : F) (x y l : Int)
    (hx : 0 ≤ x) (hy : 0 ≤ y) (hxw : x + 2 ^ l.toNat ≤ E.width)
    (hyh : y + 2 ^ l.toNat ≤ E.height) :
    Tiling E (.leaf l2 d2 x2 ds r) x y l := by
  refine ⟨?_, ?_, ?_⟩
  · intro b hb
    simp only [enc_cb.leafBlocks, List.mem_singleton] at hb
    rw [hb]
    exact ⟨le_refl _, le_refl _, le_refl _, le_refl _, hx, hy, hxw, hyh⟩
  · simp only [enc_cb.leafBlocks, List.pairwise_singleton]
  · intro px py hp _ _ _ _
    exact ⟨(x, y, l), by simp only [enc_cb.leafBlocks, List.mem_singleton], hp⟩

theorem tiling_null_outside (E : Env F L Ctx W) (x y l : Int)
    (ho : x ≥ E.width ∨ y ≥ E.height) : Tiling E (.null : enc_cb F L) x y l := by
  refine ⟨?_, ?_, ?_⟩
  · intro b hb
    simp only [enc_cb.leafBlocks, List.not_mem_nil] at hb
  · simp only [enc_cb.leafBlocks, List.Pairwise.nil]
  · intro px py hp _ hpw _ hph
    unfold inSquare at hp
    dsimp only at hp
    omega

theorem squaresDisjoint_of_boxes (a b : Int × Int × Int) (ax ay bx bq s : Int)
    (ha : ax ≤ a.1 ∧ a.1 + 2 ^ a.2.2.toNat ≤ ax + s ∧
      ay ≤ a.2.1 ∧ a.2.1 + 2 ^ a.2.2.toNat ≤ ay + s)
    (hb : bx ≤ b.1 ∧ b.1 + 2 ^ b.2.2.toNat ≤ bx + s ∧
      bq ≤ b.2.1 ∧ b.2.1 + 2 ^ b.2.2.toNat ≤ bq + s)
    (hsep : ax + s ≤ bx ∨ bx + s ≤ ax ∨ ay + s ≤ bq ∨ bq + s ≤ ay) :
    squaresDisjoint a b := by
  intro px py hp
  unfold inSquare at hp
  omega

/-- A split node tiles its block when its four children tile the four quadrants. -/
theorem tiling_split (E : Env F L Ctx W) (l2 d2 : Int) (k0 k1 k2 k3 : enc_cb F L) (ds r : F)
    (x y l : Int) (hl : 1 ≤ l)
    (t0 : Tiling E k0 (childX x 0 l) (childY y 0 l) (l - 1))
    (t1 : Tiling E k1 (childX x 1 l) (childY y 1 l) (l - 1))
    (t2 : Tiling E k2 (childX x 2 l) (childY y 2 l) (l - 1))
    (t3 : Tiling E k3 (childX x 3 l) (childY y 3 l) (l - 1)) :
    Tiling E (.split l2 d2 k0 k1 k2 k3 ds r) x y l := by
  obtain ⟨x0', x1', x2', x3', y0', y1', y2', y3'⟩ := childXY_vals x y l
  have h2 := two_pow_toNat_pred l hl
  have hpos := two_pow_toNat_pos (l - 1)
  rw [x0', y0'] at t0
  rw [x1', y1'] at t1
  rw [x2', y2'] at t2
  rw [x3', y3'] at t3
  obtain ⟨a0, p0, c0⟩ := t0
  obtain ⟨a1, p1, c1⟩ := t1
  obtain ⟨a2, p2, c2⟩ := t2
  obtain ⟨a3, p3, c3⟩ := t3
  have hlb : (enc_cb.split l2 d2 k0 k1 k2 k3 ds r).leafBlocks x y l
      = k0.leafBlocks x y (l - 1) ++
        (k1.leafBlocks (x + 2 ^ (l - 1).toNat) y (l - 1) ++
        (k2.leafBlocks x (y + 2 ^ (l - 1).toNat) (l - 1) ++
         k3.leafBlocks (x + 2 ^ (l - 1).toNat) (y + 2 ^ (l - 1).toNat) (l - 1))) := by
    simp only [enc_cb.leafBlocks, x0', x1', x2', x3', y0', y1', y2', y3']
  unfold Tiling
  rw [hlb]
  refine ⟨?_, ?_, ?_⟩
  · intro b hb
    simp only [List.mem_append] at hb
    rcases hb with hb | hb | hb | hb
    · have := a0 b hb
      omega
    · have := a1 b hb
      omega
    · have := a2 b hb
      omega
    · have := a3 b hb
      omega
  · simp only [List.pairwise_append, List.mem_append]
    refine ⟨p0, ⟨p1, ⟨p2, p3, ?_⟩, ?_⟩, ?_⟩
    · intro a ha b hb
      have h1 := a2 a ha
      have h2' := a3 b hb
      exact squaresDisjoint_of_boxes a b x (y + 2 ^ (l - 1).toNat)
        (x + 2 ^ (l - 1).toNat) (y + 2 ^ (l - 1).toNat) (2 ^ (l - 1).toNat)
        ⟨h1.1, h1.2.1, h1.2.2.1, h1.2.2.2.1⟩ ⟨h2'.1, h2'.2.1, h2'.2.2.1, h2'.2.2.2.1⟩
        (Or.inl (le_refl _))
    · intro a ha b hb
      have h1 := a1 a ha
      rcases hb with hb | hb
      · have h2' := a2 b hb
        exact squaresDisjoint_of_boxes a b (x + 2 ^ (l - 1).toNat) y
          x (y + 2 ^ (l - 1).toNat) (2 ^ (l - 1).toNat)
          ⟨h1.1, h1.2.1, h1.2.2.1, h1.2.2.2.1⟩ ⟨h2'.1, h2'.2.1, h2'.2.2.1, h2'.2.2.2.1⟩
          (Or.inr (Or.inl (le_refl _)))
      · have h2' := a3 b hb
        exact squaresDisjoint_of_boxes a b (x + 2 ^ (l - 1).toNat) y
          (x + 2 ^ (l - 1).toNat) (y + 2 ^ (l - 1).toNat) (2 ^ (l - 1).toNat)
          ⟨h1.1, h1.2.1, h1.2.2.1, h1.2.2.2.1⟩ ⟨h2'.1, h2'.2.1, h2'.2.2.1, h2'.2.2.2.1⟩
          (Or.inr (Or.inr (Or.inl (le_refl _))))
    · intro a ha b hb
      have h1 := a0 a ha
      rcases hb with hb | hb | hb
      · have h2' := a1 b hb
        exact squaresDisjoint_of_boxes a b x y
          (x + 2 ^ (l - 1).toNat) y (2 ^ (l - 1).toNat)
          ⟨h1.1, h1.2.1, h1.2.2.1, h1.2.2.2.1⟩ ⟨h2'.1, h2'.2.1, h2'.2.2.1, h2'.2.2.2.1⟩
          (Or.inl (le_refl _))
      · have h2' := a2 b hb
        exact squaresDisjoint_of_boxes a b x y
          x (y + 2 ^ (l - 1).toNat) (2 ^ (l - 1).toNat)
          ⟨h1.1, h1.2.1, h1.2.2.1, h1.2.2.2.1⟩ ⟨h2'.1, h2'.2.1, h2'.2.2.1, h2'.2.2.2.1⟩
          (Or.inr (Or.inr (Or.inl (le_refl _))))
      · have h2' := a3 b hb
        exact squaresDisjoint_of_boxes a b x y
          (x + 2 ^ (l - 1).toNat) (y + 2 ^ (l - 1).toNat) (2 ^ (l - 1).toNat)
          ⟨h1.1, h1.2.1, h1.2.2.1, h1.2.2.2.1⟩ ⟨h2'.1, h2'.2.1, h2'.2.2.1, h2'.2.2.2.1⟩
          (Or.inl (le_refl _))
  · intro px py hp hpx hpw hpy hph
    unfold inSquare at hp
    dsimp only at hp
    simp only [List.mem_append]
    by_cases hxs : px < x + 2 ^ (l - 1).toNat <;> by_cases hys : py < y + 2 ^ (l - 1).toNat
    · obtain ⟨b, hb, hin⟩ := c0 px py (by unfold inSquare; dsimp only; omega) hpx hpw hpy hph
      exact ⟨b, Or.inl hb, hin⟩
    · obtain ⟨b, hb, hin⟩ := c2 px py (by unfold inSquare; dsimp only; omega) hpx hpw hpy hph
      exact ⟨b, Or.inr (Or.inr (Or.inl hb)), hin⟩
    · obtain ⟨b, hb, hin⟩ := c1 px py (by unfold inSquare; dsimp only; omega) hpx hpw hpy hph
      exact ⟨b, Or.inr (Or.inl hb), hin⟩
    · obtain ⟨b, hb, hin⟩ := c3 px py (by unfold inSquare; dsimp only; omega) hpx hpw hpy hph
      exact ⟨b, Or.inr (Or.inr (Or.inr hb)), hin⟩

/-- On a safe block `analyze` returns a tree whose leaf CBs tile the part of the block
inside the image. -/
theorem analyze_tiling [Zero F] [Add F] [Mul F] [LT F]
    [DecidableRel (LT.lt : F → F → Prop)]
    (E : Env F L Ctx W) (hmin : 0 ≤ E.Log2MinCbSizeY) (hpm : ReturnsLeaf E)
    (ctx : Ctx) (w : W) (x0 y0 l d : Int)
    (hx0 : 0 ≤ x0) (hy0 : 0 ≤ y0) (hxw : x0 < E.width) (hyh : y0 < E.height)
    (hex : EdgeOk E.Log2MinCbSizeY x0 l E.width)
    (hey : EdgeOk E.Log2MinCbSizeY y0 l E.height) :
    ∃ n c2 w2, analyze E ctx w x0 y0 l d = .ok (n, c2, w2) ∧ n ≠ .null ∧
      Tiling E n x0 y0 l := by
  refine analyzeFuel_geom E hmin hpm (Tiling E)
    (fun l2 d2 x2 ds r x y l hx hy hxw hyh => tiling_leaf E l2 d2 x2 ds r x y l hx hy hxw hyh)
    ?_ _ ctx w x0 y0 l d (Nat.lt_succ_self _) hx0 hy0 hxw hyh hex hey
  intro l2 d2 k0 k1 k2 k3 ds r x y l hl _ _ _ _ hk
  have ht : ∀ i, i < 4 →
      Tiling E ([k0, k1, k2, k3].getD i .null) (childX x i l) (childY y i l) (l - 1) := by
    intro i hi
    rcases hk i hi with ⟨ho, hn⟩ | ⟨_, hq⟩
    · rw [hn]
      exact tiling_null_outside E _ _ _ ho
    · exact hq
  exact tiling_split E l2 d2 k0 k1 k2 k3 ds r x y l (by omega) (ht 0 (by decide))
    (ht 1 (by decide)) (ht 2 (by decide)) (ht 3 (by decide))

theorem enc_cb.allSplit_mono (P Q : enc_cb F L → Prop) (hPQ : ∀ s, P s → Q s)
    (n : enc_cb F L) (h : n.AllSplit P) : n.AllSplit Q := by
  induction n with
  | null => trivial
  | leaf _ _ _ _ _ => trivial
  | split l d c0 c1 c2 c3 ds r ih0 ih1 ih2 ih3 =>
    obtain ⟨hp, h0, h1, h2, h3⟩ := h
    exact ⟨hPQ _ hp, ih0 h0, ih1 h1, ih2 h2, ih3 h3⟩

/-- Every split node of a tree returned by `analyze` is the node returned by a call of
`encode_cb_split`, above the minimum CB size, whose callee is `analyze` (the
prediction-mode search returning non-split nodes). -/
theorem analyze_allSplit_calls [Zero F] [Add F] [Mul F] [LT F]
    [DecidableRel (LT.lt : F → F → Prop)]
    (E : Env F L Ctx W)
    (hleaf : ∀ c w x y l d, (E.intraPartMode c w x y l d).1.split_cu_flag = false) :
    ∀ (k : Nat) ctx w x0 y0 l d n c2 w2, (l - E.Log2MinCbSizeY).toNat ≤ k →
      analyze E ctx w x0 y0 l d = .ok (n, c2, w2) →
      n.AllSplit (fun s => ∃ c wl x y l2 d2 c3 w3, l2 > E.Log2MinCbSizeY ∧
        encode_cb_split E (analyze E) c wl x y l2 d2 = .ok (s, c3, w3)) := by
  intro k
  induction k with
  | zero =>
    intro ctx w x0 y0 l d n c2 w2 hk h
    rw [analyze_eq] at h
    rcases analyzeBody_result E _ ctx w x0 y0 l d n c2 w2 h with
      hn | ⟨_, hn⟩ | ⟨hcan, _⟩
    · rw [hn]
      trivial
    · rw [hn]
      exact enc_cb.allSplit_of_not_split _ _ (hleaf _ _ _ _ _ _)
    · omega
  | succ k ih =>
    intro ctx w x0 y0 l d n c2 w2 hk h
    rw [analyze_eq] at h
    rcases analyzeBody_result E _ ctx w x0 y0 l d n c2 w2 h with
      hn | ⟨_, hn⟩ | ⟨hcan, cS, wS, c3, w3, hsp⟩
    · rw [hn]
      trivial
    · rw [hn]
      exact enc_cb.allSplit_of_not_split _ _ (hleaf _ _ _ _ _ _)
    · obtain ⟨k0, k1, k2, k3, hs, s0, s1, s2, s3⟩ :=
        encode_cb_split_ok E _ _ _ _ _ _ _ _ _ _ hsp
      have hk2 : ∀ i kk, SlotOk E (analyze E) x0 y0 l d i kk →
          kk.AllSplit (fun s => ∃ c wl x y l2 d2 c3 w3, l2 > E.Log2MinCbSizeY ∧
            encode_cb_split E (analyze E) c wl x y l2 d2 = .ok (s, c3, w3)) := by
        intro i kk hkk
        rcases hkk with ⟨_, hkk⟩ | ⟨_, _, ci, wi, ci2, wi2, hc⟩
        · rw [hkk]
          trivial
        · exact ih _ _ _ _ _ _ _ _ _ (by omega) hc
      have hroot : ∃ c wl x y l2 d2 c3 w3, l2 > E.Log2MinCbSizeY ∧
          encode_cb_split E (analyze E) c wl x y l2 d2 = .ok (n, c3, w3) :=
        ⟨_, _, _, _, _, _, _, _, hcan, hsp⟩
      rw [hs] at hroot ⊢
      exact ⟨hroot, hk2 0 k0 s0, hk2 1 k1 s1, hk2 2 k2 s2, hk2 3 k3 s3⟩

/-- Accumulating onto a larger start gives a larger sum, when `+` is monotone in its
left argument (as rounded addition is). -/
theorem childSum_mono [Preorder F] [Add F] (hmono : ∀ a b c : F, a ≤ b → a + c ≤ b + c)
    (f : enc_cb F L → F) (a b : F) (hab : a ≤ b) (cs : List (enc_cb F L)) :
    childSum f a cs ≤ childSum f b cs := by
  unfold childSum
  generalize cs.filter (fun c => !c.isNull) = l
  induction l generalizing a b with
  | nil => exact hab
  | cons x l ih => exact ih _ _ (hmono _ _ _ hab)

/-- Where addition is exact (associative, commutative, `0 + a = a`), accumulating onto
`b` is the sum from 0 plus `b`. -/
theorem childSum_init_exact [Zero F] [Add F]
    (hassoc : ∀ a b c : F, a + b + c = a + (b + c)) (hcomm : ∀ a b : F, a + b = b + a)
    (hzero : ∀ a : F, 0 + a = a)
    (f : enc_cb F L → F) (b : F) (cs : List (enc_cb F L)) :
    childSum f b cs = childSum f 0 cs + b := by
  unfold childSum
  generalize cs.filter (fun c => !c.isNull) = l
  induction l using List.reverseRecOn with
  | nil =>
    simp only [List.foldl_nil]
    exact (hzero b).symm
  | append_singleton l a ih =>
    simp only [List.foldl_append, List.foldl_cons, List.foldl_nil]
    rw [ih, hassoc, hcomm b, ← hassoc]

/-- What `encode_cb_split` returns carries as `rate` the children's rates accumulated in
slot order onto the bits estimated in that call. -/
theorem encode_cb_split_rate [Zero F] [Add F] (E : Env F L Ctx W)
    (an : Search F L Ctx W) (ctx : Ctx) (w : W) (x0 y0 Log2CbSize ctDepth : Int)
    (s : enc_cb F L) (c2 : Ctx) (w2 : W)
    (h : encode_cb_split E an ctx w x0 y0 Log2CbSize ctDepth = .ok (s, c2, w2)) :
    s.rate = childSum enc_cb.rate (E.splitFlagRate ctx w x0 y0 Log2CbSize ctDepth).1
      s.children := by
  obtain ⟨k0, k1, k2, k3, hs, _⟩ := encode_cb_split_ok E _ _ _ _ _ _ _ _ _ _ h
  rw [hs]
  rfl

/-- On a safe block `analyze` returns a tree through which forced splitting is carried:
NULL slots only for quadrants outside the image, leaves only for blocks inside it. -/
theorem analyze_splitWhereForced [Zero F] [Add F] [Mul F] [LT F]
    [DecidableRel (LT.lt : F → F → Prop)]
    (E : Env F L Ctx W) (hmin : 0 ≤ E.Log2MinCbSizeY) (hpm : ReturnsLeaf E)
    (ctx : Ctx) (w : W) (x0 y0 l d : Int)
    (hx0 : 0 ≤ x0) (hy0 : 0 ≤ y0) (hxw : x0 < E.width) (hyh : y0 < E.height)
    (hex : EdgeOk E.Log2MinCbSizeY x0 l E.width)
    (hey : EdgeOk E.Log2MinCbSizeY y0 l E.height) :
    ∃ n c2 w2, analyze E ctx w x0 y0 l d = .ok (n, c2, w2) ∧ n ≠ .null ∧
      n.SplitWhereForced E x0 y0 l := by
  refine analyzeFuel_geom E hmin hpm (fun n x y l => n.SplitWhereForced E x y l)
    (fun l2 d2 x2 ds r x y l _ _ hxw hyh =>
      (forcedSplit_eq_false_iff E x y l).mpr ⟨hxw, hyh⟩)
    ?_ _ ctx w x0 y0 l d (Nat.lt_succ_self _) hx0 hy0 hxw hyh hex hey
  intro l2 d2 k0 k1 k2 k3 ds r x y l _ _ _ _ _ hk
  have ht : ∀ i, i < 4 →
      ([k0, k1, k2, k3].getD i .null).SplitWhereForced E (childX x i l) (childY y i l)
        (l - 1) := by
    intro i hi
    rcases hk i hi with ⟨ho, hn⟩ | ⟨_, hq⟩
    · rw [hn]
      exact ho
    · exact hq
  exact ⟨ht 0 (by decide), ht 1 (by decide), ht 2 (by decide), ht 3 (by decide)⟩

end Lemmas

section Claims

variable {F L Ctx W : Type}

/-- C9: `forcedSplit(input, x0, y0, Log2CbSize)` returns false if and only if the square
`[x0, x0+2^Log2CbSize) x [y0, y0+2^Log2CbSize)` lies entirely inside the image, that is
`x0 + 2^Log2CbSize <= width` and `y0 + 2^Log2CbSize <= height`; in particular a block
whose right or bottom edge exactly touches the image edge is not forced to split. -/
theorem forcedSplit_false_iff_inside (E : Env F L Ctx W) (x0 y0 Log2CbSize : Int) :
    (forcedSplit E x0 y0 Log2CbSize = false ↔
      x0 + 2 ^ Log2CbSize.toNat ≤ E.width ∧ y0 + 2 ^ Log2CbSize.toNat ≤ E.height) ∧
    (x0 + 2 ^ Log2CbSize.toNat = E.width → y0 + 2 ^ Log2CbSize.toNat ≤ E.height →
      forcedSplit E x0 y0 Log2CbSize = false) ∧
    (x0 + 2 ^ Log2CbSize.toNat ≤ E.width → y0 + 2 ^ Log2CbSize.toNat = E.height →
      forcedSplit E x0 y0 Log2CbSize = false) := by
  have key := forcedSplit_eq_false_iff E x0 y0 Log2CbSize
  exact ⟨key, fun h1 h2 => key.mpr ⟨le_of_eq h1, h2⟩, fun h1 h2 => key.mpr ⟨h1, le_of_eq h2⟩⟩

theorem forcedSplit_false_iff_inside_witness :
    forcedSplit (demoEnv 16 16 3 tieDist) 8 8 3 = false :=
  (forcedSplit_false_iff_inside (demoEnv 16 16 3 tieDist) 8 8 3).2.1 (by decide) (by decide)

/-- C1: when both variants are possible for a block (`Log2CbSize > Log2MinCbSizeY` and
`forcedSplit` is false), `analyze` returns the split candidate if the split cost
`distortion + lambda*rate` is strictly below the no-split cost and the no-split leaf
otherwise, so the returned node is the split candidate exactly when
`cost_split < cost_nosplit` (the two candidates being distinct objects), and at exactly
equal costs the no-split leaf is returned. -/
theorem analyze_returns_split_iff_strictly_cheaper
    [Zero F] [Add F] [Mul F] [LT F] [DecidableRel (LT.lt : F → F → Prop)]
    (E : Env F L Ctx W) (ctx : Ctx) (w : W) (x0 y0 Log2CbSize ctDepth : Int)
    (hirr : ∀ a : F, ¬ a < a)
    (hcan : Log2CbSize > E.Log2MinCbSizeY) (hin : forcedSplit E x0 y0 Log2CbSize = false)
    (cb_no_split cb_split : enc_cb F L) (c1 cS : Ctx) (w1 wS : W)
    (hno : E.intraPartMode ctx w x0 y0 Log2CbSize ctDepth = (cb_no_split, c1, w1))
    (hnn : cb_no_split ≠ .null)
    (hsp : encode_cb_split E (analyze E) ctx w1 x0 y0 Log2CbSize ctDepth
      = .ok (cb_split, cS, wS)) :
    ∃ cb c2 w2, analyze E ctx w x0 y0 Log2CbSize ctDepth = .ok (cb, c2, w2) ∧
      (rd_cost E cb_split < rd_cost E cb_no_split → cb = cb_split) ∧
      (¬ rd_cost E cb_split < rd_cost E cb_no_split → cb = cb_no_split) ∧
      (cb_split ≠ cb_no_split →
        (cb = cb_split ↔ rd_cost E cb_split < rd_cost E cb_no_split)) ∧
      (rd_cost E cb_split = rd_cost E cb_no_split → cb = cb_no_split) := by
  have hsn : cb_split ≠ .null := encode_cb_split_ne_null E _ _ _ _ _ _ _ _ _ _ hsp
  have hb := analyze_both E ctx w x0 y0 Log2CbSize ctDepth hcan hin cb_no_split cb_split
    c1 cS w1 wS hno hnn hsp hsn
  by_cases hlt : rd_cost E cb_split < rd_cost E cb_no_split
  · rw [if_pos hlt] at hb
    refine ⟨cb_split, cS, wS, hb, fun _ => rfl, fun h => absurd hlt h,
      fun _ => ⟨fun _ => hlt, fun _ => rfl⟩, fun he => ?_⟩
    rw [he] at hlt
    exact absurd hlt (hirr _)
  · rw [if_neg hlt] at hb
    exact ⟨cb_no_split, c1, _, hb, fun h => absurd h hlt, fun _ => rfl,
      fun hne => ⟨fun h => absurd h.symm hne, fun h => absurd h hlt⟩, fun _ => rfl⟩

theorem analyze_returns_split_iff_strictly_cheaper_witness :
    ∃ cb c2 w2, analyze (demoEnv 16 16 3 tieDist) 0 0 0 0 4 0 = .ok (cb, c2, w2) ∧
      (rd_cost (demoEnv 16 16 3 tieDist) (demoQuad16 0)
          < rd_cost (demoEnv 16 16 3 tieDist) (.leaf 4 0 () 44 1) →
        cb = demoQuad16 0) ∧
      (¬ rd_cost (demoEnv 16 16 3 tieDist) (demoQuad16 0)
          < rd_cost (demoEnv 16 16 3 tieDist) (.leaf 4 0 () 44 1) →
        cb = .leaf 4 0 () 44 1) ∧
      (demoQuad16 0 ≠ .leaf 4 0 () 44 1 →
        (cb = demoQuad16 0 ↔
          rd_cost (demoEnv 16 16 3 tieDist) (demoQuad16 0)
            < rd_cost (demoEnv 16 16 3 tieDist) (.leaf 4 0 () 44 1))) ∧
      (rd_cost (demoEnv 16 16 3 tieDist) (demoQuad16 0)
          = rd_cost (demoEnv 16 16 3 tieDist) (.leaf 4 0 () 44 1) →
        cb = .leaf 4 0 () 44 1) :=
  analyze_returns_split_iff_strictly_cheaper (demoEnv 16 16 3 tieDist) 0 0 0 0 4 0
    (fun a => lt_irrefl a) (by decide) (by decide)
    (.leaf 4 0 () 44 1) (demoQuad16 0) 1 104 1 5 rfl (by decide) (by decide!)

/-- C2: when both candidates are computed for a block, the node `analyze` returns is one
of the two and its Lagrangian cost `distortion + lambda*rate` is the minimum of the two
candidates' costs; it is never more expensive than the candidate that was discarded.
(Costs in any linear order.) -/
theorem analyze_returns_cheaper_candidate
    [LinearOrder F] [Zero F] [Add F] [Mul F]
    (E : Env F L Ctx W) (ctx : Ctx) (w : W) (x0 y0 Log2CbSize ctDepth : Int)
    (hcan : Log2CbSize > E.Log2MinCbSizeY) (hin : forcedSplit E x0 y0 Log2CbSize = false)
    (cb_no_split cb_split : enc_cb F L) (c1 cS : Ctx) (w1 wS : W)
    (hno : E.intraPartMode ctx w x0 y0 Log2CbSize ctDepth = (cb_no_split, c1, w1))
    (hnn : cb_no_split ≠ .null)
    (hsp : encode_cb_split E (analyze E) ctx w1 x0 y0 Log2CbSize ctDepth
      = .ok (cb_split, cS, wS)) :
    ∃ cb c2 w2, analyze E ctx w x0 y0 Log2CbSize ctDepth = .ok (cb, c2, w2) ∧
      (cb = cb_split ∨ cb = cb_no_split) ∧
      rd_cost E cb = min (rd_cost E cb_split) (rd_cost E cb_no_split) ∧
      rd_cost E cb ≤ rd_cost E cb_split ∧ rd_cost E cb ≤ rd_cost E cb_no_split := by
  have hsn : cb_split ≠ .null := encode_cb_split_ne_null E _ _ _ _ _ _ _ _ _ _ hsp
  have hb := analyze_both E ctx w x0 y0 Log2CbSize ctDepth hcan hin cb_no_split cb_split
    c1 cS w1 wS hno hnn hsp hsn
  by_cases hlt : rd_cost E cb_split < rd_cost E cb_no_split
  · rw [if_pos hlt] at hb
    exact ⟨cb_split, cS, wS, hb, Or.inl rfl, (min_eq_left (le_of_lt hlt)).symm, le_refl _,
      le_of_lt hlt⟩
  · rw [if_neg hlt] at hb
    exact ⟨cb_no_split, c1, _, hb, Or.inr rfl, (min_eq_right (not_lt.mp hlt)).symm,
      not_lt.mp hlt, le_refl _⟩

theorem analyze_returns_cheaper_candidate_witness :
    ∃ cb c2 w2, analyze (demoEnv 16 16 3 steepDist) 0 0 0 0 4 0 = .ok (cb, c2, w2) ∧
      (cb = demoQuad16 0 ∨ cb = .leaf 4 0 () 100 1) ∧
      rd_cost (demoEnv 16 16 3 steepDist) cb
        = min (rd_cost (demoEnv 16 16 3 steepDist) (demoQuad16 0))
            (rd_cost (demoEnv 16 16 3 steepDist) (.leaf 4 0 () 100 1)) ∧
      rd_cost (demoEnv 16 16 3 steepDist) cb
        ≤ rd_cost (demoEnv 16 16 3 steepDist) (demoQuad16 0) ∧
      rd_cost (demoEnv 16 16 3 steepDist) cb
        ≤ rd_cost (demoEnv 16 16 3 steepDist) (.leaf 4 0 () 100 1) :=
  analyze_returns_cheaper_candidate (demoEnv 16 16 3 steepDist) 0 0 0 0 4 0
    (by decide) (by decide)
    (.leaf 4 0 () 100 1) (demoQuad16 0) 1 104 1 5 rfl (by decide) (by decide!)

/-- C3: in a tree returned by `analyze` (the prediction-mode search returning non-split
nodes), and in a node returned by `encode_cb_split` calling `analyze`, every node with
`split_cu_flag` set has as `distortion` exactly the sum, accumulated from 0 in slot order,
of the `distortion` of its non-NULL children: NULL slots contribute nothing and neither
does the signalling of the split flag. -/
theorem split_distortion_is_sum_of_children
    [Zero F] [Add F] [Mul F] [LT F] [DecidableRel (LT.lt : F → F → Prop)]
    (E : Env F L Ctx W)
    (hleaf : ∀ c w x y l d, (E.intraPartMode c w x y l d).1.split_cu_flag = false)
    (ctx : Ctx) (w : W) (x0 y0 Log2CbSize ctDepth : Int) :
    (∀ n c2 w2, analyze E ctx w x0 y0 Log2CbSize ctDepth = .ok (n, c2, w2) →
      n.AllSplit (fun s => s.distortion = childSum enc_cb.distortion 0 s.children)) ∧
    (∀ s c2 w2, encode_cb_split E (analyze E) ctx w x0 y0 Log2CbSize ctDepth
        = .ok (s, c2, w2) →
      s.split_cu_flag = true ∧
      s.AllSplit (fun s => s.distortion = childSum enc_cb.distortion 0 s.children)) := by
  have hP : ∀ (an : Search F L Ctx W) ctx w x0 y0 Log2CbSize ctDepth s c2 w2,
      encode_cb_split E an ctx w x0 y0 Log2CbSize ctDepth = .ok (s, c2, w2) →
      s.distortion = childSum enc_cb.distortion 0 s.children := by
    intro an ctx w x0 y0 Log2CbSize ctDepth s c2 w2 hsp
    obtain ⟨k0, k1, k2, k3, hs, _⟩ := encode_cb_split_ok E _ _ _ _ _ _ _ _ _ _ hsp
    rw [hs]
    rfl
  refine ⟨fun n c2 w2 h => analyze_allSplit E _ (fun an ctx w x0 y0 l d s c2 w2 _ hsp =>
    hP an ctx w x0 y0 l d s c2 w2 hsp) hleaf ctx w x0 y0 Log2CbSize ctDepth n c2 w2 h, ?_⟩
  intro s c2 w2 hsp
  have hPs := hP _ _ _ _ _ _ _ _ _ _ hsp
  obtain ⟨k0, k1, k2, k3, hs, s0, s1, s2, s3⟩ := encode_cb_split_ok E _ _ _ _ _ _ _ _ _ _ hsp
  have hk : ∀ i k, SlotOk E (analyze E) x0 y0 Log2CbSize ctDepth i k →
      k.AllSplit (fun s => s.distortion = childSum enc_cb.distortion 0 s.children) := by
    intro i k hk
    rcases hk with ⟨_, hk⟩ | ⟨_, _, ci, wi, ci2, wi2, hc⟩
    · rw [hk]
      trivial
    · exact analyze_allSplit E _ (fun an ctx w x0 y0 l d s c2 w2 _ hsp =>
        hP an ctx w x0 y0 l d s c2 w2 hsp) hleaf _ _ _ _ _ _ _ _ _ hc
  rw [hs] at hPs ⊢
  exact ⟨rfl, hPs, hk 0 k0 s0, hk 1 k1 s1, hk 2 k2 s2, hk 3 k3 s3⟩

theorem split_distortion_is_sum_of_children_witness :
    demoTree32.AllSplit (fun s => s.distortion = childSum enc_cb.distortion 0 s.children) :=
  (split_distortion_is_sum_of_children (demoEnv 24 32 3 steepDist)
    (fun _ _ _ _ _ _ => rfl) 0 0 0 0 5 0).1 demoTree32 512 14 (by decide!)

/-- C4: every node with `split_cu_flag` set in a tree returned by `analyze` (the
prediction-mode search returning non-split nodes, the estimated bits for the split flag
being positive as the spec says) is the node returned by a call of `encode_cb_split`, and
its `rate` is the rates of its non-NULL children accumulated in slot order onto the bits
estimated in that very call for signalling its split flag.  Those bits are positive, so,
`+` being monotone in its left argument (as rounded addition is), the `rate` is greater
than or equal to the sum of the children's rates accumulated from 0; and where addition is
exact the `rate` is that sum plus the bits.  The same holds of the node any call of
`encode_cb_split` returns, whatever search it recurses into, with the bits of that call. -/
theorem split_rate_is_children_sum_plus_flag_bits
    [LinearOrder F] [Zero F] [Add F] [Mul F]
    (E : Env F L Ctx W) (hbits : SplitFlagCostPositive E)
    (hmono : ∀ a b c : F, a ≤ b → a + c ≤ b + c)
    (hleaf : ∀ c w x y l d, (E.intraPartMode c w x y l d).1.split_cu_flag = false)
    (ctx : Ctx) (w : W) (x0 y0 Log2CbSize ctDepth : Int) :
    (∀ n c2 w2, analyze E ctx w x0 y0 Log2CbSize ctDepth = .ok (n, c2, w2) →
      n.AllSplit (fun s => ∃ c wl x y l d c3 w3,
        encode_cb_split E (analyze E) c wl x y l d = .ok (s, c3, w3) ∧
        s.rate = childSum enc_cb.rate (E.splitFlagRate c wl x y l d).1 s.children ∧
        0 < (E.splitFlagRate c wl x y l d).1 ∧
        s.rate ≥ childSum enc_cb.rate 0 s.children ∧
        ((∀ a b c : F, a + b + c = a + (b + c)) → (∀ a b : F, a + b = b + a) →
          (∀ a : F, 0 + a = a) →
          s.rate = childSum enc_cb.rate 0 s.children + (E.splitFlagRate c wl x y l d).1))) ∧
    (∀ (an : Search F L Ctx W) s c2 w2,
      encode_cb_split E an ctx w x0 y0 Log2CbSize ctDepth = .ok (s, c2, w2) →
      s.split_cu_flag = true ∧
      s.rate = childSum enc_cb.rate (E.splitFlagRate ctx w x0 y0 Log2CbSize ctDepth).1
        s.children ∧
      0 < (E.splitFlagRate ctx w x0 y0 Log2CbSize ctDepth).1 ∧
      s.rate ≥ childSum enc_cb.rate 0 s.children) := by
  have hcall : ∀ (an : Search F L Ctx W) (c : Ctx) (wl : W) (x y l d : Int) (s : enc_cb F L)
      (c3 : Ctx) (w3 : W), encode_cb_split E an c wl x y l d = .ok (s, c3, w3) →
      s.rate = childSum enc_cb.rate (E.splitFlagRate c wl x y l d).1 s.children ∧
      0 < (E.splitFlagRate c wl x y l d).1 ∧
      s.rate ≥ childSum enc_cb.rate 0 s.children := by
    intro an c wl x y l d s c3 w3 hsp
    have hr := encode_cb_split_rate E an c wl x y l d s c3 w3 hsp
    have hpos := hbits c wl x y l d
    refine ⟨hr, hpos, ?_⟩
    rw [hr]
    exact childSum_mono hmono enc_cb.rate 0 _ (le_of_lt hpos) s.children
  constructor
  · intro n c2 w2 h
    refine enc_cb.allSplit_mono _ _ ?_ n
      (analyze_allSplit_calls E hleaf _ ctx w x0 y0 Log2CbSize ctDepth n c2 w2 (le_refl _) h)
    rintro s ⟨c, wl, x, y, l, d, c3, w3, _, hsp⟩
    obtain ⟨hr, hpos, hge⟩ := hcall _ c wl x y l d s c3 w3 hsp
    refine ⟨c, wl, x, y, l, d, c3, w3, hsp, hr, hpos, hge, fun hassoc hcomm hzero => ?_⟩
    rw [hr]
    exact childSum_init_exact hassoc hcomm hzero enc_cb.rate _ s.children
  · intro an s c2 w2 hsp
    obtain ⟨hr, hpos, hge⟩ := hcall an ctx w x0 y0 Log2CbSize ctDepth s c2 w2 hsp
    obtain ⟨k0, k1, k2, k3, hs, _⟩ := encode_cb_split_ok E _ _ _ _ _ _ _ _ _ _ hsp
    exact ⟨by rw [hs]; rfl, hr, hpos, hge⟩

theorem split_rate_is_children_sum_plus_flag_bits_witness :
    ∃ n c2 w2, analyze (demoEnv 24 32 3 steepDist) 0 0 0 0 5 0 = .ok (n, c2, w2) ∧
      n.AllSplit (fun s => ∃ (c : Nat) (wl : Nat) (x y l d : Int) (c3 : Nat) (w3 : Nat),
        encode_cb_split (demoEnv 24 32 3 steepDist) (analyze (demoEnv 24 32 3 steepDist))
          c wl x y l d = .ok (s, c3, w3) ∧
        s.rate = childSum enc_cb.rate
          ((demoEnv 24 32 3 steepDist).splitFlagRate c wl x y l d).1 s.children ∧
        s.rate ≥ childSum enc_cb.rate 0 s.children) :=
  ⟨demoTree32, 512, 14, by decide!,
    enc_cb.allSplit_mono _ _
      (fun _ ⟨c, wl, x, y, l, d, c3, w3, h1, h2, _, h4, _⟩ =>
        ⟨c, wl, x, y, l, d, c3, w3, h1, h2, h4⟩)
      demoTree32
      ((split_rate_is_children_sum_plus_flag_bits (demoEnv 24 32 3 steepDist)
        (fun _ _ _ _ _ _ => Int.one_pos) (fun _ _ c h => add_le_add_right h c)
        (fun _ _ _ _ _ _ => rfl) 0 0 0 0 5 0).1 demoTree32 512 14 (by decide!))⟩

/-- C5 as stated fails: the 8x8 block at (8,0) of a 12x8 image, at the minimum CB size
8, lies partially outside the frame with its origin inside, and `analyze` returns NULL for
it, not a node with `split_cu_flag` set.  Above the minimum size the search can end in a
read through NULL instead of a node: for the 16x16 block at the origin of a 12x16 image
(an 8x8 descendant crosses the frame edge), and for the 16x16 block at (16,0) of a 24x16
image when the prediction-mode search returns NULL. -/
theorem forced_split_counterexample :
    ((8 : Int) + 2 ^ (3 : Int).toNat > (demoEnv 12 8 3 tieDist).width ∧
      (0 : Int) ≤ 8 ∧ (8 : Int) < (demoEnv 12 8 3 tieDist).width ∧
      (0 : Int) < (demoEnv 12 8 3 tieDist).height ∧
      analyze (demoEnv 12 8 3 tieDist) 0 0 8 0 3 0 = .ok (.null, 0, 0) ∧
      ¬ ∃ n c w, analyze (demoEnv 12 8 3 tieDist) 0 0 8 0 3 0 = .ok (n, c, w) ∧
        n.split_cu_flag = true) ∧
    ((0 : Int) + 2 ^ (4 : Int).toNat > (demoEnv 12 16 3 tieDist).width ∧
      analyze (demoEnv 12 16 3 tieDist) 0 0 0 0 4 0 = .error .nullDeref) ∧
    ((16 : Int) + 2 ^ (4 : Int).toNat > (demoEnvNull 24 16 3).width ∧
      analyze (demoEnvNull 24 16 3) 0 0 16 0 4 0 = .error .nullDeref) := by
  have h : analyze (demoEnv 12 8 3 tieDist) 0 0 8 0 3 0 = .ok (.null, 0, 0) := by decide!
  refine ⟨⟨by decide, by decide, by decide, by decide, h, ?_⟩, ⟨by decide, by decide!⟩,
    by decide, by decide!⟩
  rintro ⟨n, c, w, hn, hf⟩
  rw [h] at hn
  cases hn
  cases hf

/-- C5, amended: for a block whose origin is inside the frame and which along each
axis ends inside the frame or starts a multiple of the minimum CB size before the frame edge
(`Log2MinCbSizeY >= 0`; so it is when frame size and block origin are multiples of the
minimum CB size), the prediction-mode search returning non-NULL leaves: if the block lies
partially outside the frame then it is larger than the minimum CB size and `analyze`
returns a node with `split_cu_flag = true`. -/
theorem analyze_forced_split_returns_split_node
    [Zero F] [Add F] [Mul F] [LT F] [DecidableRel (LT.lt : F → F → Prop)]
    (E : Env F L Ctx W) (hmin : 0 ≤ E.Log2MinCbSizeY) (hpm : ReturnsLeaf E)
    (ctx : Ctx) (w : W) (x0 y0 Log2CbSize ctDepth : Int)
    (hx0 : 0 ≤ x0) (hy0 : 0 ≤ y0) (hxw : x0 < E.width) (hyh : y0 < E.height)
    (hex : EdgeOk E.Log2MinCbSizeY x0 Log2CbSize E.width)
    (hey : EdgeOk E.Log2MinCbSizeY y0 Log2CbSize E.height)
    (hout : x0 + 2 ^ Log2CbSize.toNat > E.width ∨ y0 + 2 ^ Log2CbSize.toNat > E.height) :
    Log2CbSize > E.Log2MinCbSizeY ∧
    ∃ n c2 w2, analyze E ctx w x0 y0 Log2CbSize ctDepth = .ok (n, c2, w2) ∧
      n.split_cu_flag = true := by
  have hf : forcedSplit E x0 y0 Log2CbSize = true := by
    cases hc : forcedSplit E x0 y0 Log2CbSize with
    | true => rfl
    | false =>
      have := (forcedSplit_eq_false_iff E x0 y0 Log2CbSize).mp hc
      omega
  refine ⟨?_, ?_⟩
  · by_contra hcan
    have hix := edgeOk_min _ _ _ _ (not_lt.mp hcan) hex hxw
    have hiy := edgeOk_min _ _ _ _ (not_lt.mp hcan) hey hyh
    omega
  · obtain ⟨n, c2, w2, hn, _, _, hfl⟩ :=
      analyze_safe E hmin hpm ctx w x0 y0 Log2CbSize ctDepth hx0 hy0 hxw hyh hex hey
    exact ⟨n, c2, w2, hn, hfl hf⟩

theorem analyze_forced_split_returns_split_node_witness :
    (5 : Int) > (demoEnv 24 32 3 steepDist).Log2MinCbSizeY ∧
    ∃ n c2 w2, analyze (demoEnv 24 32 3 steepDist) 0 0 0 0 5 0 = .ok (n, c2, w2) ∧
      n.split_cu_flag = true :=
  analyze_forced_split_returns_split_node (demoEnv 24 32 3 steepDist) (by decide)
    (fun _ _ _ _ _ _ => ⟨_, _, _, _, _, rfl⟩) 0 0 0 0 5 0 (by decide) (by decide) (by decide)
    (by decide) (Or.inr (by decide)) (Or.inl (by decide)) (Or.inl (by decide))

/-- C6 as stated fails: the 8x8 block at (16,16) of a 20x20 image, at the minimum CB size
8, can neither be split nor be left unsplit, and `analyze` does not fail there: it returns
normally, with the NULL pointer. -/
theorem neither_variant_counterexample :
    ¬ ((3 : Int) > (demoEnv 20 20 3 tieDist).Log2MinCbSizeY) ∧
    forcedSplit (demoEnv 20 20 3 tieDist) 16 16 3 = true ∧
    analyze (demoEnv 20 20 3 tieDist) 7 9 16 16 3 2 = .ok (.null, 7, 9) ∧
    ¬ ∃ e, analyze (demoEnv 20 20 3 tieDist) 7 9 16 16 3 2 = .error e := by
  have h : analyze (demoEnv 20 20 3 tieDist) 7 9 16 16 3 2 = .ok (.null, 7, 9) := by decide!
  refine ⟨by decide, by decide, h, ?_⟩
  rintro ⟨e, he⟩
  rw [h] at he
  cases he

/-- C6, amended: when a block can neither be split (`Log2CbSize <= Log2MinCbSizeY`) nor
be left unsplit (`forcedSplit` holds), `analyze` makes no check and raises nothing: it
runs neither the prediction-mode search nor `encode_cb_split` (so it does not recurse),
whatever they are, leaves the context-model table and the encoder state as they were, and
returns the NULL pointer `cb_split` was initialised with. -/
theorem analyze_neither_variant_returns_null
    [Zero F] [Add F] [Mul F] [LT F] [DecidableRel (LT.lt : F → F → Prop)]
    (E : Env F L Ctx W) (ctx : Ctx) (w : W) (x0 y0 Log2CbSize ctDepth : Int)
    (hcan : Log2CbSize ≤ E.Log2MinCbSizeY) (hin : forcedSplit E x0 y0 Log2CbSize = true) :
    analyze E ctx w x0 y0 Log2CbSize ctDepth = .ok (.null, ctx, w) ∧
    ∀ an : Search F L Ctx W,
      analyzeBody E an ctx w x0 y0 Log2CbSize ctDepth = .ok (.null, ctx, w) := by
  refine ⟨?_, fun an => analyzeBody_neither E an ctx w x0 y0 Log2CbSize ctDepth
    (not_lt.mpr hcan) hin⟩
  rw [analyze_eq]
  exact analyzeBody_neither E _ ctx w x0 y0 Log2CbSize ctDepth (not_lt.mpr hcan) hin

theorem analyze_neither_variant_returns_null_witness :
    analyze (demoEnv 12 8 3 steepDist) 5 6 8 0 3 1 = .ok (.null, 5, 6) :=
  (analyze_neither_variant_returns_null (demoEnv 12 8 3 steepDist) 5 6 8 0 3 1
    (by decide) (by decide)).1

/-- C7 as stated fails: for the 64x64 block at the origin of a 63x64 image (right edge 1
pixel past the image width) with minimum CB size 8, `analyze` returns no tree: the 8x8
block at (56,0) crosses the image edge and cannot be split, `analyze` returns NULL for it
and `encode_cb_split` reads a member of that NULL child. -/
theorem one_pixel_overhang_counterexample :
    (0 : Int) + 2 ^ (6 : Int).toNat = (demoEnv 63 64 3 tieDist).width + 1 ∧
    (demoEnv 63 64 3 tieDist).Log2MinCbSizeY = 3 ∧
    analyze (demoEnv 63 64 3 tieDist) 0 0 0 0 6 0 = .error .nullDeref ∧
    analyze (demoEnv 63 64 3 tieDist) 0 0 56 0 3 3 = .ok (.null, 0, 0) ∧
    ¬ ∃ n c w, analyze (demoEnv 63 64 3 tieDist) 0 0 0 0 6 0 = .ok (n, c, w) := by
  have h : analyze (demoEnv 63 64 3 tieDist) 0 0 0 0 6 0 = .error .nullDeref := by decide!
  refine ⟨by decide, rfl, h, by decide!, ?_⟩
  rintro ⟨n, c, w, hn⟩
  rw [h] at hn
  cases hn

/-- C7, amended: for a 64x64 block (`Log2CbSize = 6`) with origin inside the image whose
right edge exceeds the image width by a positive multiple of the minimum CB size 8
(`Log2MinCbSizeY = 3`; 8, 16, ..., 56 pixels) and whose bottom edge is inside the image,
the prediction-mode search returning non-NULL leaves, `analyze` returns a tree whose root
has `split_cu_flag = true` and through which forced splitting is carried: a slot is NULL
only for a quadrant outside the image, every block crossing the image edge is split
again, every leaf CB lies fully inside the image, and the leaf CBs are disjoint and cover
every pixel of the block that is in the image. -/
theorem analyze_overhang_by_min_cb_splits_to_inside
    [Zero F] [Add F] [Mul F] [LT F] [DecidableRel (LT.lt : F → F → Prop)]
    (E : Env F L Ctx W) (hmin : E.Log2MinCbSizeY = 3) (hpm : ReturnsLeaf E)
    (ctx : Ctx) (w : W) (x0 y0 ctDepth : Int) (k : Int)
    (hx0 : 0 ≤ x0) (hy0 : 0 ≤ y0) (hk : 1 ≤ k) (hk7 : k ≤ 7)
    (hw : x0 + 64 = E.width + 8 * k) (hh : y0 + 64 ≤ E.height) :
    ∃ n c2 w2, analyze E ctx w x0 y0 6 ctDepth = .ok (n, c2, w2) ∧
      n.split_cu_flag = true ∧ n.LeavesInside E x0 y0 6 ∧
      n.SplitWhereForced E x0 y0 6 ∧ Tiling E n x0 y0 6 := by
  have h64 : (2 : Int) ^ (6 : Int).toNat = 64 := by decide
  have h8 : (2 : Int) ^ (3 : Int).toNat = 8 := by decide
  have hf : forcedSplit E x0 y0 6 = true := by
    cases hc : forcedSplit E x0 y0 6 with
    | true => rfl
    | false =>
      have := (forcedSplit_eq_false_iff E x0 y0 6).mp hc
      omega
  have hm0 : 0 ≤ E.Log2MinCbSizeY := by omega
  have hxw : x0 < E.width := by omega
  have hyh : y0 < E.height := by omega
  have hex : EdgeOk E.Log2MinCbSizeY x0 6 E.width :=
    Or.inr (by
      rw [hmin, h8]
      exact ⟨8 - k, by omega⟩)
  have hey : EdgeOk E.Log2MinCbSizeY y0 6 E.height := Or.inl (by omega)
  obtain ⟨n, c2, w2, hn, _, hli, hfl⟩ :=
    analyze_safe E hm0 hpm ctx w x0 y0 6 ctDepth hx0 hy0 hxw hyh hex hey
  obtain ⟨n2, c3, w3, hn2, _, hsw⟩ :=
    analyze_splitWhereForced E hm0 hpm ctx w x0 y0 6 ctDepth hx0 hy0 hxw hyh hex hey
  obtain ⟨n3, c4, w4, hn3, _, hti⟩ :=
    analyze_tiling E hm0 hpm ctx w x0 y0 6 ctDepth hx0 hy0 hxw hyh hex hey
  rw [hn] at hn2 hn3
  cases hn2
  cases hn3
  exact ⟨n, c2, w2, hn, hfl hf, hli, hsw, hti⟩

theorem analyze_overhang_by_min_cb_splits_to_inside_witness :
    ∃ n c2 w2, analyze (demoEnv 56 64 3 tieDist) 0 0 0 0 6 0 = .ok (n, c2, w2) ∧
      n.split_cu_flag = true ∧ n.LeavesInside (demoEnv 56 64 3 tieDist) 0 0 6 ∧
      n.SplitWhereForced (demoEnv 56 64 3 tieDist) 0 0 6 ∧
      Tiling (demoEnv 56 64 3 tieDist) n 0 0 6 :=
  analyze_overhang_by_min_cb_splits_to_inside (demoEnv 56 64 3 tieDist) rfl
    (fun _ _ _ _ _ _ => ⟨_, _, _, _, _, rfl⟩) 0 0 0 0 0 1 (by decide) (by decide) (by decide)
    (by decide) (by decide) (by decide)

/-- C8: in `encode_cb_split`, for every quadrant index `i` in 0..3, slot `children[i]` of
the returned node is NULL if and only if the top-left corner of quadrant `i` satisfies
`x >= width` or `y >= height` (for a block at non-negative coordinates: if and only if no
pixel of the quadrant is in the image); the search is not invoked on such a quadrant (the
outcome does not depend on what `analyze` would do there), and every other quadrant is
analysed at size `Log2CbSize-1` and depth `ctDepth+1`, its slot holding the node
`analyze` returned.  The function completes whenever `analyze` returns a non-NULL node on
the quadrants inside the image, and faults when `analyze` faults on one of them. -/
theorem encode_cb_split_null_child_iff_outside [Zero F] [Add F]
    (E : Env F L Ctx W) (an : Search F L Ctx W) (ctx : Ctx) (w : W)
    (x0 y0 Log2CbSize ctDepth : Int) :
    (∀ s c2 w2, encode_cb_split E an ctx w x0 y0 Log2CbSize ctDepth = .ok (s, c2, w2) →
      ∀ i, i < 4 →
        (s.child i = .null ↔ quadrantOutside E x0 y0 Log2CbSize i) ∧
        (¬ quadrantOutside E x0 y0 Log2CbSize i →
          ∃ ci wi ci2 wi2, an ci wi (childX x0 i Log2CbSize) (childY y0 i Log2CbSize)
            (Log2CbSize - 1) (ctDepth + 1) = .ok (s.child i, ci2, wi2))) ∧
    (∀ an2 : Search F L Ctx W,
      (∀ i, i < 4 → ¬ quadrantOutside E x0 y0 Log2CbSize i → ∀ c w,
        an2 c w (childX x0 i Log2CbSize) (childY y0 i Log2CbSize) (Log2CbSize - 1)
            (ctDepth + 1)
          = an c w (childX x0 i Log2CbSize) (childY y0 i Log2CbSize) (Log2CbSize - 1)
            (ctDepth + 1)) →
      encode_cb_split E an2 ctx w x0 y0 Log2CbSize ctDepth
        = encode_cb_split E an ctx w x0 y0 Log2CbSize ctDepth) ∧
    (0 ≤ x0 → 0 ≤ y0 → ∀ i, i < 4 →
      (quadrantOutside E x0 y0 Log2CbSize i ↔
        ¬ ∃ px py : Int,
          childX x0 i Log2CbSize ≤ px ∧
          px < childX x0 i Log2CbSize + 2 ^ (Log2CbSize - 1).toNat ∧
          childY y0 i Log2CbSize ≤ py ∧
          py < childY y0 i Log2CbSize + 2 ^ (Log2CbSize - 1).toNat ∧
          0 ≤ px ∧ px < E.width ∧ 0 ≤ py ∧ py < E.height)) ∧
    ((∀ i, i < 4 → ¬ quadrantOutside E x0 y0 Log2CbSize i → ∀ c wl, ∃ k c2 w2,
        an c wl (childX x0 i Log2CbSize) (childY y0 i Log2CbSize) (Log2CbSize - 1)
          (ctDepth + 1) = .ok (k, c2, w2) ∧ k ≠ .null) →
      ∃ s c2 w2, encode_cb_split E an ctx w x0 y0 Log2CbSize ctDepth = .ok (s, c2, w2) ∧
        ∀ i, i < 4 →
          (s.child i = .null ↔ quadrantOutside E x0 y0 Log2CbSize i) ∧
          (¬ quadrantOutside E x0 y0 Log2CbSize i →
            ∃ ci wi ci2 wi2, an ci wi (childX x0 i Log2CbSize) (childY y0 i Log2CbSize)
              (Log2CbSize - 1) (ctDepth + 1) = .ok (s.child i, ci2, wi2))) ∧
    (∀ i, i < 4 → ¬ quadrantOutside E x0 y0 Log2CbSize i →
      (∀ c wl, ∃ e, an c wl (childX x0 i Log2CbSize) (childY y0 i Log2CbSize)
        (Log2CbSize - 1) (ctDepth + 1) = .error e) →
      ∃ e, encode_cb_split E an ctx w x0 y0 Log2CbSize ctDepth = .error e) := by
  have hA : ∀ s c2 w2,
      encode_cb_split E an ctx w x0 y0 Log2CbSize ctDepth = .ok (s, c2, w2) →
      ∀ i, i < 4 →
        (s.child i = .null ↔ quadrantOutside E x0 y0 Log2CbSize i) ∧
        (¬ quadrantOutside E x0 y0 Log2CbSize i →
          ∃ ci wi ci2 wi2, an ci wi (childX x0 i Log2CbSize) (childY y0 i Log2CbSize)
            (Log2CbSize - 1) (ctDepth + 1) = .ok (s.child i, ci2, wi2)) := by
    intro s c2 w2 hsp i hi
    obtain ⟨k0, k1, k2, k3, hs, s0, s1, s2, s3⟩ :=
      encode_cb_split_ok E _ _ _ _ _ _ _ _ _ _ hsp
    have hslot : SlotOk E an x0 y0 Log2CbSize ctDepth i (s.child i) := by
      rw [hs]
      interval_cases i
      · exact s0
      · exact s1
      · exact s2
      · exact s3
    rcases hslot with ⟨ho, hk⟩ | ⟨ho, hk, hc⟩
    · exact ⟨⟨fun _ => ho, fun _ => hk⟩, fun h => absurd ho h⟩
    · exact ⟨⟨fun h => absurd h hk, fun h => absurd h ho⟩, fun _ => hc⟩
  refine ⟨hA, fun an2 h => encode_cb_split_congr_quadrants E an an2 ctx w x0 y0 Log2CbSize
    ctDepth h, fun hx0 hy0 i hi => quadrantOutside_iff_disjoint E x0 y0 Log2CbSize i hi hx0 hy0,
    ?_, ?_⟩
  · intro hcall
    obtain ⟨s, c2, w2, hsp⟩ :=
      encode_cb_split_total E an ctx w x0 y0 Log2CbSize ctDepth hcall
    exact ⟨s, c2, w2, hsp, hA s c2 w2 hsp⟩
  · intro i hi ho hfault
    cases hsp : encode_cb_split E an ctx w x0 y0 Log2CbSize ctDepth with
    | error e => exact ⟨e, rfl⟩
    | ok r =>
      obtain ⟨s, c2, w2⟩ := r
      obtain ⟨ci, wi, ci2, wi2, hc⟩ := (hA s c2 w2 hsp i hi).2 ho
      obtain ⟨e, he⟩ := hfault ci wi
      rw [hc] at he
      cases he

theorem encode_cb_split_null_child_iff_outside_witness :
    ∃ s c2 w2, encode_cb_split (demoEnv 24 16 3 tieDist) (analyze (demoEnv 24 16 3 tieDist))
        0 0 16 0 4 0 = .ok (s, c2, w2) ∧
      ∀ i, i < 4 →
        (s.child i = .null ↔ quadrantOutside (demoEnv 24 16 3 tieDist) 16 0 4 i) := by
  obtain ⟨s, c2, w2, hsp, hp⟩ :=
    (encode_cb_split_null_child_iff_outside (demoEnv 24 16 3 tieDist)
      (analyze (demoEnv 24 16 3 tieDist)) 0 0 16 0 4 0).2.2.2.1
      (fun i hi ho c wl => by
        have hsafe : ∀ x y : Int, 0 ≤ x → 0 ≤ y → x + 8 ≤ 24 → y + 8 ≤ 16 →
            ∃ k c2 w2, analyze (demoEnv 24 16 3 tieDist) c wl x y (4 - 1) (0 + 1)
              = .ok (k, c2, w2) ∧ k ≠ .null := by
          intro x y hx hy hxw hyh
          obtain ⟨n, c2, w2, hn, hne, _⟩ :=
            analyze_safe (demoEnv 24 16 3 tieDist) (by decide)
              (fun _ _ _ _ _ _ => ⟨_, _, _, _, _, rfl⟩) c wl x y (4 - 1) (0 + 1) hx hy
              (show x < 24 by omega) (show y < 16 by omega)
              (Or.inl (show x + 2 ^ ((4 : Int) - 1).toNat ≤ 24 from hxw))
              (Or.inl (show y + 2 ^ ((4 : Int) - 1).toNat ≤ 16 from hyh))
          exact ⟨n, c2, w2, hn, hne⟩
        interval_cases i
        · exact hsafe 16 0 (by decide) (by decide) (by decide) (by decide)
        · exact absurd (by decide) ho
        · exact hsafe 16 8 (by decide) (by decide) (by decide) (by decide)
        · exact absurd (by decide) ho)
  exact ⟨s, c2, w2, hsp, fun i hi => (hp i hi).1⟩

/-- C10: when both variants are tried, the split branch of `analyze` runs
`encode_cb_split` on the local table `ctxCopy`, into which line 117 has copied the
context-model content as it was on entry to `analyze`, before the prediction-mode search
runs on the live table.  So the split candidate, with its rate, structure and end state,
is the same whatever change `g` the no-split search makes to the live table, and that
change shows in the result only as the live table returned when no-split wins, which the
split exploration has not touched. -/
theorem split_branch_starts_from_entry_entropy_state
    [Zero F] [Add F] [Mul F] [LT F] [DecidableRel (LT.lt : F → F → Prop)]
    (E : Env F L Ctx W) (ctx : Ctx) (w : W) (x0 y0 Log2CbSize ctDepth : Int)
    (hcan : Log2CbSize > E.Log2MinCbSizeY) (hin : forcedSplit E x0 y0 Log2CbSize = false)
    (cb_no_split : enc_cb F L) (c1 : Ctx) (w1 : W)
    (hno : E.intraPartMode ctx w x0 y0 Log2CbSize ctDepth = (cb_no_split, c1, w1))
    (hnn : cb_no_split ≠ .null) :
    analyze E ctx w x0 y0 Log2CbSize ctDepth
      = (match encode_cb_split E (analyze E) ctx w1 x0 y0 Log2CbSize ctDepth with
        | .error e => .error e
        | .ok (cb_split, cS, wS) =>
          if rd_cost E cb_split < rd_cost E cb_no_split then .ok (cb_split, cS, wS)
          else .ok (cb_no_split, c1,
            E.reconstruct cb_no_split (E.write_to_image cb_no_split wS x0 y0) x0 y0)) ∧
    ∀ g : Ctx → Ctx,
      encode_cb_split (E.withNoSplitCtx Log2CbSize g) (analyze (E.withNoSplitCtx Log2CbSize g))
          ctx w1 x0 y0 Log2CbSize ctDepth
        = encode_cb_split E (analyze E) ctx w1 x0 y0 Log2CbSize ctDepth ∧
      analyze (E.withNoSplitCtx Log2CbSize g) ctx w x0 y0 Log2CbSize ctDepth
        = (match encode_cb_split E (analyze E) ctx w1 x0 y0 Log2CbSize ctDepth with
          | .error e => .error e
          | .ok (cb_split, cS, wS) =>
            if rd_cost E cb_split < rd_cost E cb_no_split then .ok (cb_split, cS, wS)
            else .ok (cb_no_split, g c1,
              E.reconstruct cb_no_split (E.write_to_image cb_no_split wS x0 y0) x0 y0)) ∧
      ∀ cb_split cS wS,
        encode_cb_split E (analyze E) ctx w1 x0 y0 Log2CbSize ctDepth
          = .ok (cb_split, cS, wS) →
        analyze (E.withNoSplitCtx Log2CbSize g) ctx w x0 y0 Log2CbSize ctDepth
          = if rd_cost E cb_split < rd_cost E cb_no_split then .ok (cb_split, cS, wS)
            else .ok (cb_no_split, g c1,
              E.reconstruct cb_no_split (E.write_to_image cb_no_split wS x0 y0) x0 y0) := by
  have hgen : ∀ g : Ctx → Ctx,
      analyze (E.withNoSplitCtx Log2CbSize g) ctx w x0 y0 Log2CbSize ctDepth
        = (match encode_cb_split E (analyze E) ctx w1 x0 y0 Log2CbSize ctDepth with
          | .error e => .error e
          | .ok (cb_split, cS, wS) =>
            if rd_cost E cb_split < rd_cost E cb_no_split then .ok (cb_split, cS, wS)
            else .ok (cb_no_split, g c1,
              E.reconstruct cb_no_split (E.write_to_image cb_no_split wS x0 y0) x0 y0)) := by
    intro g
    have hno2 : (E.withNoSplitCtx Log2CbSize g).intraPartMode ctx w x0 y0 Log2CbSize ctDepth
        = (cb_no_split, g c1, w1) := by
      show (if Log2CbSize = Log2CbSize then _ else _) = _
      rw [if_pos rfl, hno]
    rw [analyze_both_total (E.withNoSplitCtx Log2CbSize g) ctx w x0 y0 Log2CbSize ctDepth hcan
      hin cb_no_split (g c1) w1 hno2 hnn,
      encode_cb_split_withNoSplitCtx E Log2CbSize g ctx w1 x0 y0 ctDepth]
    rfl
  refine ⟨analyze_both_total E ctx w x0 y0 Log2CbSize ctDepth hcan hin cb_no_split c1 w1 hno
    hnn, fun g => ⟨encode_cb_split_withNoSplitCtx E Log2CbSize g ctx w1 x0 y0 ctDepth,
      hgen g, fun cb_split cS wS hsp => ?_⟩⟩
  rw [hgen g, hsp]

theorem split_branch_starts_from_entry_entropy_state_witness :
    analyze ((demoEnv 16 16 3 steepDist).withNoSplitCtx 4 (fun c => c + 7)) 0 0 0 0 4 0
      = .ok (demoQuad16 0, 104, 5) ∧
    analyze ((demoEnv 16 16 3 tieDist).withNoSplitCtx 4 (fun c => c + 7)) 0 0 0 0 4 0
      = .ok (.leaf 4 0 () 44 1, 8, 11005) :=
  ⟨((((split_branch_starts_from_entry_entropy_state (demoEnv 16 16 3 steepDist) 0 0 0 0 4 0
      (by decide) (by decide) (.leaf 4 0 () 100 1) 1 1 rfl (by decide)).2
      (fun c => c + 7)).2.2 (demoQuad16 0) 104 5 (by decide!)).trans (if_pos (by decide))),
   ((((split_branch_starts_from_entry_entropy_state (demoEnv 16 16 3 tieDist) 0 0 0 0 4 0
      (by decide) (by decide) (.leaf 4 0 () 44 1) 1 1 rfl (by decide)).2
      (fun c => c + 7)).2.2 (demoQuad16 0) 104 5 (by decide!)).trans (if_neg (by decide)))⟩

/-- C11: when both variants are tried, the live entropy-coder state (the table `ctxModel`
points to) on return from `analyze` is the end state of the winning variant: if split wins
it is the content of the forked table after `encode_cb_split` (line 154 copies `ctxCopy`
back into `ctxModel`); if no-split wins it is the content the prediction-mode search left,
whatever the split exploration did to its own table. -/
theorem live_entropy_state_is_winner_end_state
    [Zero F] [Add F] [Mul F] [LT F] [DecidableRel (LT.lt : F → F → Prop)]
    (E : Env F L Ctx W) (ctx : Ctx) (w : W) (x0 y0 Log2CbSize ctDepth : Int)
    (hcan : Log2CbSize > E.Log2MinCbSizeY) (hin : forcedSplit E x0 y0 Log2CbSize = false)
    (cb_no_split cb_split : enc_cb F L) (c1 cS : Ctx) (w1 wS : W)
    (hno : E.intraPartMode ctx w x0 y0 Log2CbSize ctDepth = (cb_no_split, c1, w1))
    (hnn : cb_no_split ≠ .null)
    (hsp : encode_cb_split E (analyze E) ctx w1 x0 y0 Log2CbSize ctDepth
      = .ok (cb_split, cS, wS)) :
    (rd_cost E cb_split < rd_cost E cb_no_split →
      ∃ w2, analyze E ctx w x0 y0 Log2CbSize ctDepth = .ok (cb_split, cS, w2)) ∧
    (¬ rd_cost E cb_split < rd_cost E cb_no_split →
      ∃ w2, analyze E ctx w x0 y0 Log2CbSize ctDepth = .ok (cb_no_split, c1, w2)) := by
  have hsn : cb_split ≠ .null := encode_cb_split_ne_null E _ _ _ _ _ _ _ _ _ _ hsp
  have hb := analyze_both E ctx w x0 y0 Log2CbSize ctDepth hcan hin cb_no_split cb_split
    c1 cS w1 wS hno hnn hsp hsn
  constructor
  · intro hlt
    rw [if_pos hlt] at hb
    exact ⟨wS, hb⟩
  · intro hlt
    rw [if_neg hlt] at hb
    exact ⟨_, hb⟩

theorem live_entropy_state_is_winner_end_state_witness :
    (rd_cost (demoEnv 16 16 3 steepDist) (demoQuad16 0)
        < rd_cost (demoEnv 16 16 3 steepDist) (.leaf 4 0 () 100 1) →
      ∃ w2, analyze (demoEnv 16 16 3 steepDist) 0 0 0 0 4 0 = .ok (demoQuad16 0, 104, w2)) ∧
    (¬ rd_cost (demoEnv 16 16 3 steepDist) (demoQuad16 0)
        < rd_cost (demoEnv 16 16 3 steepDist) (.leaf 4 0 () 100 1) →
      ∃ w2, analyze (demoEnv 16 16 3 steepDist) 0 0 0 0 4 0
        = .ok (.leaf 4 0 () 100 1, 1, w2)) :=
  live_entropy_state_is_winner_end_state (demoEnv 16 16 3 steepDist) 0 0 0 0 4 0
    (by decide) (by decide)
    (.leaf 4 0 () 100 1) (demoQuad16 0) 1 104 1 5 rfl (by decide) (by decide!)

/-- C12: when both variants are tried and no-split wins, the encoder state (image) on
return from `analyze` is what `write_to_image` then `reconstruct` of the kept leaf at
`(x0,y0)` make of the state the split exploration left: the leaf is re-applied after the
split exploration and last.  So whatever of the image the leaf's writes determine is, on
return, as the kept leaf writes it, not as the discarded split branch left it. -/
theorem no_split_winner_is_reapplied_to_image
    [Zero F] [Add F] [Mul F] [LT F] [DecidableRel (LT.lt : F → F → Prop)]
    (E : Env F L Ctx W) (ctx : Ctx) (w : W) (x0 y0 Log2CbSize ctDepth : Int)
    (hcan : Log2CbSize > E.Log2MinCbSizeY) (hin : forcedSplit E x0 y0 Log2CbSize = false)
    (cb_no_split cb_split : enc_cb F L) (c1 cS : Ctx) (w1 wS : W)
    (hno : E.intraPartMode ctx w x0 y0 Log2CbSize ctDepth = (cb_no_split, c1, w1))
    (hnn : cb_no_split ≠ .null)
    (hsp : encode_cb_split E (analyze E) ctx w1 x0 y0 Log2CbSize ctDepth
      = .ok (cb_split, cS, wS))
    (hwin : ¬ rd_cost E cb_split < rd_cost E cb_no_split) :
    analyze E ctx w x0 y0 Log2CbSize ctDepth
      = .ok (cb_no_split, c1,
          E.reconstruct cb_no_split (E.write_to_image cb_no_split wS x0 y0) x0 y0) ∧
    ∀ (α : Type) (view : W → α) (v : α),
      (∀ w3, view (E.reconstruct cb_no_split (E.write_to_image cb_no_split w3 x0 y0) x0 y0)
        = v) →
      ∃ c2 w2, analyze E ctx w x0 y0 Log2CbSize ctDepth = .ok (cb_no_split, c2, w2) ∧
        view w2 = v := by
  have hsn : cb_split ≠ .null := encode_cb_split_ne_null E _ _ _ _ _ _ _ _ _ _ hsp
  have hb := analyze_both E ctx w x0 y0 Log2CbSize ctDepth hcan hin cb_no_split cb_split
    c1 cS w1 wS hno hnn hsp hsn
  rw [if_neg hwin] at hb
  exact ⟨hb, fun α view v hv => ⟨_, _, hb, hv wS⟩⟩

theorem no_split_winner_is_reapplied_to_image_witness :
    analyze (demoEnv 16 16 3 tieDist) 0 0 0 0 4 0 = .ok (.leaf 4 0 () 44 1, 1, 11005) :=
  (no_split_winner_is_reapplied_to_image (demoEnv 16 16 3 tieDist) 0 0 0 0 4 0
    (by decide) (by decide)
    (.leaf 4 0 () 44 1) (demoQuad16 0) 1 104 1 5 rfl (by decide) (by decide!) (by decide)).1

/-- C13: when only one variant is computable, `analyze` returns that variant's outcome as
it is, with no cost comparison, no fork of the entropy-coder state and no
re-reconstruction.  A block at (or below) the minimum size inside the image gives exactly
what the prediction-mode search returned and left (so with a leaf returned the block is not
split); a block forced to split that can be split gives exactly the outcome of
`encode_cb_split` run on the live context-model table. -/
theorem single_variant_is_returned_directly
    [Zero F] [Add F] [Mul F] [LT F] [DecidableRel (LT.lt : F → F → Prop)]
    (E : Env F L Ctx W) (ctx : Ctx) (w : W) (x0 y0 Log2CbSize ctDepth : Int) :
    (Log2CbSize ≤ E.Log2MinCbSizeY → forcedSplit E x0 y0 Log2CbSize = false →
      analyze E ctx w x0 y0 Log2CbSize ctDepth
        = .ok (E.intraPartMode ctx w x0 y0 Log2CbSize ctDepth) ∧
      ((E.intraPartMode ctx w x0 y0 Log2CbSize ctDepth).1.split_cu_flag = false →
        ∃ n c2 w2, analyze E ctx w x0 y0 Log2CbSize ctDepth = .ok (n, c2, w2) ∧
          n.split_cu_flag = false)) ∧
    (Log2CbSize > E.Log2MinCbSizeY → forcedSplit E x0 y0 Log2CbSize = true →
      analyze E ctx w x0 y0 Log2CbSize ctDepth
        = encode_cb_split E (analyze E) ctx w x0 y0 Log2CbSize ctDepth) := by
  constructor
  · intro hcan hin
    have h : analyze E ctx w x0 y0 Log2CbSize ctDepth
        = .ok (E.intraPartMode ctx w x0 y0 Log2CbSize ctDepth) := by
      rw [analyze_eq]
      exact analyzeBody_min E _ ctx w x0 y0 Log2CbSize ctDepth (not_lt.mpr hcan) hin
    exact ⟨h, fun hl => ⟨_, _, _, h, hl⟩⟩
  · intro hcan hin
    rw [analyze_eq]
    exact analyzeBody_forced E _ ctx w x0 y0 Log2CbSize ctDepth hcan hin

theorem single_variant_is_returned_directly_witness :
    analyze (demoEnv 16 16 3 steepDist) 0 0 8 8 3 1 = .ok (demoLeaf8 1, 1, 1) ∧
    analyze (demoEnv 24 16 3 tieDist) 0 0 16 0 4 0
      = encode_cb_split (demoEnv 24 16 3 tieDist) (analyze (demoEnv 24 16 3 tieDist))
          0 0 16 0 4 0 :=
  ⟨((single_variant_is_returned_directly (demoEnv 16 16 3 steepDist) 0 0 8 8 3 1).1
      (by decide) (by decide)).1,
   (single_variant_is_returned_directly (demoEnv 24 16 3 tieDist) 0 0 16 0 4 0).2
      (by decide) (by decide)⟩

/-- C14: for every `enc_tb` node, `isZeroBlock()` returns true if and only if the three
coded-block flags `cbf[0]`, `cbf[1]`, `cbf[2]` are all false, that is all zero. -/
theorem isZeroBlock_iff_all_cbf_zero {P : Type} (tb : enc_tb F P) :
    tb.isZeroBlock = true ↔ tb.cbf 0 = 0 ∧ tb.cbf 1 = 0 ∧ tb.cbf 2 = 0 := by
  unfold enc_tb.isZeroBlock
  simp only [Bool.and_eq_true, decide_eq_true_eq, and_assoc]

theorem isZeroBlock_iff_all_cbf_zero_witness :
    (demoTb 0 0 0).isZeroBlock = true ∧ (demoTb 0 2 0).isZeroBlock = false := by
  refine ⟨(isZeroBlock_iff_all_cbf_zero (demoTb 0 0 0)).mpr (by decide), ?_⟩
  cases h : (demoTb 0 2 0).isZeroBlock with
  | false => rfl
  | true => exact absurd ((isZeroBlock_iff_all_cbf_zero (demoTb 0 2 0)).mp h).2.1 (by decide)

/-- C15: for every node returned by `encode_cb_split` called with `Log2CbSize >= 1` on a
block whose origin is inside the image, a child slot is NULL only if the block extends
past the right or bottom image edge; so if the block lies entirely inside the image all
four children are non-NULL, and child 0 (top-left) is never NULL. -/
theorem null_child_only_past_image_edge [Zero F] [Add F]
    (E : Env F L Ctx W) (an : Search F L Ctx W) (ctx : Ctx) (w : W)
    (x0 y0 Log2CbSize ctDepth : Int)
    (hL : 1 ≤ Log2CbSize) (hxw : x0 < E.width) (hyh : y0 < E.height)
    (s : enc_cb F L) (c2 : Ctx) (w2 : W)
    (h : encode_cb_split E an ctx w x0 y0 Log2CbSize ctDepth = .ok (s, c2, w2)) :
    s.split_cu_flag = true ∧
    s.child 0 ≠ .null ∧
    (∀ i, i < 4 → s.child i = .null →
      x0 + 2 ^ Log2CbSize.toNat > E.width ∨ y0 + 2 ^ Log2CbSize.toNat > E.height) ∧
    (x0 + 2 ^ Log2CbSize.toNat ≤ E.width → y0 + 2 ^ Log2CbSize.toNat ≤ E.height →
      ∀ i, i < 4 → s.child i ≠ .null) := by
  obtain ⟨k0, k1, k2, k3, hs, s0, s1, s2, s3⟩ := encode_cb_split_ok E _ _ _ _ _ _ _ _ _ _ h
  have hslot : ∀ i, i < 4 → SlotOk E an x0 y0 Log2CbSize ctDepth i (s.child i) := by
    intro i hi
    rw [hs]
    interval_cases i
    · exact s0
    · exact s1
    · exact s2
    · exact s3
  have h2 := two_pow_toNat_pred Log2CbSize hL
  have hpos := two_pow_toNat_pos (Log2CbSize - 1)
  have hnull : ∀ i, i < 4 → s.child i = .null →
      x0 + 2 ^ Log2CbSize.toNat > E.width ∨ y0 + 2 ^ Log2CbSize.toNat > E.height := by
    intro i hi hk
    rcases hslot i hi with ⟨ho, _⟩ | ⟨_, hne, _⟩
    · have hcx := childX_cases x0 i Log2CbSize hi
      have hcy := childY_cases y0 i Log2CbSize hi
      unfold quadrantOutside at ho
      rcases ho with ho | ho
      · left
        rcases hcx with hc | hc <;> rw [hc] at ho <;> omega
      · right
        rcases hcy with hc | hc <;> rw [hc] at ho <;> omega
    · exact absurd hk hne
  refine ⟨by rw [hs]; rfl, ?_, hnull, ?_⟩
  · rcases hslot 0 (by decide) with ⟨ho, _⟩ | ⟨_, hne, _⟩
    · exfalso
      unfold quadrantOutside childX childY shl at ho
      simp at ho
      omega
    · exact hne
  · intro hx hy i hi hk
    rcases hnull i hi hk with h1 | h1 <;> omega

theorem null_child_only_past_image_edge_witness :
    (demoHalf16 0).split_cu_flag = true ∧
    (demoHalf16 0).child 0 ≠ .null ∧
    (∀ i, i < 4 → (demoHalf16 0).child i = .null →
      (16 : Int) + 2 ^ (4 : Int).toNat > (demoEnv 24 16 3 tieDist).width ∨
      (0 : Int) + 2 ^ (4 : Int).toNat > (demoEnv 24 16 3 tieDist).height) ∧
    ((16 : Int) + 2 ^ (4 : Int).toNat ≤ (demoEnv 24 16 3 tieDist).width →
      (0 : Int) + 2 ^ (4 : Int).toNat ≤ (demoEnv 24 16 3 tieDist).height →
      ∀ i, i < 4 → (demoHalf16 0).child i ≠ .null) :=
  null_child_only_past_image_edge (demoEnv 24 16 3 tieDist)
    (analyze (demoEnv 24 16 3 tieDist)) 0 0 16 0 4 0 (by decide) (by decide) (by decide)
    (demoHalf16 0) 102 2 (by decide!)

/-- C16: when the image width and height are multiples of `2^Log2MinCbSizeY`
(`Log2MinCbSizeY >= 0`), `Log2CbSize >= Log2MinCbSizeY`, `x0` and `y0` are multiples of
`2^Log2CbSize` with `0 <= x0 < width` and `0 <= y0 < height`, and the prediction-mode
search returns non-NULL leaves, then on no block the recursion visits is `analyze` in the
case where the block can neither be split nor left unsplit, every call of `analyze` on
such a block returns a non-NULL node, and every call of `encode_cb_split` on such a block
completes, so it never reads through a NULL child. -/
theorem aligned_search_never_meets_null
    [Zero F] [Add F] [Mul F] [LT F] [DecidableRel (LT.lt : F → F → Prop)]
    (E : Env F L Ctx W) (hmin : 0 ≤ E.Log2MinCbSizeY) (hpm : ReturnsLeaf E)
    (ctx : Ctx) (w : W) (x0 y0 Log2CbSize ctDepth : Int)
    (hw : (2 : Int) ^ E.Log2MinCbSizeY.toNat ∣ E.width)
    (hh : (2 : Int) ^ E.Log2MinCbSizeY.toNat ∣ E.height)
    (hL : E.Log2MinCbSizeY ≤ Log2CbSize)
    (hx : (2 : Int) ^ Log2CbSize.toNat ∣ x0) (hy : (2 : Int) ^ Log2CbSize.toNat ∣ y0)
    (hx0 : 0 ≤ x0) (hxw : x0 < E.width) (hy0 : 0 ≤ y0) (hyh : y0 < E.height) :
    (∃ n c2 w2, analyze E ctx w x0 y0 Log2CbSize ctDepth = .ok (n, c2, w2) ∧ n ≠ .null) ∧
    (∀ x y l, Visits E x0 y0 Log2CbSize x y l →
      ¬ (l ≤ E.Log2MinCbSizeY ∧ forcedSplit E x y l = true)) ∧
    (∀ x y l, Visits E x0 y0 Log2CbSize x y l → ∀ (c : Ctx) (wl : W) (d : Int),
      (∃ n c2 w2, analyze E c wl x y l d = .ok (n, c2, w2) ∧ n ≠ .null) ∧
      (l > E.Log2MinCbSizeY →
        ∃ s c2 w2, encode_cb_split E (analyze E) c wl x y l d = .ok (s, c2, w2))) := by
  have hex := edgeOk_of_aligned E.Log2MinCbSizeY x0 Log2CbSize E.width hL hw hx
  have hey := edgeOk_of_aligned E.Log2MinCbSizeY y0 Log2CbSize E.height hL hh hy
  have hinv := visits_invariant E hmin x0 y0 Log2CbSize hx0 hy0 hxw hyh hex hey
  have hsafe : ∀ x y l, Visits E x0 y0 Log2CbSize x y l → ∀ (c : Ctx) (wl : W) (d : Int),
      ∃ n c2 w2, analyze E c wl x y l d = .ok (n, c2, w2) ∧ n ≠ .null := by
    intro x y l hv c wl d
    obtain ⟨h1, h2, h3, h4, h5, h6⟩ := hinv x y l hv
    obtain ⟨n, c2, w2, hn, hne, _⟩ := analyze_safe E hmin hpm c wl x y l d h1 h2 h3 h4 h5 h6
    exact ⟨n, c2, w2, hn, hne⟩
  refine ⟨hsafe _ _ _ Visits.root ctx w ctDepth, ?_, ?_⟩
  · rintro x y l hv ⟨hl, hf⟩
    obtain ⟨_, _, h3, h4, h5, h6⟩ := hinv x y l hv
    have hix := edgeOk_min _ _ _ _ hl h5 h3
    have hiy := edgeOk_min _ _ _ _ hl h6 h4
    rw [(forcedSplit_eq_false_iff E x y l).mpr ⟨hix, hiy⟩] at hf
    cases hf
  · intro x y l hv c wl d
    refine ⟨hsafe x y l hv c wl d, fun hl => ?_⟩
    exact encode_cb_split_total E (analyze E) c wl x y l d
      (fun i hi ho c2 w2 => hsafe _ _ _ (Visits.child x y l i hv hl hi ho) c2 w2 (d + 1))

theorem aligned_search_never_meets_null_witness :
    ∃ n c2 w2, analyze (demoEnv 24 32 3 steepDist) 0 0 0 0 5 0 = .ok (n, c2, w2) ∧
      n ≠ .null :=
  (aligned_search_never_meets_null (demoEnv 24 32 3 steepDist) (by decide)
    (fun _ _ _ _ _ _ => ⟨_, _, _, _, _, rfl⟩) 0 0 0 0 5 0 (by decide) (by decide) (by decide)
    (by decide) (by decide) (by decide) (by decide) (by decide) (by decide)).1

/-- C17: under the alignment preconditions (image width and height multiples of
`2^Log2MinCbSizeY`, `Log2MinCbSizeY >= 0`, `Log2CbSize >= Log2MinCbSizeY`, `x0` and `y0`
multiples of `2^Log2CbSize` with `0 <= x0 < width`, `0 <= y0 < height`, the
prediction-mode search returning non-NULL leaves), the leaf CBs of the tree `analyze`
returns, placed by `childX`/`childY`, are squares that each lie fully inside the image,
are pairwise disjoint, and whose union is exactly the part of the square
`[x0, x0+2^Log2CbSize) x [y0, y0+2^Log2CbSize)` that is inside the image. -/
theorem leaf_blocks_tile_block_inside_image
    [Zero F] [Add F] [Mul F] [LT F] [DecidableRel (LT.lt : F → F → Prop)]
    (E : Env F L Ctx W) (hmin : 0 ≤ E.Log2MinCbSizeY) (hpm : ReturnsLeaf E)
    (ctx : Ctx) (w : W) (x0 y0 Log2CbSize ctDepth : Int)
    (hw : (2 : Int) ^ E.Log2MinCbSizeY.toNat ∣ E.width)
    (hh : (2 : Int) ^ E.Log2MinCbSizeY.toNat ∣ E.height)
    (hL : E.Log2MinCbSizeY ≤ Log2CbSize)
    (hx : (2 : Int) ^ Log2CbSize.toNat ∣ x0) (hy : (2 : Int) ^ Log2CbSize.toNat ∣ y0)
    (hx0 : 0 ≤ x0) (hxw : x0 < E.width) (hy0 : 0 ≤ y0) (hyh : y0 < E.height) :
    ∃ n c2 w2, analyze E ctx w x0 y0 Log2CbSize ctDepth = .ok (n, c2, w2) ∧
      (∀ b, b ∈ n.leafBlocks x0 y0 Log2CbSize →
        0 ≤ b.1 ∧ 0 ≤ b.2.1 ∧
        b.1 + 2 ^ b.2.2.toNat ≤ E.width ∧ b.2.1 + 2 ^ b.2.2.toNat ≤ E.height) ∧
      (n.leafBlocks x0 y0 Log2CbSize).Pairwise squaresDisjoint ∧
      (∀ px py : Int,
        (∃ b, b ∈ n.leafBlocks x0 y0 Log2CbSize ∧ inSquare b px py) ↔
          (inSquare (x0, y0, Log2CbSize) px py ∧
            0 ≤ px ∧ px < E.width ∧ 0 ≤ py ∧ py < E.height)) := by
  have hex := edgeOk_of_aligned E.Log2MinCbSizeY x0 Log2CbSize E.width hL hw hx
  have hey := edgeOk_of_aligned E.Log2MinCbSizeY y0 Log2CbSize E.height hL hh hy
  obtain ⟨n, c2, w2, hn, _, ha, hp, hc⟩ :=
    analyze_tiling E hmin hpm ctx w x0 y0 Log2CbSize ctDepth hx0 hy0 hxw hyh hex hey
  refine ⟨n, c2, w2, hn, ?_, hp, ?_⟩
  · intro b hb
    have := ha b hb
    exact ⟨this.2.2.2.2.1, this.2.2.2.2.2.1, this.2.2.2.2.2.2.1, this.2.2.2.2.2.2.2⟩
  · intro px py
    constructor
    · rintro ⟨b, hb, hin⟩
      have := ha b hb
      unfold inSquare at hin ⊢
      dsimp only
      omega
    · rintro ⟨hin, h1, h2, h3, h4⟩
      exact hc px py hin h1 h2 h3 h4

theorem leaf_blocks_tile_block_inside_image_witness :
    ∃ n c2 w2, analyze (demoEnv 24 32 3 steepDist) 0 0 0 0 5 0 = .ok (n, c2, w2) ∧
      (∀ b, b ∈ n.leafBlocks 0 0 5 →
        0 ≤ b.1 ∧ 0 ≤ b.2.1 ∧
        b.1 + 2 ^ b.2.2.toNat ≤ (demoEnv 24 32 3 steepDist).width ∧
        b.2.1 + 2 ^ b.2.2.toNat ≤ (demoEnv 24 32 3 steepDist).height) ∧
      (n.leafBlocks 0 0 5).Pairwise squaresDisjoint ∧
      (∀ px py : Int,
        (∃ b, b ∈ n.leafBlocks 0 0 5 ∧ inSquare b px py) ↔
          (inSquare (0, 0, 5) px py ∧
            0 ≤ px ∧ px < (demoEnv 24 32 3 steepDist).width ∧
            0 ≤ py ∧ py < (demoEnv 24 32 3 steepDist).height)) :=
  leaf_blocks_tile_block_inside_image (demoEnv 24 32 3 steepDist) (by decide)
    (fun _ _ _ _ _ _ => ⟨_, _, _, _, _, rfl⟩) 0 0 0 0 5 0 (by decide) (by decide) (by decide)
    (by decide) (by decide) (by decide) (by decide) (by decide) (by decide)

/-- C18: the recursion `analyze -> encode_cb_split -> analyze` ends for every input.
`analyze` calls itself only through `encode_cb_split`, only when
`Log2CbSize > Log2MinCbSizeY`, and only with `Log2CbSize-1` and `ctDepth+1`; so a budget of
`max(0, Log2CbSize - Log2MinCbSizeY)` nested calls is never used up and any larger budget
gives the same outcome.  Every split node of the returned tree has
`log2CbSize > Log2MinCbSizeY` (sizes that fit the `uint8_t` field, the prediction-mode
search returning non-split nodes). -/
theorem recursion_depth_bounded_by_size
    [Zero F] [Add F] [Mul F] [LT F] [DecidableRel (LT.lt : F → F → Prop)]
    (E : Env F L Ctx W) (ctx : Ctx) (w : W) (x0 y0 Log2CbSize ctDepth : Int) :
    analyze E ctx w x0 y0 Log2CbSize ctDepth ≠ .error .outOfFuel ∧
    (∀ fuel : Nat, (Log2CbSize - E.Log2MinCbSizeY).toNat < fuel →
      analyzeFuel E fuel ctx w x0 y0 Log2CbSize ctDepth
        = analyze E ctx w x0 y0 Log2CbSize ctDepth) ∧
    (∀ an an2 : Search F L Ctx W,
      (Log2CbSize > E.Log2MinCbSizeY → ∀ c wl x y,
        an c wl x y (Log2CbSize - 1) (ctDepth + 1)
          = an2 c wl x y (Log2CbSize - 1) (ctDepth + 1)) →
      analyzeBody E an ctx w x0 y0 Log2CbSize ctDepth
        = analyzeBody E an2 ctx w x0 y0 Log2CbSize ctDepth) ∧
    (Log2CbSize < 256 →
      (∀ c wl x y l d, (E.intraPartMode c wl x y l d).1.split_cu_flag = false) →
      ∀ n c2 w2, analyze E ctx w x0 y0 Log2CbSize ctDepth = .ok (n, c2, w2) →
        n.AllSplit (fun s => s.log2CbSize > E.Log2MinCbSizeY)) := by
  refine ⟨analyze_ne_outOfFuel E ctx w x0 y0 Log2CbSize ctDepth,
    fun fuel hf => analyzeFuel_eq_analyze E fuel ctx w x0 y0 Log2CbSize ctDepth hf,
    fun an an2 h => analyzeBody_congr E an an2 ctx w x0 y0 Log2CbSize ctDepth
      (fun hcan c wl x y _ _ => h hcan c wl x y), ?_⟩
  intro hB hleaf n c2 w2 h
  refine analyzeFuel_allSplit_le E _ 255 ?_ hleaf _ ctx w x0 y0 Log2CbSize ctDepth n c2 w2
    (by omega) h
  intro an ctx w x0 y0 l d s c2 w2 hcan hl hsp
  obtain ⟨k0, k1, k2, k3, hs, _⟩ := encode_cb_split_ok E _ _ _ _ _ _ _ _ _ _ hsp
  rw [hs]
  show l % 256 > E.Log2MinCbSizeY
  omega

theorem recursion_depth_bounded_by_size_witness :
    demoTree32.AllSplit (fun s => s.log2CbSize > (demoEnv 24 32 3 steepDist).Log2MinCbSizeY) :=
  (recursion_depth_bounded_by_size (demoEnv 24 32 3 steepDist) 0 0 0 0 5 0).2.2.2
    (by decide) (fun _ _ _ _ _ _ => rfl) demoTree32 512 14 (by decide!)

/-- C19: `encode_cb_split` threads the entropy-coder state (and the encoder state)
sequentially.  It completes with node `s` and end state `(c4, w4)` exactly when: the
split-flag rate is estimated on the state passed in, leaving `(c0, w0)`; then the four
quadrants are taken in index order 0, 1, 2, 3, each pass starting from the state the
previous pass left, a quadrant inside the image being analysed from that state and a
quadrant outside the image leaving it unchanged; and `s` holds the four results. -/
theorem encode_cb_split_threads_state [Zero F] [Add F]
    (E : Env F L Ctx W) (an : Search F L Ctx W) (ctx : Ctx) (w : W)
    (x0 y0 Log2CbSize ctDepth : Int) (s : enc_cb F L) (c4 : Ctx) (w4 : W) :
    encode_cb_split E an ctx w x0 y0 Log2CbSize ctDepth = .ok (s, c4, w4) ↔
      ∃ (k0 : enc_cb F L) (c1 : Ctx) (w1 : W) (k1 : enc_cb F L) (c2 : Ctx) (w2 : W)
        (k2 : enc_cb F L) (c3 : Ctx) (w3 : W) (k3 : enc_cb F L),
        ChildStep E an x0 y0 Log2CbSize ctDepth 0
          (E.splitFlagRate ctx w x0 y0 Log2CbSize ctDepth).2.1
          (E.splitFlagRate ctx w x0 y0 Log2CbSize ctDepth).2.2 k0 c1 w1 ∧
        ChildStep E an x0 y0 Log2CbSize ctDepth 1 c1 w1 k1 c2 w2 ∧
        ChildStep E an x0 y0 Log2CbSize ctDepth 2 c2 w2 k2 c3 w3 ∧
        ChildStep E an x0 y0 Log2CbSize ctDepth 3 c3 w3 k3 c4 w4 ∧
        s = .split (Log2CbSize % 256) (ctDepth % 256) k0 k1 k2 k3
              (childSum enc_cb.distortion 0 [k0, k1, k2, k3])
              (childSum enc_cb.rate (E.splitFlagRate ctx w x0 y0 Log2CbSize ctDepth).1
                [k0, k1, k2, k3]) := by
  unfold encode_cb_split
  rw [foldlM_four]
  constructor
  · rintro ⟨s1, s2, s3, h0, h1, h2, h3⟩
    obtain ⟨k0, e0, r0⟩ := childStep_of_encode_cb_split_child E an _ _ _ _ _ _ 0 h0
    obtain ⟨k1, e1, r1⟩ := childStep_of_encode_cb_split_child E an _ _ _ _ _ _ 1 h1
    obtain ⟨k2, e2, r2⟩ := childStep_of_encode_cb_split_child E an _ _ _ _ _ _ 2 h2
    obtain ⟨k3, e3, r3⟩ := childStep_of_encode_cb_split_child E an _ _ _ _ _ _ 3 h3
    refine ⟨k0, _, _, k1, _, _, k2, _, _, k3, r0, r1, r2, r3, ?_⟩
    dsimp only at e0 e1 e2 e3
    rw [← slotUpdate_four, ← e0, ← e1, ← e2, ← e3]
  · rintro ⟨k0, c1, w1, k1, c2, w2, k2, c3, w3, k3, r0, r1, r2, r3, hs⟩
    refine ⟨_, _, _, encode_cb_split_child_of_step E an _ _ _ _ _ 0 k0 c1 w1 r0,
      encode_cb_split_child_of_step E an _ _ _ _ _ 1 k1 c2 w2 r1,
      encode_cb_split_child_of_step E an _ _ _ _ _ 2 k2 c3 w3 r2, ?_⟩
    rw [encode_cb_split_child_of_step E an _ _ _ _ _ 3 k3 c4 w4 r3, hs, ← slotUpdate_four]

theorem encode_cb_split_threads_state_witness :
    ∃ (k0 : enc_cb Int Unit) (c1 : Nat) (w1 : Nat) (k1 : enc_cb Int Unit) (c2 : Nat) (w2 : Nat)
      (k2 : enc_cb Int Unit) (c3 : Nat) (w3 : Nat) (k3 : enc_cb Int Unit),
      ChildStep (demoEnv 24 16 3 tieDist) (analyze (demoEnv 24 16 3 tieDist)) 16 0 4 0 0
        ((demoEnv 24 16 3 tieDist).splitFlagRate 0 0 16 0 4 0).2.1
        ((demoEnv 24 16 3 tieDist).splitFlagRate 0 0 16 0 4 0).2.2 k0 c1 w1 ∧
      ChildStep (demoEnv 24 16 3 tieDist) (analyze (demoEnv 24 16 3 tieDist)) 16 0 4 0 1
        c1 w1 k1 c2 w2 ∧
      ChildStep (demoEnv 24 16 3 tieDist) (analyze (demoEnv 24 16 3 tieDist)) 16 0 4 0 2
        c2 w2 k2 c3 w3 ∧
      ChildStep (demoEnv 24 16 3 tieDist) (analyze (demoEnv 24 16 3 tieDist)) 16 0 4 0 3
        c3 w3 k3 102 2 ∧
      demoHalf16 0 = .split (4 % 256) (0 % 256) k0 k1 k2 k3
        (childSum enc_cb.distortion 0 [k0, k1, k2, k3])
        (childSum enc_cb.rate ((demoEnv 24 16 3 tieDist).splitFlagRate 0 0 16 0 4 0).1
          [k0, k1, k2, k3]) :=
  (encode_cb_split_threads_state (demoEnv 24 16 3 tieDist)
    (analyze (demoEnv 24 16 3 tieDist)) 0 0 16 0 4 0 (demoHalf16 0) 102 2).mp (by decide!)


end Claims

end Libde265
